import Mathlib

/-!
# Key-emulator firmware: key store, bus driver and navigation

A shallow embedding of the key store (`save_key`, `delete_key`,
`get_key_offset`, `get_key_by_index`, `update_key_by_index`), of the
DS1990 bus routines (`read_ds1990`, `copy_ds1990`), and of the screen table
with the button handlers of the key-list, read, copy and emulate screens of
`main.cpp`.

Conventions of the embedding.

* The EEPROM is a byte store addressed by an `int`: `Memory := Int → Nat`.
  Every read is reduced modulo 256 and every write stores the value modulo
  256, so a cell always reads as a `uint8_t`.
* `int` variables are `Int`.  Address arithmetic is not wrapped: the store is
  taken large enough for the addresses that occur.  A `byte` is a `Nat`
  below 256; where the source assigns an `int` expression to a `byte` the
  embedding reduces it modulo 256 (`toByte`).
* The 16-bit counter at offset 0 is stored little endian in two cells and
  read back as a signed 16-bit value.
* The one-wire bus object is explicit state: the answers the attached
  device will give, and the log of what the master has driven.
* The navigation globals are explicit state (`Nav`).  The display is not
  modelled; a draw routine is seen through what it leaves in `buffer`.
* A handler with a wait loop takes a bound on the number of iterations and
  returns `none` when the loop has not ended within it; the outcomes of the
  `check_button` calls are part of the surroundings (`Env`).
-/

namespace KeyEmulator

/-! ## Constants of the persisted layout -/

abbrev KEY_NAME_OFFSET : Int := 1
abbrev KEY_NAME_LEN : Nat := 32
abbrev KEY_TYPE_OFFSET : Int := 0
abbrev KEY_OFFSET : Int := 33
abbrev KEY_TABLE_OFFSET : Int := 2
abbrev KEY_SIZE : Int := 41

/-- The `Key` struct: 64-bit identity, logical index, type byte. -/
structure Key where
  cur_key : Nat
  key_index : Int
  key_type : Nat

/-- The persistent byte store: address to stored byte. -/
abbrev Memory := Int → Nat

/-- Conversion of an `int` value to `uint8_t`. -/
def toByte (v : Int) : Nat := (v % 256).toNat

namespace EEPROM

/-- `EEPROM.readByte(address)`. -/
def readByte (m : Memory) (address : Int) : Nat := m address % 256

/-- `EEPROM.updateByte(address, value)`; the value parameter is a `uint8_t`. -/
def updateByte (m : Memory) (address : Int) (value : Nat) : Memory :=
  fun a => if a = address then value % 256 else m a

/-- `EEPROM.readInt(address)`: two cells, little endian, signed 16 bit. -/
def readInt (m : Memory) (address : Int) : Int :=
  let u : Int := (readByte m address : Int) + 256 * (readByte m (address + 1) : Int)
  if u < 32768 then u else u - 65536

/-- `EEPROM.updateInt(address, value)`: the low 16 bits, little endian. -/
def updateInt (m : Memory) (address : Int) (value : Int) : Memory :=
  updateByte (updateByte m address (toByte value)) (address + 1) (toByte (value / 256))

/-- `EEPROM.readLong(address)`: four cells, little endian, unsigned 32 bit. -/
def readLong (m : Memory) (address : Int) : Nat :=
  readByte m address + 256 * readByte m (address + 1)
    + 65536 * readByte m (address + 2) + 16777216 * readByte m (address + 3)

/-- `EEPROM.updateLong(address, value)`: the low 32 bits, little endian. -/
def updateLong (m : Memory) (address : Int) (value : Nat) : Memory :=
  updateByte (updateByte (updateByte (updateByte m address (value % 256))
    (address + 1) (value / 256 % 256)) (address + 2) (value / 65536 % 256))
    (address + 3) (value / 16777216 % 256)

end EEPROM

open EEPROM

/-! ## Key store -/

/-- The loop of `get_key_offset`: `n` iterations from `real_index`.  Each
iteration looks at the type byte of the slot after `real_index`. -/
def get_key_offset_loop (m : Memory) : Nat → Int → Int
  | 0, real_index => real_index
  | n + 1, real_index =>
    if readByte m (KEY_TABLE_OFFSET + real_index * KEY_SIZE + KEY_SIZE + KEY_TYPE_OFFSET) >>> 7 ≠ 0 then
      let key_offset :=
        readByte m (KEY_TABLE_OFFSET + real_index * KEY_SIZE + KEY_SIZE + KEY_TYPE_OFFSET) &&& 127
      get_key_offset_loop m n (real_index + key_offset)
    else
      get_key_offset_loop m n (real_index + 1)

/-- The value of `real_index` when the loop of `get_key_offset` starts. -/
def get_key_offset_start (m : Memory) : Int :=
  if readByte m (KEY_TABLE_OFFSET + KEY_TYPE_OFFSET) >>> 7 ≠ 0 then
    ((readByte m (KEY_TABLE_OFFSET + KEY_TYPE_OFFSET) &&& 127 : Nat) : Int)
  else 0

/-- `get_key_offset(index)`: the loop `for (; i < index; i++)` runs
`index.toNat` times. -/
def get_key_offset (m : Memory) (index : Int) : Int :=
  KEY_TABLE_OFFSET + get_key_offset_loop m index.toNat (get_key_offset_start m) * KEY_SIZE

/-- `get_key_by_index(index)`. -/
def get_key_by_index (m : Memory) (index : Int) : Key :=
  let offset := get_key_offset m index
  { cur_key := (readLong m (offset + KEY_OFFSET + 4) * 4294967296) ||| readLong m (offset + KEY_OFFSET)
    key_index := index
    key_type := readByte m (offset + KEY_TYPE_OFFSET) }

/-- `update_key_by_index(key)`. -/
def update_key_by_index (m : Memory) (key : Key) : Memory :=
  let cur_key_start := KEY_TABLE_OFFSET + key.key_index * KEY_SIZE
  let m1 := updateByte m (cur_key_start + KEY_TYPE_OFFSET) key.key_type
  let m2 := updateLong m1 (cur_key_start + KEY_OFFSET) (key.cur_key % 4294967296)
  updateLong m2 (cur_key_start + KEY_OFFSET + 4) (key.cur_key / 4294967296 % 4294967296)

/-- The globals `save_key` works on: the EEPROM, `global_key`, and the text
`buffer` (index to character code). -/
structure KeyState where
  eeprom : Memory
  global_key : Key
  buffer : Nat → Nat

/-- The scan of `save_key`: advance `i` while it is below `cur_n_keys` and
slot `i` has bit 7 of its type byte clear.  The first argument bounds the
iterations; started at `i = 0` with `cur_n_keys.toNat` it is never the
reason the scan stops. -/
def save_key_scan (m : Memory) (cur_n_keys : Int) : Nat → Int → Int
  | 0, i => i
  | n + 1, i =>
    if i < cur_n_keys ∧ readByte m (KEY_TABLE_OFFSET + i * KEY_SIZE + KEY_TYPE_OFFSET) >>> 7 = 0 then
      save_key_scan m cur_n_keys n (i + 1)
    else i

/-- The text `str20`, "New key ", with its terminator. -/
def str20 : List Nat := [78, 101, 119, 32, 107, 101, 121, 32, 0]

/-- `strcpy_P(buffer, src)`: the characters of `src` (terminator included)
replace the start of the buffer. -/
def strcpy_P (buffer : Nat → Nat) (src : List Nat) : Nat → Nat :=
  fun k => if k < src.length then src.getD k 0 else buffer k

/-- Assignment `buffer[k] = v` of an `int` expression to a `char` cell. -/
def setChar (buffer : Nat → Nat) (k : Nat) (v : Int) : Nat → Nat :=
  fun j => if j = k then toByte v else buffer j

/-- The title generated by `save_key` when `original_title` is false. -/
def save_key_title (buffer : Nat → Nat) (cur_n_keys : Int) : Nat → Nat :=
  let b := strcpy_P buffer str20
  if cur_n_keys ≥ 10 then
    setChar (setChar (setChar b 8 (48 + Int.tdiv cur_n_keys 10)) 9 (48 + Int.tmod cur_n_keys 10)) 10 0
  else
    setChar (setChar b 8 (48 + Int.tmod cur_n_keys 10)) 9 0

/-- The last loop of `save_key`: cells `0 .. n-1` of the name field are
written from the buffer, in increasing order. -/
def save_key_name (buffer : Nat → Nat) (key_start : Int) : Nat → Memory → Memory
  | 0, m => m
  | n + 1, m =>
    updateByte (save_key_name buffer key_start n m) (key_start + KEY_NAME_OFFSET + (n : Int)) (buffer n)

/-- The marker rewrite of `save_key` (the body of its `if`). -/
def save_key_shrink (m : Memory) (i : Int) : Memory :=
  if i ≠ EEPROM.readInt m 0 ∧
      (readByte m (KEY_TABLE_OFFSET + i * KEY_SIZE + KEY_TYPE_OFFSET) &&& 127) ≠ 1 then
    let num_free : Nat := readByte m (KEY_TABLE_OFFSET + i * KEY_SIZE + KEY_TYPE_OFFSET) &&& 127
    let m1 := updateByte m (KEY_TABLE_OFFSET + (i + 1) * KEY_SIZE + KEY_TYPE_OFFSET)
      ((1 <<< 7) ||| toByte ((num_free : Int) - 1))
    updateByte m1 (KEY_TABLE_OFFSET + (i + (num_free : Int) - 1) * KEY_SIZE + KEY_TYPE_OFFSET)
      ((1 <<< 7) ||| toByte ((num_free : Int) - 1))
  else m

/-- `save_key(original_title)`. -/
def save_key (original_title : Bool) (s : KeyState) : KeyState :=
  let cur_n_keys := EEPROM.readInt s.eeprom 0
  let i := save_key_scan s.eeprom cur_n_keys cur_n_keys.toNat 0
  let m1 := save_key_shrink s.eeprom i
  let global_key : Key := { s.global_key with key_index := i }
  let cur_n_keys := cur_n_keys + 1
  let key_start := KEY_TABLE_OFFSET + global_key.key_index * KEY_SIZE
  let m2 := EEPROM.updateInt m1 0 cur_n_keys
  let m3 := update_key_by_index m2 global_key
  let buffer := if original_title then s.buffer else save_key_title s.buffer cur_n_keys
  { eeprom := save_key_name buffer key_start KEY_NAME_LEN m3
    global_key := global_key
    buffer := buffer }

/-- The neighbour merge of `delete_key`, after the counter and the slot's own
marker have been written. -/
def delete_key_merge (m : Memory) (offset last_offset : Int) : Memory :=
  if offset ≠ last_offset ∧ readByte m (offset + KEY_SIZE + KEY_TYPE_OFFSET) >>> 7 ≠ 0 ∧
      offset ≠ KEY_TABLE_OFFSET ∧ readByte m (offset - KEY_SIZE + KEY_TYPE_OFFSET) >>> 7 ≠ 0 then
    let num_free_1 : Nat := readByte m (offset - KEY_SIZE + KEY_TYPE_OFFSET) &&& 127
    let num_free_2 : Nat := readByte m (offset + KEY_SIZE + KEY_TYPE_OFFSET) &&& 127
    let m1 := updateByte m (offset - (num_free_1 : Int) * KEY_SIZE + KEY_TYPE_OFFSET)
      ((num_free_1 + num_free_2 + 1) ||| (1 <<< 7))
    updateByte m1 (offset + (num_free_2 : Int) * KEY_SIZE + KEY_TYPE_OFFSET)
      ((num_free_1 + num_free_2 + 1) ||| (1 <<< 7))
  else if offset ≠ last_offset ∧ readByte m (offset + KEY_SIZE + KEY_TYPE_OFFSET) >>> 7 ≠ 0 then
    let num_free : Nat := readByte m (offset + KEY_SIZE + KEY_TYPE_OFFSET) &&& 127
    let m1 := updateByte m (offset + KEY_TYPE_OFFSET) ((num_free + 1) ||| (1 <<< 7))
    updateByte m1 (offset + (num_free : Int) * KEY_SIZE + KEY_TYPE_OFFSET) ((num_free + 1) ||| (1 <<< 7))
  else if offset ≠ KEY_TABLE_OFFSET ∧ readByte m (offset - KEY_SIZE + KEY_TYPE_OFFSET) >>> 7 ≠ 0 then
    let num_free : Nat := readByte m (offset - KEY_SIZE + KEY_TYPE_OFFSET) &&& 127
    let m1 := updateByte m (offset + KEY_TYPE_OFFSET) ((num_free + 1) ||| (1 <<< 7))
    updateByte m1 (offset - (num_free : Int) * KEY_SIZE + KEY_TYPE_OFFSET) ((num_free + 1) ||| (1 <<< 7))
  else m

/-- `delete_key(index)`. -/
def delete_key (index : Int) (m : Memory) : Memory :=
  let offset := get_key_offset m index
  let n_keys := EEPROM.readInt m 0
  let last_offset := get_key_offset m (n_keys - 1)
  let m1 := EEPROM.updateInt m 0 (n_keys - 1)
  let m2 := updateByte m1 (offset + KEY_TYPE_OFFSET) (1 ||| (1 <<< 7))
  delete_key_merge m2 offset last_offset

/-! ## Sequences of store operations -/

/-- One call into the key store.  `save` stands for the caller filling
`global_key` (type and identity) and `buffer`, then calling `save_key`;
`delete` for `delete_key(index)`. -/
inductive Op where
  | save (key_type : Nat) (cur_key : Nat) (original_title : Bool) (buffer : Nat → Nat)
  | delete (index : Int)

/-- Effect of one call on the globals. -/
def Op.run : Op → KeyState → KeyState
  | Op.save key_type cur_key original_title buffer, s =>
    save_key original_title
      { s with global_key := { s.global_key with key_type := key_type, cur_key := cur_key }
               buffer := buffer }
  | Op.delete index, s => { s with eeprom := delete_key index s.eeprom }

/-- Effect of a sequence of calls, first call first. -/
def runOps : List Op → KeyState → KeyState
  | [], s => s
  | op :: ops, s => runOps ops (op.run s)

/-- Every `delete` of the sequence is given an index that is in range
(`0 ≤ index < counter`) at the moment of the call. -/
def InRange : List Op → KeyState → Prop
  | [], _ => True
  | Op.delete index :: ops, s =>
    (0 ≤ index ∧ index < EEPROM.readInt s.eeprom 0) ∧ InRange ops ((Op.delete index).run s)
  | op :: ops, s => InRange ops (op.run s)

/-- Type byte of physical slot `slot`. -/
def slotType (m : Memory) (slot : Int) : Nat :=
  readByte m (KEY_TABLE_OFFSET + slot * KEY_SIZE + KEY_TYPE_OFFSET)

/-- Slot `slot` carries the tombstone flag (bit 7 of its type byte). -/
def tombstoned (m : Memory) (slot : Int) : Prop := slotType m slot >>> 7 ≠ 0

/-- The run-length field (low 7 bits) of the type byte of `slot`. -/
def runLength (m : Memory) (slot : Int) : Nat := slotType m slot &&& 127

instance (m : Memory) (slot : Int) : Decidable (tombstoned m slot) := by
  unfold tombstoned; infer_instance

/-! ## Predicates on the slot table -/

/-- The slot `save_key` chooses: where its scan stops. -/
def save_key_slot (m : Memory) : Int :=
  save_key_scan m (EEPROM.readInt m 0) (EEPROM.readInt m 0).toNat 0

/-- Slot `slot` heads a tombstoned run: it is tombstoned and the slot before
it, if there is one, is not. -/
def runHead (m : Memory) (slot : Int) : Prop :=
  tombstoned m slot ∧ (slot = 0 ∨ ¬ tombstoned m (slot - 1))

/-- Every tombstoned run carries a run-length of at least 1 at its head. -/
def HeadsCarryLength (m : Memory) : Prop :=
  ∀ slot : Int, 0 ≤ slot → runHead m slot → 1 ≤ runLength m slot

/-- A store with counter 2: slot 0 live, slots 1 and 2 a free-run of length
2 (marker 0x82 at both ends), slot 3 live. -/
def sampleStore : Memory :=
  fun a => if a = 0 then 2 else if a = 43 then 0x82 else if a = 84 then 0x82 else 0

/-- Globals over `sampleStore`: a key of type 0 waiting to be saved. -/
def sampleState : KeyState :=
  { eeprom := sampleStore
    global_key := { cur_key := 0x2A000000000DB801, key_index := -1, key_type := 0 }
    buffer := fun _ => 0 }

/-- The number of slots among `0 .. n-1` that are not tombstoned. -/
def liveSlots (m : Memory) : Nat → Nat
  | 0 => 0
  | n + 1 => liveSlots m n + (if tombstoned m (n : Int) then 0 else 1)

/-- An empty store: counter 0, every cell 0. -/
def emptyStore : Memory := fun _ => 0

/-- The globals at start-up over an empty store. -/
def emptyState : KeyState :=
  { eeprom := emptyStore
    global_key := { cur_key := 0, key_index := -1, key_type := 0 }
    buffer := fun _ => 0 }

/-- Key A: type 0 and an identity. -/
def keyA : Key := { cur_key := 0x1400000000000A01, key_index := -1, key_type := 0 }

/-- Key B. -/
def keyB : Key := { cur_key := 0x2800000000000B01, key_index := -1, key_type := 0 }

/-- Key C. -/
def keyC : Key := { cur_key := 0x3C00000000000C01, key_index := -1, key_type := 0 }

/-- Key D. -/
def keyD : Key := { cur_key := 0x5000000000000D01, key_index := -1, key_type := 0 }

/-- Key E. -/
def keyE : Key := { cur_key := 0x6400000000000E01, key_index := -1, key_type := 0 }

/-- Insert of `key` with the title flag and the buffer content given. -/
def Op.insert (key : Key) (original_title : Bool) (buffer : Nat → Nat) : Op :=
  Op.save key.key_type key.cur_key original_title buffer

/-- Insert of key A with a generated title. -/
def insertA : Op := Op.insert keyA false (fun _ => 0)

/-- Insert of key B with a generated title. -/
def insertB : Op := Op.insert keyB false (fun _ => 0)

/-- Insert of key C with a generated title. -/
def insertC : Op := Op.insert keyC false (fun _ => 0)

/-- Insert of key D with a generated title. -/
def insertD : Op := Op.insert keyD false (fun _ => 0)

/-- Insert of key E with a generated title. -/
def insertE : Op := Op.insert keyE false (fun _ => 0)

/-- The scenario: insert A, B, C, delete logical index 1, insert D. -/
def scenario (A B C D : Key) (oA oB oC oD : Bool) (bA bB bC bD : Nat → Nat) : List Op :=
  [Op.insert A oA bA, Op.insert B oB bB, Op.insert C oC bC, Op.delete 1, Op.insert D oD bD]

/-- The physical slot number `get_key_offset(index)` arrives at: the value
of `real_index` when its loop ends. -/
def get_key_slot (m : Memory) (index : Int) : Int :=
  get_key_offset_loop m index.toNat (get_key_offset_start m)

/-- No slot's type byte is 0x80, the tombstone flag with run-length 0: every
byte that carries the flag also carries a run-length of at least 1. -/
def NoZeroLength (m : Memory) : Prop :=
  ∀ slot : Int, 0 ≤ slot → slotType m slot ≠ 128

/-- Insert of a key whose type id is 128. -/
def insertType128 : Op := Op.save 128 0x7800000000000F01 false (fun _ => 0)

/-- Slots `a .. b` are a maximal span of tombstoned slots. -/
def IsSpan (m : Memory) (a b : Int) : Prop :=
  0 ≤ a ∧ a ≤ b ∧ (∀ j : Int, a ≤ j → j ≤ b → tombstoned m j) ∧
    (a = 0 ∨ ¬ tombstoned m (a - 1)) ∧ ¬ tombstoned m (b + 1)

/-- The first and the last slot of the span `a .. b` hold the same marker
byte, 0x80 | length, and the length is at most 127. -/
def Marked (m : Memory) (a b : Int) : Prop :=
  (slotType m a : Int) = 128 + (b - a + 1) ∧ (slotType m b : Int) = 128 + (b - a + 1) ∧
    b - a + 1 ≤ 127

/-- The free-run invariant on the spans that end below slot `bound`. -/
def FreeRunsMarked (m : Memory) (bound : Int) : Prop :=
  ∀ a b : Int, IsSpan m a b → b < bound → Marked m a b

/-- A store with counter 3: slot 0 a free-run of length 1 (marker 0x81),
slots 1, 2, 3 live. -/
def leadingRunStore : Memory :=
  fun a => if a = 0 then 3 else if a = 2 then 0x81 else 0

/-! ## Bus driver -/

/-- What the master drives on the line. -/
inductive BusEvent where
  | reset
  | write (b : Nat)
  | skip
  | read_bytes (n : Nat)
  | pulse (microseconds : Nat)
  | bit (one : Bool)
  | reset_search

/-- The one-wire bus object `ibutton` together with the attached device:
the presence answers to the successive resets, the bytes the successive
reads deliver, and the log of what was driven. -/
structure OneWire where
  presence : List Bool
  rx : List Nat
  log : List BusEvent

namespace OneWire

/-- `ibutton.reset()`: true when a device answered with a presence pulse. -/
def reset (bus : OneWire) : Bool × OneWire :=
  (bus.presence.headD false,
    { bus with presence := bus.presence.tail, log := bus.log ++ [BusEvent.reset] })

/-- `ibutton.write(b)`. -/
def write (bus : OneWire) (b : Nat) : OneWire :=
  { bus with log := bus.log ++ [BusEvent.write b] }

/-- `ibutton.skip()`. -/
def skip (bus : OneWire) : OneWire :=
  { bus with log := bus.log ++ [BusEvent.skip] }

/-- `ibutton.reset_search()`. -/
def reset_search (bus : OneWire) : OneWire :=
  { bus with log := bus.log ++ [BusEvent.reset_search] }

/-- The `k`-th byte the device will deliver (an idle line reads as 0xFF). -/
def rxByte (bus : OneWire) (k : Nat) : Nat := bus.rx.getD k 255 % 256

/-- `ibutton.read_bytes(buf, n)`: the next `n` bytes of the device. -/
def read_bytes (bus : OneWire) (n : Nat) : List Nat × OneWire :=
  ((List.range n).map (rxByte bus),
    { bus with rx := bus.rx.drop n, log := bus.log ++ [BusEvent.read_bytes n] })

/-- The write-enable pulse: line low for `microseconds`, released, settle. -/
def pulse (bus : OneWire) (microseconds : Nat) : OneWire :=
  { bus with log := bus.log ++ [BusEvent.pulse microseconds] }

/-- One bit slot of `writeByte`. -/
def send_bit (bus : OneWire) (one : Bool) : OneWire :=
  { bus with log := bus.log ++ [BusEvent.bit one] }

end OneWire

/-- Byte `i` of a little-endian integer: `((uint8_t *)&v)[i]`. -/
def byteAt (v : Nat) (i : Nat) : Nat := v / 256 ^ i % 256

/-- The integer whose little-endian bytes are given. -/
def fromBytes : List Nat → Nat
  | [] => 0
  | b :: bs => b % 256 + 256 * fromBytes bs

/-- The first `n` bytes of an integer in memory. -/
def bytesOf (v : Nat) (n : Nat) : List Nat := (List.range n).map (byteAt v)

/-- The loop of `writeByte`: `n` bit slots, least significant bit first. -/
def writeByte_loop : Nat → Nat → OneWire → OneWire
  | 0, _, bus => bus
  | n + 1, data, bus => writeByte_loop n (data >>> 1) (bus.send_bit (data &&& 1 ≠ 0))

/-- `writeByte(data, pin)`. -/
def writeByte (data : Nat) (bus : OneWire) : OneWire := writeByte_loop 8 data bus

/-- `read_ds1990(key)`: the return code, the value left in `*key`, the bus.
`crc8` is the checksum routine of the bus library. -/
def read_ds1990 (crc8 : List Nat → Nat) (bus : OneWire) (key : Nat) : Nat × Nat × OneWire :=
  let (present, bus) := bus.reset
  if !present then (1, key, bus)
  else
    let bus := bus.write 0x33
    let (bytes, bus) := bus.read_bytes 8
    let key := fromBytes bytes
    if byteAt key 0 ≠ 0x01 then (2, key, bus)
    else if crc8 (bytesOf key 7) % 256 ≠ byteAt key 7 then (3, key, bus)
    else (0, key, bus.reset_search)

/-- The loop of `copy_ds1990` that sends the identity bytes `i .. 6`. -/
def copy_ds1990_send (new_key : Nat) : Nat → Nat → OneWire → OneWire
  | 0, _, bus => bus
  | n + 1, i, bus => copy_ds1990_send new_key n (i + 1) (writeByte (byteAt new_key i) bus)

/-- The straight-line part of `copy_ds1990` between the presence test and
the read-back: read of the previous identity, write-enable, load-buffer with
the 7 identity bytes and their CRC-8, commit, and the read-ROM command. -/
def copy_ds1990_sequence (crc8 : List Nat → Nat) (bus : OneWire) (new_key : Nat) : OneWire :=
  let bus := bus.write 0x33
  let bus := (bus.read_bytes 8).2
  let bus := bus.skip
  let bus := bus.reset.2
  let bus := bus.write 0xD1
  let bus := bus.pulse 60
  let bus := bus.skip
  let bus := bus.reset.2
  let bus := bus.write 0xD5
  let bus := copy_ds1990_send new_key 7 0 bus
  let bus := writeByte (crc8 (bytesOf new_key 7) % 256) bus
  let bus := bus.reset.2
  let bus := bus.write 0xD1
  let bus := bus.pulse 10
  let bus := bus.skip
  let bus := bus.reset.2
  bus.write 0x33

/-- `copy_ds1990(new_key, display)`: the return code and the bus.  The
drawing on the display and the serial trace are left out. -/
def copy_ds1990 (crc8 : List Nat → Nat) (bus : OneWire) (new_key : Nat) : Nat × OneWire :=
  if !bus.reset.1 then (1, bus.reset.2)
  else
    let bus := copy_ds1990_sequence crc8 bus.reset.2 new_key
    let read_key := fromBytes (bus.read_bytes 8).1
    if read_key ≠ new_key then (2, (bus.read_bytes 8).2) else (0, (bus.read_bytes 8).2)

/-- The Dallas/Maxim CRC-8 step for one input bit. -/
def crc8_bit (crc inbyte : Nat) : Nat :=
  if (crc ^^^ inbyte) &&& 1 ≠ 0 then (crc >>> 1) ^^^ 0x8C else crc >>> 1

/-- The Dallas/Maxim CRC-8 over one byte, eight bit steps. -/
def crc8_byte : Nat → Nat → Nat → Nat
  | 0, crc, _ => crc
  | n + 1, crc, inbyte => crc8_byte n (crc8_bit crc inbyte) (inbyte >>> 1)

/-- The Dallas/Maxim CRC-8 of a byte string, a checksum routine to put in
for the `crc8` parameter. -/
def dallas_crc8 (bytes : List Nat) : Nat :=
  bytes.foldl (fun crc b => crc8_byte 8 crc (b % 256)) 0

/-! ## Message texts -/

/-- The text `str8`, "READING...", with its terminator. -/
def str8 : List Nat :=
  [82, 69, 65, 68, 73, 78, 71, 46, 46, 46, 0]

/-- The text `str9`, "SUCCESSFULLY READ", with its terminator. -/
def str9 : List Nat :=
  [83, 85, 67, 67, 69, 83, 83, 70, 85, 76, 76, 89, 32, 82, 69, 65, 68, 0]

/-- The text `str14`, "EMULATING...", with its terminator. -/
def str14 : List Nat :=
  [69, 77, 85, 76, 65, 84, 73, 78, 71, 46, 46, 46, 0]

/-- The text `str15`, "COPYING...", with its terminator. -/
def str15 : List Nat :=
  [67, 79, 80, 89, 73, 78, 71, 46, 46, 46, 0]

/-- The text `str16`, "Copying successful", with its terminator. -/
def str16 : List Nat :=
  [67, 111, 112, 121, 105, 110, 103, 32, 115, 117, 99, 99, 101, 115, 115, 102, 117, 108, 0]

/-- The text `str17`, "Copying failure", with its terminator. -/
def str17 : List Nat :=
  [67, 111, 112, 121, 105, 110, 103, 32, 102, 97, 105, 108, 117, 114, 101, 0]

/-- The text `str18`, "READ BUT NOT IBUTTON", with its terminator. -/
def str18 : List Nat :=
  [82, 69, 65, 68, 32, 66, 85, 84, 32, 78, 79, 84, 32, 73, 66, 85, 84, 84, 79, 78, 0]

/-- The text `str19`, "READ BUT WRONG CRC", with its terminator. -/
def str19 : List Nat :=
  [82, 69, 65, 68, 32, 66, 85, 84, 32, 87, 82, 79, 78, 71, 32, 67, 82, 67, 0]

/-! ## Screen table -/

/-- The functions whose addresses the screen table holds. -/
inductive Handler where
  | key_list_top_button_pressed
  | key_list_middle_button_pressed
  | key_list_bottom_button_pressed
  | key_list_draw
  | display_screen_top_button_pressed
  | read_screen_middle_button_pressed
  | display_screen_bottom_button_pressed
  | display_screen_draw
  | list_screen_top_button_pressed
  | read_screen_menu_middle_button_pressed
  | list_screen_bottom_button_pressed
  | list_screen_draw
  | key_menu_middle_button_pressed
  | emulate_screen_middle_button_pressed
  | copy_screen_middle_button_pressed
  | display_key_screen_draw
  deriving DecidableEq

/-- One word of the `screens` array: the address of a function, the address
of a text (`str0` .. `str21` by number, `str_blank` as 22), or a number. -/
inductive Cell where
  | fn (h : Handler)
  | str (s : Nat)
  | num (v : Int)

abbrev MAIN_MENU : Int := 0
abbrev READ_SCREEN : Int := 10
abbrev READ_SUCCESSFUL_MENU : Int := 18
abbrev KEY_MENU : Int := 31
abbrev EMULATE_SCREEN : Int := 44
abbrev COPY_SCREEN : Int := 51
abbrev NULL_SCREEN : Int := 52

abbrev SCREEN_TOP_BUTTON_OFFSET : Int := 0
abbrev SCREEN_MIDDLE_BUTTON_OFFSET : Int := 1
abbrev SCREEN_BOTTOM_BUTTON_OFFSET : Int := 2
abbrev SCREEN_DRAW_FUNC_OFFSET : Int := 3
abbrev LIST_SCREEN_N_OFFSET : Int := 4
abbrev LIST_SCREEN_STRINGS_OFFSET : Int := 5
abbrev KEY_LIST_MAIN_OFFSET : Int := 4
abbrev KEY_LIST_N_OFFSET : Int := 5
abbrev KEY_LIST_STRINGS_OFFSET : Int := 6

/-- The `screens` array, 58 words. -/
def screens : List Cell :=
  [ -- Main key menu
    Cell.fn Handler.key_list_top_button_pressed,
    Cell.fn Handler.key_list_middle_button_pressed,
    Cell.fn Handler.key_list_bottom_button_pressed,
    Cell.fn Handler.key_list_draw,
    Cell.num KEY_MENU,
    Cell.num 2,
    Cell.str 0,
    Cell.str 22,
    Cell.num READ_SCREEN,
    Cell.num NULL_SCREEN,
    -- Read screen
    Cell.fn Handler.display_screen_top_button_pressed,
    Cell.fn Handler.read_screen_middle_button_pressed,
    Cell.fn Handler.display_screen_bottom_button_pressed,
    Cell.fn Handler.display_screen_draw,
    Cell.str 0,
    Cell.str 6,
    Cell.num 1,
    Cell.str 7,
    -- Read screen menu
    Cell.fn Handler.list_screen_top_button_pressed,
    Cell.fn Handler.read_screen_menu_middle_button_pressed,
    Cell.fn Handler.list_screen_bottom_button_pressed,
    Cell.fn Handler.list_screen_draw,
    Cell.num 4,
    Cell.str 10,
    Cell.str 11,
    Cell.str 12,
    Cell.str 13,
    Cell.num MAIN_MENU,
    Cell.num EMULATE_SCREEN,
    Cell.num COPY_SCREEN,
    Cell.num MAIN_MENU,
    -- Key menu
    Cell.fn Handler.list_screen_top_button_pressed,
    Cell.fn Handler.key_menu_middle_button_pressed,
    Cell.fn Handler.list_screen_bottom_button_pressed,
    Cell.fn Handler.list_screen_draw,
    Cell.num 4,
    Cell.str 11,
    Cell.str 12,
    Cell.str 21,
    Cell.str 5,
    Cell.num EMULATE_SCREEN,
    Cell.num COPY_SCREEN,
    Cell.num MAIN_MENU,
    Cell.num MAIN_MENU,
    -- Emulate screen
    Cell.fn Handler.display_screen_top_button_pressed,
    Cell.fn Handler.emulate_screen_middle_button_pressed,
    Cell.fn Handler.display_screen_bottom_button_pressed,
    Cell.fn Handler.display_key_screen_draw,
    Cell.str 1,
    Cell.str 22,
    Cell.num 0,
    -- Copy screen
    Cell.fn Handler.display_screen_top_button_pressed,
    Cell.fn Handler.copy_screen_middle_button_pressed,
    Cell.fn Handler.display_screen_bottom_button_pressed,
    Cell.fn Handler.display_key_screen_draw,
    Cell.str 2,
    Cell.str 22,
    Cell.num 0 ]

/-- What the source does not fix about the program image: the addresses of
the functions and of the texts, and the words of flash that lie around the
`screens` array. -/
structure Image where
  fnAddr : Handler → Int
  strAddr : Nat → Int
  outside : Int → Int

/-- The 16-bit value of a word of the table. -/
def Cell.value (img : Image) : Cell → Int
  | Cell.fn h => img.fnAddr h
  | Cell.str s => img.strAddr s
  | Cell.num v => v

/-- The word `pgm_read_word_near(&screens[i])` delivers, cast to `int`. -/
def pgm_read_word (img : Image) (i : Int) : Int :=
  if 0 ≤ i then
    match screens.get? i.toNat with
    | some c => c.value img
    | none => img.outside i
  else img.outside i

/-! ## Navigation -/

/-- The globals of the navigation: `cur_screen`, `prev_screen`, `cur_child`,
and the globals of the key store. -/
structure Nav where
  cur_screen : Int
  prev_screen : Int
  cur_child : Int
  keys : KeyState

/-- The draw routines write the display and the text `buffer` only; what
they leave in `buffer` is given by the rendering. -/
abbrev Render := Nav → Nat → Nat

/-- `switch_screen(offset)`. -/
def switch_screen (offset : Int) (s : Nav) : Nav :=
  { s with prev_screen := s.cur_screen, cur_screen := offset, cur_child := 0 }

/-- `redraw()`: the draw routine of the current screen runs. -/
def redraw (render : Render) (s : Nav) : Nav :=
  { s with keys := { s.keys with buffer := render s } }

/-- `key_list_top_button_pressed(offset)`. -/
def key_list_top_button_pressed (img : Image) (render : Render) (offset : Int) (s : Nav) : Nav :=
  let n_children : Int := toByte (pgm_read_word img (offset + KEY_LIST_N_OFFSET))
  let n_keys : Int := toByte (EEPROM.readInt s.keys.eeprom 0)
  let cur_child := Int.tmod (s.cur_child + n_children + n_keys - 1) (n_children + n_keys)
  let cur_child :=
    if pgm_read_word img (offset + KEY_LIST_STRINGS_OFFSET + n_children + cur_child)
        = NULL_SCREEN then
      Int.tmod (cur_child + n_children + n_keys - 1) (n_children + n_keys)
    else cur_child
  redraw render { s with cur_child := cur_child }

/-- `key_list_bottom_button_pressed(offset)`. -/
def key_list_bottom_button_pressed (img : Image) (render : Render) (offset : Int) (s : Nav) :
    Nav :=
  let n_children : Int := toByte (pgm_read_word img (offset + KEY_LIST_N_OFFSET))
  let n_keys : Int := toByte (EEPROM.readInt s.keys.eeprom 0)
  let cur_child := Int.tmod (s.cur_child + 1) (n_children + n_keys)
  let cur_child :=
    if pgm_read_word img (offset + KEY_LIST_STRINGS_OFFSET + n_children + cur_child)
        = NULL_SCREEN then
      Int.tmod (cur_child + 1) (n_children + n_keys)
    else cur_child
  redraw render { s with cur_child := cur_child }

/-- `key_list_middle_button_pressed(offset)`. -/
def key_list_middle_button_pressed (img : Image) (render : Render) (offset : Int) (s : Nav) :
    Nav :=
  let n_children : Int := toByte (pgm_read_word img (offset + KEY_LIST_N_OFFSET))
  if s.cur_child < n_children then
    let arr_start := offset + KEY_LIST_STRINGS_OFFSET + n_children
    let new_offset := pgm_read_word img (arr_start + s.cur_child)
    if new_offset ≠ NULL_SCREEN then redraw render (switch_screen new_offset s) else s
  else
    let key := get_key_by_index s.keys.eeprom (s.cur_child - n_children)
    let s1 : Nav := { s with keys := { s.keys with global_key := key } }
    let new_offset := pgm_read_word img (offset + KEY_LIST_MAIN_OFFSET)
    redraw render (switch_screen new_offset s1)

/-! ## Blocking actions -/

/-- The surroundings of a blocking action: the one-wire bus with the device
on it, the outcomes of the successive `check_button` calls, and counts of
the `read_key`, `copy_key` and `hub.poll` calls made so far. -/
structure Env where
  bus : OneWire
  buttons : List Bool
  read_calls : Nat
  copy_calls : Nat
  polls : Nat

/-- `check_button(index)`: whether a fresh press of the button is seen.  The
pin sampling and the `executed` latch are not modelled: the outcome is the
next entry of `buttons`, and no press once they are used up. -/
def check_button (env : Env) : Bool × Env :=
  (env.buttons.headD false, { env with buttons := env.buttons.tail })

/-- `read_key(&global_key.cur_key)`: the call through `read_functions`,
which has the one entry `read_ds1990`; other key types have no entry. -/
def read_key (crc8 : List Nat → Nat) (env : Env) (key : Key) : Option (Nat × Nat × Env) :=
  if key.key_type = 0 then
    let r := read_ds1990 crc8 env.bus key.cur_key
    some (r.1, r.2.1, { env with bus := r.2.2, read_calls := env.read_calls + 1 })
  else none

/-- `copy_key(new_key, display)`: the call through `copy_functions`. -/
def copy_key (crc8 : List Nat → Nat) (env : Env) (key : Key) : Option (Nat × Env) :=
  if key.key_type = 0 then
    let r := copy_ds1990 crc8 env.bus key.cur_key
    some (r.1, { env with bus := r.2, copy_calls := env.copy_calls + 1 })
  else none

/-- No button press is coming: every `check_button` call will see none. -/
def Quiet (env : Env) : Prop := ∀ b ∈ env.buttons, b = false

/-- How the wait loop of a blocking action ended. -/
inductive LoopExit where
  | middle
  | bottom
  | code (exit_code : Nat)
  deriving DecidableEq

/-- The `while (exit_code == 1)` loop of `read_screen_middle_button_pressed`,
at most `fuel` iterations: the way it ends, the value left in
`global_key.cur_key`, and the surroundings. -/
def read_screen_wait (crc8 : List Nat → Nat) : Nat → Env → Key → Option (LoopExit × Nat × Env)
  | 0, _, _ => none
  | fuel + 1, env, key =>
    let (m, env) := check_button env
    if m then some (LoopExit.middle, key.cur_key, env)
    else
      let (b, env) := check_button env
      if b then some (LoopExit.bottom, key.cur_key, env)
      else
        match read_key crc8 env key with
        | none => none
        | some (exit_code, cur_key, env) =>
          if exit_code = 1 then read_screen_wait crc8 fuel env { key with cur_key := cur_key }
          else some (LoopExit.code exit_code, cur_key, env)

/-- The text the `switch (exit_code)` of the read handler puts in `buffer`. -/
def read_screen_message (buffer : Nat → Nat) (exit_code : Nat) : Nat → Nat :=
  if exit_code = 0 then strcpy_P buffer str9
  else if exit_code = 2 then strcpy_P buffer str18
  else if exit_code = 3 then strcpy_P buffer str19
  else buffer

/-- `read_screen_middle_button_pressed(offset)`, its wait loop bounded by
`fuel` iterations. -/
def read_screen_middle_button_pressed (crc8 : List Nat → Nat) (render : Render) (fuel : Nat)
    (env : Env) (s : Nav) : Option (Nav × Env) :=
  let key : Key := { s.keys.global_key with key_type := toByte s.cur_child, key_index := -1 }
  let buffer := strcpy_P s.keys.buffer str8
  match read_screen_wait crc8 fuel env key with
  | none => none
  | some (LoopExit.middle, cur_key, env) =>
    some (redraw render
      { s with keys := { s.keys with global_key := { key with cur_key := cur_key },
                                     buffer := buffer } }, env)
  | some (LoopExit.bottom, cur_key, env) =>
    some (redraw render (switch_screen s.prev_screen
      { s with keys := { s.keys with global_key := { key with cur_key := cur_key },
                                     buffer := buffer } }), env)
  | some (LoopExit.code exit_code, cur_key, env) =>
    let s1 : Nav :=
      { s with keys := { s.keys with global_key := { key with cur_key := cur_key },
                                     buffer := read_screen_message buffer exit_code } }
    if exit_code = 0 then some (redraw render (switch_screen READ_SUCCESSFUL_MENU s1), env)
    else some (redraw render (switch_screen s1.prev_screen s1), env)

/-- The `for (byte i = 0; i < 40; i++)` button poll of the copy handler,
`n` rounds: `none` when no cancel button is seen. -/
def copy_screen_poll : Nat → Env → Option LoopExit × Env
  | 0, env => (none, env)
  | n + 1, env =>
    let (m, env) := check_button env
    if m then (some LoopExit.middle, env)
    else
      let (b, env) := check_button env
      if b then (some LoopExit.bottom, env)
      else copy_screen_poll n env

/-- The `while (exit_code == 1)` loop of `copy_screen_middle_button_pressed`,
at most `fuel` iterations. -/
def copy_screen_wait (crc8 : List Nat → Nat) (key : Key) : Nat → Env → Option (LoopExit × Env)
  | 0, _ => none
  | fuel + 1, env =>
    match copy_screen_poll 40 env with
    | (some e, env) => some (e, env)
    | (none, env) =>
      match copy_key crc8 env key with
      | none => none
      | some (exit_code, env) =>
        if exit_code = 1 then copy_screen_wait crc8 key fuel env
        else some (LoopExit.code exit_code, env)

/-- `copy_screen_middle_button_pressed(offset)`, its retry loop bounded by
`fuel` iterations. -/
def copy_screen_middle_button_pressed (crc8 : List Nat → Nat) (render : Render) (fuel : Nat)
    (env : Env) (s : Nav) : Option (Nav × Env) :=
  let s0 : Nav := { s with keys := { s.keys with buffer := strcpy_P s.keys.buffer str15 } }
  match copy_screen_wait crc8 s.keys.global_key fuel env with
  | none => none
  | some (LoopExit.middle, env) => some (redraw render s0, env)
  | some (LoopExit.bottom, env) => some (redraw render (switch_screen s0.prev_screen s0), env)
  | some (LoopExit.code exit_code, env) =>
    let buffer := strcpy_P s0.keys.buffer (if exit_code = 2 then str17 else str16)
    let s1 : Nav := { s0 with keys := { s0.keys with buffer := buffer } }
    some (redraw render (switch_screen s1.prev_screen s1), env)

/-- `emulate_ds1990(key)`: the hub is polled until a `check_button` call
sees a press; at most `fuel` rounds. -/
def emulate_ds1990 : Nat → Env → Option Env
  | 0, _ => none
  | fuel + 1, env =>
    let (m, env) := check_button env
    if m then some env
    else
      let (b, env) := check_button env
      if b then some env
      else
        let (t, env) := check_button env
        if t then some env
        else emulate_ds1990 fuel { env with polls := env.polls + 1 }

/-- The `for (;;)` loop of `emulate_screen_middle_button_pressed`, at most
`fuel` rounds, each with at most `fuel` rounds of `emulate_ds1990`. -/
def emulate_screen_loop (n_keys : Int) (fuel : Nat) : Nat → Env → Nav → Option (Nav × Env)
  | 0, _, _ => none
  | rounds + 1, env, s =>
    let s1 : Nav :=
      if s.keys.global_key.key_index ≠ -1 then
        let key := get_key_by_index s.keys.eeprom s.keys.global_key.key_index
        { s with keys := { s.keys with global_key := key } }
      else s
    if s1.keys.global_key.key_type ≠ 0 then none
    else
      match emulate_ds1990 fuel env with
      | none => none
      | some env =>
        let (m, env) := check_button env
        if m then some (s1, env)
        else
          let (b, env) := check_button env
          if b then some (switch_screen s1.prev_screen s1, env)
          else
            let (t, env) := check_button env
            if t ∧ s1.keys.global_key.key_index = -1 then some (s1, env)
            else
              let s2 : Nav :=
                if s1.keys.global_key.key_index ≠ -1 then
                  let key_index := Int.tmod (s1.keys.global_key.key_index + 1) n_keys
                  let key : Key := { s1.keys.global_key with key_index := key_index }
                  { s1 with keys := { s1.keys with global_key := key } }
                else s1
              emulate_screen_loop n_keys fuel rounds env s2

/-- `emulate_screen_middle_button_pressed(offset)`, loops bounded by `fuel`. -/
def emulate_screen_middle_button_pressed (render : Render) (fuel : Nat) (env : Env) (s : Nav) :
    Option (Nav × Env) :=
  let n_keys := EEPROM.readInt s.keys.eeprom 0
  let s0 : Nav := { s with keys := { s.keys with buffer := strcpy_P s.keys.buffer str14 } }
  match emulate_screen_loop n_keys fuel fuel env s0 with
  | none => none
  | some (s1, env) => some (redraw render s1, env)

/-- The navigation step of `read_screen_menu_middle_button_pressed(offset)`:
everything up to and including its `redraw()`. -/
def read_screen_menu_navigate (img : Image) (render : Render) (offset : Int) (s : Nav) : Nav :=
  let n_children : Int := toByte (pgm_read_word img (offset + LIST_SCREEN_N_OFFSET))
  let arr_start := offset + LIST_SCREEN_STRINGS_OFFSET + n_children
  let new_offset := pgm_read_word img (arr_start + s.cur_child)
  let s1 : Nav := if s.cur_child = 0 then { s with keys := save_key false s.keys } else s
  let s2 := switch_screen new_offset s1
  redraw render { s2 with prev_screen := MAIN_MENU }

/-- `read_screen_menu_middle_button_pressed(offset)`: the navigation step,
then the middle handler of the emulate or copy screen when that is the new
screen. -/
def read_screen_menu_middle_button_pressed (crc8 : List Nat → Nat) (img : Image)
    (render : Render) (fuel : Nat) (offset : Int) (env : Env) (s : Nav) : Option (Nav × Env) :=
  let n_children : Int := toByte (pgm_read_word img (offset + LIST_SCREEN_N_OFFSET))
  let arr_start := offset + LIST_SCREEN_STRINGS_OFFSET + n_children
  let new_offset := pgm_read_word img (arr_start + s.cur_child)
  let s1 := read_screen_menu_navigate img render offset s
  if new_offset = EMULATE_SCREEN then emulate_screen_middle_button_pressed render fuel env s1
  else if new_offset = COPY_SCREEN then copy_screen_middle_button_pressed crc8 render fuel env s1
  else some (s1, env)

/-! ## Generated titles -/

/-- The text the specification gives for a generated title: "New key ",
the decimal representation of the count, and the terminator. -/
def spec_title (k : Nat) : List Nat :=
  [78, 101, 119, 32, 107, 101, 121, 32] ++ (Nat.repr k).data.map Char.toNat ++ [0]

/-- A store whose counter is 99, all slots live. -/
def store99 : Memory := fun a => if a = 0 then 99 else 0

/-- Globals over `store99`: key A waiting to be saved. -/
def state99 : KeyState :=
  { eeprom := store99
    global_key := keyA
    buffer := fun _ => 0 }

/-! ## Sample inputs of the navigation -/

/-- No function and no text lies at the address whose value is that of
`NULL_SCREEN`. -/
def PointerFree (img : Image) : Prop :=
  (∀ h, img.fnAddr h ≠ NULL_SCREEN) ∧ (∀ t, img.strAddr t ≠ NULL_SCREEN)

/-- A program image: every function at 0x0400, every text at 0x0100, zero
words around the table. -/
def sampleImage : Image :=
  { fnAddr := fun _ => 0x0400
    strAddr := fun _ => 0x0100
    outside := fun _ => 0 }

/-- A rendering that leaves the text buffer as it is. -/
def sampleRender : Render := fun s => s.keys.buffer

/-- The root key-list with three stored keys (A, B, C), cursor on row
`cur_child`. -/
def rootNav (cur_child : Int) : Nav :=
  { cur_screen := MAIN_MENU
    prev_screen := MAIN_MENU
    cur_child := cur_child
    keys := runOps [insertA, insertB, insertC] emptyState }

/-- The read-successful menu, entered from the read screen, key A in
`global_key`, cursor on row `cur_child`. -/
def readMenuNav (cur_child : Int) : Nav :=
  { cur_screen := READ_SUCCESSFUL_MENU
    prev_screen := READ_SCREEN
    cur_child := cur_child
    keys := { emptyState with global_key := keyA } }

/-- The copy screen, entered from the key menu, key A in `global_key`. -/
def copyNav : Nav :=
  { cur_screen := COPY_SCREEN
    prev_screen := KEY_MENU
    cur_child := 0
    keys := { emptyState with global_key := keyA } }

/-- The read screen, entered from the root key-list. -/
def readNav : Nav :=
  { cur_screen := READ_SCREEN
    prev_screen := MAIN_MENU
    cur_child := 0
    keys := emptyState }

/-- Surroundings with the given bus, no button pressed, nothing counted. -/
def quietEnv (bus : OneWire) : Env :=
  { bus := bus
    buttons := []
    read_calls := 0
    copy_calls := 0
    polls := 0 }

/-! ## Well-formed stores with a table extent -/

/-- Slots `a .. b` are a maximal span of tombstoned slots of a table of `N`
allocated slots. -/
def IsSpanIn (m : Memory) (N : Int) (a b : Int) : Prop :=
  0 ≤ a ∧ a ≤ b ∧ b < N ∧ (∀ j : Int, a ≤ j → j ≤ b → tombstoned m j) ∧
    (a = 0 ∨ ¬ tombstoned m (a - 1)) ∧ (b + 1 = N ∨ ¬ tombstoned m (b + 1))

/-- A well-formed store with `N` allocated slots: the counter is the number
of live slots, and every maximal span of tombstoned slots carries
0x80 | length at its first and last slot. -/
def WellFormed (m : Memory) (N : Nat) : Prop :=
  EEPROM.readInt m 0 = liveSlots m N ∧ ∀ a b : Int, IsSpanIn m N a b → Marked m a b

/-- A store with counter 2: slot 0 a free-run of length 1, slot 1 live,
slot 2 a free-run of length 1, slot 3 live. -/
def mergeStore : Memory :=
  fun a => if a = 0 then 2 else if a = 2 then 0x81 else if a = 84 then 0x81 else 0

/-! ## Table words read by the cursor handlers -/

/-- The index of the word of `screens` that the sentinel test of
`key_list_top_button_pressed(offset)` reads: the argument of its second
`pgm_read_word_near`. -/
def key_list_top_lookup (img : Image) (offset : Int) (s : Nav) : Int :=
  let n_children : Int := toByte (pgm_read_word img (offset + KEY_LIST_N_OFFSET))
  let n_keys : Int := toByte (EEPROM.readInt s.keys.eeprom 0)
  let cur_child := Int.tmod (s.cur_child + n_children + n_keys - 1) (n_children + n_keys)
  offset + KEY_LIST_STRINGS_OFFSET + n_children + cur_child

/-- The index of the word of `screens` that the sentinel test of
`key_list_bottom_button_pressed(offset)` reads. -/
def key_list_bottom_lookup (img : Image) (offset : Int) (s : Nav) : Int :=
  let n_children : Int := toByte (pgm_read_word img (offset + KEY_LIST_N_OFFSET))
  let n_keys : Int := toByte (EEPROM.readInt s.keys.eeprom 0)
  let cur_child := Int.tmod (s.cur_child + 1) (n_children + n_keys)
  offset + KEY_LIST_STRINGS_OFFSET + n_children + cur_child

/-- A store whose counter is 50, all slots live. -/
def store50 : Memory := fun a => if a = 0 then 50 else 0

/-- The root key-list over `store50`, cursor on row `cur_child`. -/
def nav50 (cur_child : Int) : Nav :=
  { cur_screen := MAIN_MENU
    prev_screen := MAIN_MENU
    cur_child := cur_child
    keys := { emptyState with eeprom := store50 } }

/-- The image `sampleImage` with the value of `NULL_SCREEN` in the words of
flash around the table. -/
def edgeImage : Image :=
  { fnAddr := fun _ => 0x0400
    strAddr := fun _ => 0x0100
    outside := fun _ => NULL_SCREEN }

/-- The image `sampleImage` with `display_screen_bottom_button_pressed` at
the address whose value is that of `NULL_SCREEN`. -/
def aliasImage : Image :=
  { fnAddr := fun h =>
      if h = Handler.display_screen_bottom_button_pressed then NULL_SCREEN else 0x0400
    strAddr := fun _ => 0x0100
    outside := fun _ => 0 }

/-! ## Bus driver: classification of results -/

theorem rxByte_lt (bus : OneWire) (k : Nat) : bus.rxByte k < 256 := by
  unfold OneWire.rxByte; omega

theorem byteAt_fromBytes8 (f : Nat → Nat) (hf : ∀ k, f k < 256) (i : Nat) (hi : i < 8) :
    byteAt (fromBytes ((List.range 8).map f)) i = f i := by
  have h0 := hf 0; have h1 := hf 1; have h2 := hf 2; have h3 := hf 3
  have h4 := hf 4; have h5 := hf 5; have h6 := hf 6; have h7 := hf 7
  have e : (List.range 8).map f = [f 0, f 1, f 2, f 3, f 4, f 5, f 6, f 7] := by
    simp [List.range, List.range.loop]
  rw [e]
  simp only [fromBytes, byteAt]
  interval_cases i <;> norm_num <;> omega

theorem bytesOf_fromBytes8 (f : Nat → Nat) (hf : ∀ k, f k < 256) :
    bytesOf (fromBytes ((List.range 8).map f)) 7 = (List.range 7).map f := by
  unfold bytesOf
  apply List.map_congr_left
  intro i hi
  exact byteAt_fromBytes8 f hf i (by have := List.mem_range.mp hi; omega)

theorem fromBytes_bytesOf8 (v : Nat) (hv : v < 2 ^ 64) : fromBytes (bytesOf v 8) = v := by
  have e : bytesOf v 8 = [byteAt v 0, byteAt v 1, byteAt v 2, byteAt v 3, byteAt v 4,
      byteAt v 5, byteAt v 6, byteAt v 7] := by
    simp [bytesOf, List.range, List.range.loop]
  rw [e]
  simp only [fromBytes, byteAt]
  norm_num
  omega

/-- Closed form of `read_ds1990`: return code and value left in `*key`. -/
theorem read_ds1990_eq (crc8 : List Nat → Nat) (bus : OneWire) (key : Nat) :
    ((read_ds1990 crc8 bus key).1 =
      if bus.presence.headD false = false then 1
      else if bus.rxByte 0 ≠ 0x01 then 2
      else if crc8 ((List.range 7).map bus.rxByte) % 256 ≠ bus.rxByte 7 then 3 else 0) ∧
    (read_ds1990 crc8 bus key).2.1 =
      (if bus.presence.headD false = true then fromBytes ((List.range 8).map bus.rxByte)
        else key) := by
  have hb := byteAt_fromBytes8 bus.rxByte (rxByte_lt bus)
  have hc := bytesOf_fromBytes8 bus.rxByte (rxByte_lt bus)
  have e2 : (List.range 8).map (OneWire.rxByte
      { presence := bus.presence.tail, rx := bus.rx,
        log := bus.log ++ [BusEvent.reset] ++ [BusEvent.write 0x33] })
        = (List.range 8).map bus.rxByte := rfl
  cases hp : bus.presence.headD false
  · simp only [read_ds1990, OneWire.reset, hp]
    simp
  · simp only [read_ds1990, OneWire.reset, hp, OneWire.write, OneWire.read_bytes, e2,
      hb 0 (by omega), hb 7 (by omega), hc]
    simp only [Bool.not_true, Bool.false_eq_true, if_false, if_true]
    constructor <;> split_ifs <;> first | rfl | contradiction

/-- C9. Result classification of `read_ds1990`: the result is 1 exactly when
the reset finds no presence; with presence it is 2 exactly when received
byte 0 is not 0x01 (whatever byte 7 is), 3 exactly when byte 0 is 0x01 and
the CRC-8 of bytes 0..6 differs from byte 7, and 0 exactly when byte 0 is
0x01 and the CRC-8 of bytes 0..6 equals byte 7; with presence the value left
in `*key` is the 8 received bytes, little endian. -/
theorem read_ds1990_classification (crc8 : List Nat → Nat) (bus : OneWire) (key : Nat) :
    ((read_ds1990 crc8 bus key).1 = 1 ↔ bus.presence.headD false = false) ∧
    ((read_ds1990 crc8 bus key).1 = 2 ↔
      bus.presence.headD false = true ∧ bus.rxByte 0 ≠ 0x01) ∧
    ((read_ds1990 crc8 bus key).1 = 3 ↔
      bus.presence.headD false = true ∧ bus.rxByte 0 = 0x01 ∧
        crc8 ((List.range 7).map bus.rxByte) % 256 ≠ bus.rxByte 7) ∧
    ((read_ds1990 crc8 bus key).1 = 0 ↔
      bus.presence.headD false = true ∧ bus.rxByte 0 = 0x01 ∧
        crc8 ((List.range 7).map bus.rxByte) % 256 = bus.rxByte 7) ∧
    (read_ds1990 crc8 bus key).2.1 =
      (if bus.presence.headD false = true then fromBytes ((List.range 8).map bus.rxByte)
        else key) ∧
    (∀ i, i < 8 → byteAt (fromBytes ((List.range 8).map bus.rxByte)) i = bus.rxByte i) := by
  obtain ⟨h1, h2⟩ := read_ds1990_eq crc8 bus key
  refine ⟨?_, ?_, ?_, ?_, h2, byteAt_fromBytes8 bus.rxByte (rxByte_lt bus)⟩
  all_goals
    rw [h1]
    cases bus.presence.headD false <;> split_ifs <;> simp_all

theorem writeByte_loop_rx (n data : Nat) (bus : OneWire) :
    (writeByte_loop n data bus).rx = bus.rx := by
  induction n generalizing data bus with
  | zero => rfl
  | succ n ih => simp only [writeByte_loop, ih]; rfl

theorem copy_ds1990_send_rx (new_key n i : Nat) (bus : OneWire) :
    (copy_ds1990_send new_key n i bus).rx = bus.rx := by
  induction n generalizing i bus with
  | zero => rfl
  | succ n ih => simp only [copy_ds1990_send, ih, writeByte, writeByte_loop_rx]

theorem rxByte_congr (b1 b2 : OneWire) (h : b1.rx = b2.rx) (k : Nat) :
    b1.rxByte k = b2.rxByte k := by
  unfold OneWire.rxByte; rw [h]

theorem rxByte_drop (bus b2 : OneWire) (n : Nat) (h : b2.rx = bus.rx.drop n) (k : Nat) :
    b2.rxByte k = bus.rxByte (n + k) := by
  unfold OneWire.rxByte
  rw [h]
  simp [List.getD_eq_getElem?_getD, List.getElem?_drop]

theorem copy_ds1990_sequence_rx (crc8 : List Nat → Nat) (bus : OneWire) (new_key : Nat) :
    (copy_ds1990_sequence crc8 bus new_key).rx = bus.rx.drop 8 := by
  simp only [copy_ds1990_sequence, OneWire.write, OneWire.skip, OneWire.pulse, OneWire.reset,
    OneWire.read_bytes, writeByte, writeByte_loop_rx, copy_ds1990_send_rx]

/-- Closed form of the return code of `copy_ds1990`. -/
theorem copy_ds1990_eq (crc8 : List Nat → Nat) (bus : OneWire) (new_key : Nat) :
    (copy_ds1990 crc8 bus new_key).1 =
      if bus.presence.headD false = false then 1
      else if fromBytes ((List.range 8).map (fun k => bus.rxByte (8 + k))) ≠ new_key then 2
      else 0 := by
  have e : (List.range 8).map (copy_ds1990_sequence crc8 bus.reset.2 new_key).rxByte
      = (List.range 8).map (fun k => bus.rxByte (8 + k)) := by
    apply List.map_congr_left
    intro k _
    exact rxByte_drop bus _ 8 (copy_ds1990_sequence_rx crc8 bus.reset.2 new_key) k
  have hr : bus.reset.1 = bus.presence.headD false := rfl
  unfold copy_ds1990
  simp only [OneWire.read_bytes, e, hr]
  cases bus.presence.headD false
  · rfl
  · simp only [Bool.not_true, Bool.false_eq_true, Bool.true_eq_false, if_false]
    split_ifs <;> rfl

/-- C10. Clone verification: when the device answers the initial reset,
`copy_ds1990` returns 0 exactly when the 8 bytes read back after the write
sequence are the 8 bytes of the target identity, and returns 2 otherwise; a
read-back that differs from the target in one byte yields 2. -/
theorem copy_ds1990_verify (crc8 : List Nat → Nat) (bus : OneWire) (new_key : Nat)
    (hkey : new_key < 2 ^ 64) (hp : bus.presence.headD false = true) :
    ((copy_ds1990 crc8 bus new_key).1 = 0 ↔
      ∀ i, i < 8 → bus.rxByte (8 + i) = byteAt new_key i) ∧
    ((copy_ds1990 crc8 bus new_key).1 ≠ 0 → (copy_ds1990 crc8 bus new_key).1 = 2) ∧
    (∀ i, i < 8 → bus.rxByte (8 + i) ≠ byteAt new_key i →
      (copy_ds1990 crc8 bus new_key).1 = 2) := by
  have hiff : fromBytes ((List.range 8).map (fun k => bus.rxByte (8 + k))) = new_key ↔
      ∀ i, i < 8 → bus.rxByte (8 + i) = byteAt new_key i := by
    constructor
    · intro h i hi
      rw [← h]
      exact (byteAt_fromBytes8 (fun k => bus.rxByte (8 + k)) (fun k => rxByte_lt bus _) i hi).symm
    · intro h
      have e : (List.range 8).map (fun k => bus.rxByte (8 + k)) = bytesOf new_key 8 := by
        unfold bytesOf
        apply List.map_congr_left
        intro i hi
        exact h i (List.mem_range.mp hi)
      rw [e, fromBytes_bytesOf8 new_key hkey]
  rw [copy_ds1990_eq, hp]
  simp only [Bool.true_eq_false, if_false]
  refine ⟨?_, ?_, ?_⟩
  · rw [← hiff]; split_ifs <;> simp_all
  · split_ifs <;> simp
  · intro i hi hne
    have : ¬ fromBytes ((List.range 8).map (fun k => bus.rxByte (8 + k))) = new_key := by
      intro h; exact hne (hiff.mp h i hi)
    simp [this]

/-- Witness for C10: a device that answers, reads back the target, and the
identity 0x0807060504030201. -/
theorem copy_ds1990_verify_witness :
    (0x0807060504030201 : Nat) < 2 ^ 64 ∧
    (OneWire.mk [true] [1, 0, 0, 0, 0, 0, 0, 0, 1, 2, 3, 4, 5, 6, 7, 8] []).presence.headD false
      = true ∧
    ((copy_ds1990 dallas_crc8
        (OneWire.mk [true] [1, 0, 0, 0, 0, 0, 0, 0, 1, 2, 3, 4, 5, 6, 7, 8] [])
        0x0807060504030201).1 = 0 ↔
      ∀ i, i < 8 →
        (OneWire.mk [true] [1, 0, 0, 0, 0, 0, 0, 0, 1, 2, 3, 4, 5, 6, 7, 8] []).rxByte (8 + i)
          = byteAt 0x0807060504030201 i) :=
  ⟨by norm_num, rfl,
    (copy_ds1990_verify dallas_crc8
      (OneWire.mk [true] [1, 0, 0, 0, 0, 0, 0, 0, 1, 2, 3, 4, 5, 6, 7, 8] [])
      0x0807060504030201 (by norm_num) rfl).1⟩



/-! ## Bytes and cells -/

theorem shiftRight7 (b : Nat) : b >>> 7 = b / 128 := by
  rw [Nat.shiftRight_eq_div_pow]

theorem and127 (b : Nat) : b &&& 127 = b % 128 :=
  Nat.and_pow_two_sub_one_eq_mod b 7

set_option maxRecDepth 100000 in
theorem or128_fin :
    ∀ x : Fin 256, (x.val ||| 128) = if x.val < 128 then x.val + 128 else x.val := by
  decide

theorem or128_byte (x : Nat) (hx : x < 256) :
    (x ||| 128) = if x < 128 then x + 128 else x :=
  or128_fin ⟨x, hx⟩

theorem or128 (x : Nat) (hx : x < 128) : x ||| 128 = x + 128 := by
  rw [or128_byte x (by omega), if_pos hx]

theorem or128_left (x : Nat) (hx : x < 256) :
    (128 ||| x) = if x < 128 then x + 128 else x := by
  rw [Nat.lor_comm, or128_byte x hx]

theorem toByte_lt (v : Int) : toByte v < 256 := by
  unfold toByte; omega

theorem readByte_lt (m : Memory) (a : Int) : readByte m a < 256 := by
  unfold readByte; omega

theorem readByte_updateByte (m : Memory) (a b : Int) (v : Nat) :
    readByte (updateByte m a v) b = if b = a then v % 256 else readByte m b := by
  unfold readByte updateByte
  split_ifs <;> simp

theorem readByte_updateByte_same (m : Memory) (a : Int) (v : Nat) :
    readByte (updateByte m a v) a = v % 256 := by
  rw [readByte_updateByte, if_pos rfl]

theorem readByte_updateByte_other (m : Memory) (a b : Int) (v : Nat) (h : b ≠ a) :
    readByte (updateByte m a v) b = readByte m b := by
  rw [readByte_updateByte, if_neg h]

theorem readByte_updateInt (m : Memory) (a b : Int) (v : Int) :
    readByte (updateInt m a v) b =
      if b = a + 1 then toByte (v / 256) else if b = a then toByte v else readByte m b := by
  unfold updateInt
  simp only [readByte_updateByte]
  have h1 : toByte v % 256 = toByte v := by unfold toByte; omega
  have h2 : toByte (v / 256) % 256 = toByte (v / 256) := by unfold toByte; omega
  rw [h1, h2]

theorem readInt_updateInt (m : Memory) (a : Int) (v : Int)
    (hv : -32768 ≤ v ∧ v < 32768) : readInt (updateInt m a v) a = v := by
  have h0 : readByte (updateInt m a v) a = toByte v := by
    rw [readByte_updateInt, if_neg (by omega), if_pos rfl]
  have h1 : readByte (updateInt m a v) (a + 1) = toByte (v / 256) := by
    rw [readByte_updateInt, if_pos rfl]
  unfold readInt
  rw [h0, h1]
  unfold toByte
  simp only
  split_ifs <;> omega

theorem readByte_updateLong (m : Memory) (a b : Int) (v : Nat) :
    readByte (updateLong m a v) b =
      if b = a then v % 256
      else if b = a + 1 then v / 256 % 256
      else if b = a + 2 then v / 65536 % 256
      else if b = a + 3 then v / 16777216 % 256
      else readByte m b := by
  unfold updateLong
  simp only [readByte_updateByte, Nat.mod_mod]
  split_ifs <;> first | rfl | omega

theorem readLong_updateLong (m : Memory) (a : Int) (v : Nat) (hv : v < 4294967296) :
    readLong (updateLong m a v) a = v := by
  have h0 : readByte (updateLong m a v) a = v % 256 := by
    rw [readByte_updateLong, if_pos rfl]
  have h1 : readByte (updateLong m a v) (a + 1) = v / 256 % 256 := by
    rw [readByte_updateLong, if_neg (by omega), if_pos rfl]
  have h2 : readByte (updateLong m a v) (a + 2) = v / 65536 % 256 := by
    rw [readByte_updateLong, if_neg (by omega), if_neg (by omega), if_pos rfl]
  have h3 : readByte (updateLong m a v) (a + 3) = v / 16777216 % 256 := by
    rw [readByte_updateLong, if_neg (by omega), if_neg (by omega), if_neg (by omega), if_pos rfl]
  unfold readLong
  rw [h0, h1, h2, h3]
  omega

theorem readByte_save_key_name (buffer : Nat → Nat) (key_start : Int) (n : Nat) (m : Memory)
    (a : Int) :
    readByte (save_key_name buffer key_start n m) a =
      if key_start + 1 ≤ a ∧ a < key_start + 1 + n then buffer (a - key_start - 1).toNat % 256
      else readByte m a := by
  induction n with
  | zero =>
    simp only [save_key_name]
    rw [if_neg (by omega)]
  | succ n ih =>
    simp only [save_key_name, readByte_updateByte, ih, KEY_NAME_OFFSET]
    by_cases h : a = key_start + 1 + (n : Int)
    · rw [if_pos h, if_pos (by omega)]
      have : (a - key_start - 1).toNat = n := by omega
      rw [this]
    · rw [if_neg h]
      by_cases h2 : key_start + 1 ≤ a ∧ a < key_start + 1 + (n : Int)
      · rw [if_pos h2, if_pos (by push_cast; omega)]
      · rw [if_neg h2, if_neg (by push_cast; omega)]

theorem readByte_update_key_by_index_type (m : Memory) (key : Key) :
    readByte (update_key_by_index m key) (KEY_TABLE_OFFSET + key.key_index * KEY_SIZE)
      = key.key_type % 256 := by
  unfold update_key_by_index
  simp only [readByte_updateLong, readByte_updateByte, KEY_TABLE_OFFSET, KEY_SIZE, KEY_OFFSET,
    KEY_TYPE_OFFSET]
  repeat rw [if_neg (by omega)]
  rw [if_pos (by omega)]

theorem readByte_update_key_by_index_frame (m : Memory) (key : Key) (a : Int)
    (h : a < KEY_TABLE_OFFSET + key.key_index * KEY_SIZE ∨
      (KEY_TABLE_OFFSET + key.key_index * KEY_SIZE < a ∧
        a < KEY_TABLE_OFFSET + key.key_index * KEY_SIZE + 33) ∨
      KEY_TABLE_OFFSET + key.key_index * KEY_SIZE + 41 ≤ a) :
    readByte (update_key_by_index m key) a = readByte m a := by
  unfold update_key_by_index
  simp only [readByte_updateLong, readByte_updateByte, KEY_TABLE_OFFSET, KEY_SIZE, KEY_OFFSET,
    KEY_TYPE_OFFSET] at h ⊢
  repeat rw [if_neg (by omega)]

theorem readLong_update_key_by_index (m : Memory) (key : Key) :
    readLong (update_key_by_index m key) (KEY_TABLE_OFFSET + key.key_index * KEY_SIZE + KEY_OFFSET)
      = key.cur_key % 4294967296 ∧
    readLong (update_key_by_index m key)
        (KEY_TABLE_OFFSET + key.key_index * KEY_SIZE + KEY_OFFSET + 4)
      = key.cur_key / 4294967296 % 4294967296 := by
  unfold update_key_by_index
  simp only
  constructor
  · unfold readLong
    simp only [readByte_updateLong (updateLong _ _ _)]
    repeat rw [if_neg (by omega)]
    exact readLong_updateLong _ _ _ (Nat.mod_lt _ (by norm_num))
  · exact readLong_updateLong _ _ _ (Nat.mod_lt _ (by norm_num))

/-! ## The slot table -/

theorem tombstoned_iff (m : Memory) (slot : Int) : tombstoned m slot ↔ 128 ≤ slotType m slot := by
  unfold tombstoned
  rw [shiftRight7]
  have := readByte_lt m (KEY_TABLE_OFFSET + slot * KEY_SIZE + KEY_TYPE_OFFSET)
  unfold slotType
  omega

theorem runLength_eq (m : Memory) (slot : Int) : runLength m slot = slotType m slot % 128 := by
  unfold runLength; rw [and127]

theorem slotType_lt (m : Memory) (slot : Int) : slotType m slot < 256 := readByte_lt m _

theorem slotType_def (m : Memory) (slot : Int) : slotType m slot = readByte m (2 + slot * 41) := by
  unfold slotType
  congr 1
  simp only [KEY_TABLE_OFFSET, KEY_SIZE, KEY_TYPE_OFFSET]
  omega

theorem get_key_offset_loop_succ (m : Memory) (n : Nat) (r : Int) :
    get_key_offset_loop m (n + 1) r =
      get_key_offset_loop m n (if tombstoned m (r + 1) then r + runLength m (r + 1) else r + 1) := by
  have e : KEY_TABLE_OFFSET + r * KEY_SIZE + KEY_SIZE + KEY_TYPE_OFFSET
      = KEY_TABLE_OFFSET + (r + 1) * KEY_SIZE + KEY_TYPE_OFFSET := by ring
  rw [get_key_offset_loop, e]
  unfold tombstoned runLength slotType
  split_ifs <;> rfl

theorem get_key_offset_start_eq (m : Memory) :
    get_key_offset_start m = if tombstoned m 0 then (runLength m 0 : Int) else 0 := by
  have e : KEY_TABLE_OFFSET + KEY_TYPE_OFFSET = KEY_TABLE_OFFSET + 0 * KEY_SIZE + KEY_TYPE_OFFSET := by
    ring
  unfold get_key_offset_start
  rw [e]
  unfold tombstoned runLength slotType
  split_ifs <;> rfl

/-- Over live slots the loop of `get_key_offset` advances one slot per step. -/
theorem get_key_offset_loop_live (m : Memory) (n : Nat) (r : Int)
    (h : ∀ j : Int, r < j → j ≤ r + n → ¬ tombstoned m j) :
    get_key_offset_loop m n r = r + n := by
  induction n generalizing r with
  | zero => simp [get_key_offset_loop]
  | succ n ih =>
    rw [get_key_offset_loop_succ, if_neg (h (r + 1) (by omega) (by push_cast; omega)), ih]
    · push_cast; ring
    · intro j h1 h2
      exact h j (by omega) (by push_cast; omega)

/-- When slots `0 .. i` are live, logical index `i` resolves to slot `i`. -/
theorem get_key_offset_live (m : Memory) (i : Int) (hi : 0 ≤ i)
    (h : ∀ j : Int, 0 ≤ j → j ≤ i → ¬ tombstoned m j) :
    get_key_offset m i = KEY_TABLE_OFFSET + i * KEY_SIZE := by
  unfold get_key_offset
  rw [get_key_offset_start_eq, if_neg (h 0 le_rfl hi), get_key_offset_loop_live]
  · congr 2; omega
  · intro j h1 h2
    exact h j (by omega) (by omega)

/-- Where the scan of `save_key` stops. -/
theorem save_key_scan_spec (m : Memory) (c : Int) (n : Nat) (i : Int) :
    i ≤ save_key_scan m c n i ∧ save_key_scan m c n i ≤ i + n ∧
    (∀ j : Int, i ≤ j → j < save_key_scan m c n i → j < c ∧ ¬ tombstoned m j) ∧
    (save_key_scan m c n i < i + n →
      ¬ (save_key_scan m c n i < c ∧ ¬ tombstoned m (save_key_scan m c n i))) := by
  induction n generalizing i with
  | zero =>
    simp only [save_key_scan]
    refine ⟨le_rfl, by simp, ?_, ?_⟩
    · intro j h1 h2; omega
    · intro h; simp at h
  | succ n ih =>
    rw [save_key_scan]
    by_cases hc : i < c ∧ readByte m (KEY_TABLE_OFFSET + i * KEY_SIZE + KEY_TYPE_OFFSET) >>> 7 = 0
    · rw [if_pos hc]
      obtain ⟨h1, h2, h3, h4⟩ := ih (i + 1)
      refine ⟨by omega, by push_cast; omega, ?_, ?_⟩
      · intro j hj1 hj2
        by_cases hji : j = i
        · subst hji
          refine ⟨hc.1, ?_⟩
          unfold tombstoned slotType
          exact not_not.mpr hc.2
        · exact h3 j (by omega) hj2
      · intro h
        exact h4 (by push_cast at h; omega)
    · rw [if_neg hc]
      refine ⟨le_rfl, by push_cast; omega, ?_, ?_⟩
      · intro j h1 h2; omega
      · intro _ h
        apply hc
        refine ⟨h.1, ?_⟩
        have := h.2
        unfold tombstoned slotType at this
        exact not_not.mp this

/-- The slot `save_key` chooses is not negative, every slot before it is
live, and when it lies below the counter it is tombstoned. -/
theorem save_key_slot_spec (m : Memory) :
    0 ≤ save_key_slot m ∧
    (∀ j : Int, 0 ≤ j → j < save_key_slot m → j < readInt m 0 ∧ ¬ tombstoned m j) ∧
    (0 ≤ readInt m 0 → save_key_slot m ≤ readInt m 0) ∧
    (readInt m 0 < 0 → save_key_slot m = 0) ∧
    (save_key_slot m < readInt m 0 → tombstoned m (save_key_slot m)) := by
  obtain ⟨h1, h2, h3, h4⟩ := save_key_scan_spec m (readInt m 0) (readInt m 0).toNat 0
  unfold save_key_slot
  refine ⟨h1, h3, ?_, ?_, ?_⟩
  · intro h; omega
  · intro h; omega
  · intro h
    by_contra hn
    exact h4 (by omega) ⟨h, hn⟩

/-! ## `save_key` -/

theorem save_key_eeprom (original_title : Bool) (s : KeyState) :
    (save_key original_title s).eeprom =
      save_key_name (save_key original_title s).buffer
        (KEY_TABLE_OFFSET + save_key_slot s.eeprom * KEY_SIZE) KEY_NAME_LEN
        (update_key_by_index
          (updateInt (save_key_shrink s.eeprom (save_key_slot s.eeprom)) 0 (readInt s.eeprom 0 + 1))
          { s.global_key with key_index := save_key_slot s.eeprom }) := by
  simp only [save_key, save_key_slot]

theorem save_key_key_index (original_title : Bool) (s : KeyState) :
    (save_key original_title s).global_key.key_index = save_key_slot s.eeprom := by
  simp only [save_key, save_key_slot]

theorem save_key_buffer (original_title : Bool) (s : KeyState) :
    (save_key original_title s).buffer =
      if original_title then s.buffer else save_key_title s.buffer (readInt s.eeprom 0 + 1) := by
  simp only [save_key]

/-- The marker rewrite of `save_key` touches at most the type bytes of slots
`i + 1` and `i + num_free - 1`. -/
theorem readByte_save_key_shrink (m : Memory) (i a : Int)
    (h : (i ≠ readInt m 0 ∧ runLength m i ≠ 1) →
      a ≠ 2 + (i + 1) * 41 ∧ a ≠ 2 + (i + runLength m i - 1) * 41) :
    readByte (save_key_shrink m i) a = readByte m a := by
  unfold save_key_shrink
  by_cases hc : i ≠ readInt m 0 ∧
      (readByte m (KEY_TABLE_OFFSET + i * KEY_SIZE + KEY_TYPE_OFFSET) &&& 127) ≠ 1
  · rw [if_pos hc]
    have h' := h hc
    unfold runLength slotType at h'
    simp only [readByte_updateByte]
    rw [if_neg (by simp only [KEY_TABLE_OFFSET, KEY_SIZE, KEY_TYPE_OFFSET] at h' ⊢; omega),
      if_neg (by simp only [KEY_TABLE_OFFSET, KEY_SIZE, KEY_TYPE_OFFSET] at h' ⊢; omega)]
  · rw [if_neg hc]

/-- A cell outside the chosen slot and outside the counter reads after
`save_key` as it reads after the marker rewrite alone. -/
theorem readByte_save_key_frame (original_title : Bool) (s : KeyState) (a : Int)
    (h0 : a ≠ 0) (h1 : a ≠ 1)
    (h : a < 2 + save_key_slot s.eeprom * 41 ∨ 2 + save_key_slot s.eeprom * 41 + 41 ≤ a) :
    readByte (save_key original_title s).eeprom a
      = readByte (save_key_shrink s.eeprom (save_key_slot s.eeprom)) a := by
  rw [save_key_eeprom, readByte_save_key_name, if_neg, readByte_update_key_by_index_frame,
    readByte_updateInt, if_neg, if_neg h0]
  · omega
  · simp only [KEY_TABLE_OFFSET, KEY_SIZE]; omega
  · simp only [KEY_TABLE_OFFSET, KEY_SIZE, KEY_NAME_LEN]; push_cast; omega

/-- The type byte of the chosen slot after `save_key`. -/
theorem slotType_save_key_slot (original_title : Bool) (s : KeyState) :
    slotType (save_key original_title s).eeprom (save_key_slot s.eeprom)
      = s.global_key.key_type % 256 := by
  unfold slotType
  rw [save_key_eeprom, readByte_save_key_name, if_neg, KEY_TYPE_OFFSET, add_zero]
  · have h := readByte_update_key_by_index_type
      (updateInt (save_key_shrink s.eeprom (save_key_slot s.eeprom)) 0 (readInt s.eeprom 0 + 1))
      { s.global_key with key_index := save_key_slot s.eeprom }
    simp only at h
    exact h
  · simp only [KEY_TABLE_OFFSET, KEY_SIZE, KEY_NAME_LEN, KEY_TYPE_OFFSET]; omega

/-- The name field of the chosen slot after `save_key`. -/
theorem readByte_save_key_name_field (original_title : Bool) (s : KeyState) (k : Nat)
    (hk : k < 32) :
    readByte (save_key original_title s).eeprom
        (KEY_TABLE_OFFSET + save_key_slot s.eeprom * KEY_SIZE + KEY_NAME_OFFSET + k)
      = (save_key original_title s).buffer k % 256 := by
  rw [save_key_eeprom, readByte_save_key_name, if_pos]
  · have e : (KEY_TABLE_OFFSET + save_key_slot s.eeprom * KEY_SIZE + KEY_NAME_OFFSET + (k : Int)
        - (KEY_TABLE_OFFSET + save_key_slot s.eeprom * KEY_SIZE) - 1).toNat = k := by
      simp only [KEY_TABLE_OFFSET, KEY_SIZE, KEY_NAME_OFFSET]; omega
    rw [e]
  · simp only [KEY_TABLE_OFFSET, KEY_SIZE, KEY_NAME_LEN, KEY_NAME_OFFSET]; push_cast; omega

theorem readLong_congr (m m' : Memory) (a : Int)
    (h : ∀ t : Int, 0 ≤ t → t < 4 → readByte m' (a + t) = readByte m (a + t)) :
    readLong m' a = readLong m a := by
  unfold readLong
  have h0 := h 0 (by omega) (by omega)
  rw [add_zero] at h0
  rw [h0, h 1 (by omega) (by omega), h 2 (by omega) (by omega), h 3 (by omega) (by omega)]

/-- The payload of the chosen slot after `save_key`, as two 32-bit halves. -/
theorem readLong_save_key (original_title : Bool) (s : KeyState) :
    readLong (save_key original_title s).eeprom
        (KEY_TABLE_OFFSET + save_key_slot s.eeprom * KEY_SIZE + KEY_OFFSET)
      = s.global_key.cur_key % 4294967296 ∧
    readLong (save_key original_title s).eeprom
        (KEY_TABLE_OFFSET + save_key_slot s.eeprom * KEY_SIZE + KEY_OFFSET + 4)
      = s.global_key.cur_key / 4294967296 % 4294967296 := by
  have key := readLong_update_key_by_index
    (updateInt (save_key_shrink s.eeprom (save_key_slot s.eeprom)) 0 (readInt s.eeprom 0 + 1))
    { s.global_key with key_index := save_key_slot s.eeprom }
  simp only at key
  have frame : ∀ a : Int, KEY_TABLE_OFFSET + save_key_slot s.eeprom * KEY_SIZE + KEY_OFFSET ≤ a →
      readByte (save_key original_title s).eeprom a =
        readByte (update_key_by_index
          (updateInt (save_key_shrink s.eeprom (save_key_slot s.eeprom)) 0 (readInt s.eeprom 0 + 1))
          { s.global_key with key_index := save_key_slot s.eeprom }) a := by
    intro a ha
    rw [save_key_eeprom, readByte_save_key_name, if_neg]
    simp only [KEY_TABLE_OFFSET, KEY_SIZE, KEY_NAME_LEN, KEY_OFFSET] at ha ⊢; push_cast; omega
  constructor
  · rw [← key.1]
    exact readLong_congr _ _ _ (fun t h1 _ => frame _ (by omega))
  · rw [← key.2]
    exact readLong_congr _ _ _ (fun t h1 _ => frame _ (by omega))

/-- In a store whose run heads carry a length, the marker rewrite of
`save_key` leaves the type bytes of slots up to the chosen one alone. -/
theorem slotType_save_key_before (original_title : Bool) (s : KeyState)
    (hwf : HeadsCarryLength s.eeprom) (j : Int) (hj0 : 0 ≤ j) (hj : j < save_key_slot s.eeprom) :
    slotType (save_key original_title s).eeprom j = slotType s.eeprom j := by
  obtain ⟨h0, hlive, hle, hneg, htomb⟩ := save_key_slot_spec s.eeprom
  rw [slotType_def, slotType_def, readByte_save_key_frame _ _ _ (by omega) (by omega)
    (Or.inl (by omega))]
  apply readByte_save_key_shrink
  intro hc
  have hlt : save_key_slot s.eeprom < readInt s.eeprom 0 := by
    have := hle (by have := (hlive j hj0 hj).1; omega)
    omega
  have hhead : runHead s.eeprom (save_key_slot s.eeprom) := by
    refine ⟨htomb hlt, Or.inr ?_⟩
    exact (hlive (save_key_slot s.eeprom - 1) (by omega) (by omega)).2
  have := hwf _ h0 hhead
  omega

/-- After `save_key` of a key with the tombstone bit clear, in a store whose
run heads carry a length, the recorded index resolves to the chosen slot. -/
theorem get_key_offset_save_key (original_title : Bool) (s : KeyState)
    (hwf : HeadsCarryLength s.eeprom) (hty : s.global_key.key_type < 128) :
    get_key_offset (save_key original_title s).eeprom (save_key_slot s.eeprom)
      = KEY_TABLE_OFFSET + save_key_slot s.eeprom * KEY_SIZE := by
  obtain ⟨h0, hlive, -⟩ := save_key_slot_spec s.eeprom
  apply get_key_offset_live _ _ h0
  intro j hj0 hj
  rw [tombstoned_iff]
  by_cases hji : j = save_key_slot s.eeprom
  · rw [hji, slotType_save_key_slot]; omega
  · rw [slotType_save_key_before original_title s hwf j hj0 (by omega)]
    have := (hlive j hj0 (by omega)).2
    rw [tombstoned_iff] at this
    exact this

theorem halves_or (v : Nat) (hv : v < 2 ^ 64) :
    (v / 4294967296 % 4294967296 * 4294967296) ||| (v % 4294967296) = v := by
  have h := Nat.mul_add_lt_is_or (i := 32) (b := v % 4294967296)
    (Nat.mod_lt _ (by norm_num)) (v / 4294967296 % 4294967296)
  simp only [Nat.reducePow] at h hv
  rw [mul_comm, ← h]
  omega

/-- C1. Insert/get round trip: in a store whose tombstoned runs carry a
run-length of at least 1 at their head, after `save_key` of a key whose type
id is below 128 the index recorded in `global_key.key_index` resolves through
`get_key_offset` to the slot just written, `get_key_by_index` of that index
returns the same type and the same 64-bit identity, and the 32 bytes of the
slot's name field hold the title that was written (the buffer as left by
`save_key`: the caller's text when `original_title` is set). -/
theorem save_key_round_trip (original_title : Bool) (s : KeyState)
    (hwf : HeadsCarryLength s.eeprom) (hty : s.global_key.key_type < 128)
    (hkey : s.global_key.cur_key < 2 ^ 64) :
    get_key_offset (save_key original_title s).eeprom
        (save_key original_title s).global_key.key_index
      = KEY_TABLE_OFFSET + (save_key original_title s).global_key.key_index * KEY_SIZE ∧
    (get_key_by_index (save_key original_title s).eeprom
        (save_key original_title s).global_key.key_index).key_type = s.global_key.key_type ∧
    (get_key_by_index (save_key original_title s).eeprom
        (save_key original_title s).global_key.key_index).cur_key = s.global_key.cur_key ∧
    (∀ k : Nat, k < 32 →
      readByte (save_key original_title s).eeprom
          (KEY_TABLE_OFFSET + (save_key original_title s).global_key.key_index * KEY_SIZE
            + KEY_NAME_OFFSET + k)
        = (save_key original_title s).buffer k % 256) ∧
    (save_key original_title s).buffer =
      (if original_title then s.buffer
        else save_key_title s.buffer (readInt s.eeprom 0 + 1)) := by
  have hoff := get_key_offset_save_key original_title s hwf hty
  have hlong := readLong_save_key original_title s
  have htype := slotType_save_key_slot original_title s
  rw [save_key_key_index]
  refine ⟨hoff, ?_, ?_, ?_, save_key_buffer original_title s⟩
  · unfold get_key_by_index
    simp only
    rw [hoff]
    unfold slotType at htype
    rw [htype]
    omega
  · unfold get_key_by_index
    simp only
    rw [hoff, hlong.1, hlong.2]
    exact halves_or _ hkey
  · intro k hk
    exact readByte_save_key_name_field original_title s k hk

theorem sampleStore_heads : HeadsCarryLength sampleStore := by
  intro slot _ h
  have ht := h.1
  rw [tombstoned_iff, slotType_def] at ht
  rw [runLength_eq, slotType_def]
  unfold readByte sampleStore at *
  split_ifs at * <;> omega

/-- Witness for C1: `sampleState`, whose free-run of length 2 is shrunk by
the insert. -/
theorem save_key_round_trip_witness :
    HeadsCarryLength sampleState.eeprom ∧ sampleState.global_key.key_type < 128 ∧
    sampleState.global_key.cur_key < 2 ^ 64 ∧
    get_key_offset (save_key true sampleState).eeprom
        (save_key true sampleState).global_key.key_index
      = KEY_TABLE_OFFSET + (save_key true sampleState).global_key.key_index * KEY_SIZE :=
  ⟨sampleStore_heads, by decide, by decide,
    (save_key_round_trip true sampleState sampleStore_heads (by decide) (by decide)).1⟩

/-! ## `delete_key` -/

theorem get_key_offset_eq_slot (m : Memory) (index : Int) :
    get_key_offset m index = KEY_TABLE_OFFSET + get_key_slot m index * KEY_SIZE := rfl

theorem delete_key_eq (index : Int) (m : Memory) :
    delete_key index m =
      delete_key_merge
        (updateByte (updateInt m 0 (readInt m 0 - 1)) (2 + get_key_slot m index * 41) 129)
        (2 + get_key_slot m index * 41) (2 + get_key_slot m (readInt m 0 - 1) * 41) := by
  unfold delete_key
  simp only [get_key_offset_eq_slot, KEY_TABLE_OFFSET, KEY_SIZE, KEY_TYPE_OFFSET, add_zero]
  rfl

/-- The slot's own marker and the counter write, seen slot by slot. -/
theorem slotType_delete_key_mark (m : Memory) (c p j : Int) :
    slotType (updateByte (updateInt m 0 c) (2 + p * 41) 129) j
      = if j = p then 129 else slotType m j := by
  rw [slotType_def, slotType_def, readByte_updateByte, readByte_updateInt]
  by_cases h : j = p
  · rw [if_pos (by omega), if_pos h]
  · rw [if_neg (by omega), if_neg h, if_neg (by omega), if_neg (by omega)]

/-- The neighbour merge of `delete_key`, seen slot by slot. -/
theorem slotType_delete_key_merge (m : Memory) (p l j : Int) :
    slotType (delete_key_merge m (2 + p * 41) (2 + l * 41)) j =
      if (p ≠ l ∧ tombstoned m (p + 1)) ∧ (p ≠ 0 ∧ tombstoned m (p - 1)) then
        if j = p + runLength m (p + 1) ∨ j = p - runLength m (p - 1) then
          ((runLength m (p - 1) + runLength m (p + 1) + 1) ||| 128) % 256
        else slotType m j
      else if p ≠ l ∧ tombstoned m (p + 1) then
        if j = p + runLength m (p + 1) ∨ j = p then ((runLength m (p + 1) + 1) ||| 128) % 256
        else slotType m j
      else if p ≠ 0 ∧ tombstoned m (p - 1) then
        if j = p - runLength m (p - 1) ∨ j = p then ((runLength m (p - 1) + 1) ||| 128) % 256
        else slotType m j
      else slotType m j := by
  have e1 : (2 : Int) + p * 41 + KEY_SIZE + KEY_TYPE_OFFSET
      = KEY_TABLE_OFFSET + (p + 1) * KEY_SIZE + KEY_TYPE_OFFSET := by
    simp only [KEY_TABLE_OFFSET, KEY_SIZE, KEY_TYPE_OFFSET]; omega
  have e2 : (2 : Int) + p * 41 - KEY_SIZE + KEY_TYPE_OFFSET
      = KEY_TABLE_OFFSET + (p - 1) * KEY_SIZE + KEY_TYPE_OFFSET := by
    simp only [KEY_TABLE_OFFSET, KEY_SIZE, KEY_TYPE_OFFSET]; omega
  have c1 : ((2 : Int) + p * 41 ≠ 2 + l * 41) ↔ p ≠ l := by omega
  have c2 : ((2 : Int) + p * 41 ≠ KEY_TABLE_OFFSET) ↔ p ≠ 0 := by
    simp only [KEY_TABLE_OFFSET]; omega
  have t1 : readByte m (KEY_TABLE_OFFSET + (p + 1) * KEY_SIZE + KEY_TYPE_OFFSET) >>> 7 ≠ 0
      ↔ tombstoned m (p + 1) := Iff.rfl
  have t2 : readByte m (KEY_TABLE_OFFSET + (p - 1) * KEY_SIZE + KEY_TYPE_OFFSET) >>> 7 ≠ 0
      ↔ tombstoned m (p - 1) := Iff.rfl
  have r1 : readByte m (KEY_TABLE_OFFSET + (p + 1) * KEY_SIZE + KEY_TYPE_OFFSET) &&& 127
      = runLength m (p + 1) := rfl
  have r2 : readByte m (KEY_TABLE_OFFSET + (p - 1) * KEY_SIZE + KEY_TYPE_OFFSET) &&& 127
      = runLength m (p - 1) := rfl
  have s7 : (1 : Nat) <<< 7 = 128 := rfl
  unfold delete_key_merge
  rw [e1, e2]
  have hand : (p ≠ l ∧ tombstoned m (p + 1) ∧ p ≠ 0 ∧ tombstoned m (p - 1)) ↔
      ((p ≠ l ∧ tombstoned m (p + 1)) ∧ (p ≠ 0 ∧ tombstoned m (p - 1))) := by tauto
  simp only [c1, c2, t1, t2, r1, r2, s7, hand]
  clear c1 c2 t1 t2 r1 r2 hand e1 e2
  split_ifs <;>
    simp only [slotType_def, readByte_updateByte, KEY_SIZE, KEY_TYPE_OFFSET, add_zero] <;>
    split_ifs <;> first | rfl | omega

/-- The neighbour merge of `delete_key` writes type bytes of slots only. -/
theorem readByte_delete_key_merge_frame (m : Memory) (p l a : Int)
    (h : ∀ x : Int, a ≠ 2 + x * 41) :
    readByte (delete_key_merge m (2 + p * 41) (2 + l * 41)) a = readByte m a := by
  have h1 := h (p - runLength m (p - 1))
  have h2 := h (p + runLength m (p + 1))
  have h3 := h p
  have r1 : readByte m (2 + p * 41 + KEY_SIZE + KEY_TYPE_OFFSET) &&& 127
      = runLength m (p + 1) := by
    unfold runLength slotType
    congr 2
    simp only [KEY_TABLE_OFFSET, KEY_SIZE, KEY_TYPE_OFFSET]; omega
  have r2 : readByte m (2 + p * 41 - KEY_SIZE + KEY_TYPE_OFFSET) &&& 127
      = runLength m (p - 1) := by
    unfold runLength slotType
    congr 2
    simp only [KEY_TABLE_OFFSET, KEY_SIZE, KEY_TYPE_OFFSET]; omega
  unfold delete_key_merge
  simp only [r1, r2]
  split_ifs <;>
    simp only [readByte_updateByte, KEY_SIZE, KEY_TYPE_OFFSET, add_zero] <;>
    split_ifs <;> first | rfl | omega

/-- `delete_key` seen slot by slot: `p` is the slot the index resolves to,
`l` the slot the last index resolves to. -/
theorem slotType_delete_key (index : Int) (m : Memory) (j : Int) :
    slotType (delete_key index m) j =
      if (get_key_slot m index ≠ get_key_slot m (readInt m 0 - 1) ∧
            tombstoned m (get_key_slot m index + 1)) ∧
          (get_key_slot m index ≠ 0 ∧ tombstoned m (get_key_slot m index - 1)) then
        if j = get_key_slot m index + runLength m (get_key_slot m index + 1) ∨
            j = get_key_slot m index - runLength m (get_key_slot m index - 1) then
          ((runLength m (get_key_slot m index - 1) + runLength m (get_key_slot m index + 1) + 1)
            ||| 128) % 256
        else if j = get_key_slot m index then 129 else slotType m j
      else if get_key_slot m index ≠ get_key_slot m (readInt m 0 - 1) ∧
          tombstoned m (get_key_slot m index + 1) then
        if j = get_key_slot m index + runLength m (get_key_slot m index + 1) ∨
            j = get_key_slot m index then
          ((runLength m (get_key_slot m index + 1) + 1) ||| 128) % 256
        else slotType m j
      else if get_key_slot m index ≠ 0 ∧ tombstoned m (get_key_slot m index - 1) then
        if j = get_key_slot m index - runLength m (get_key_slot m index - 1) ∨
            j = get_key_slot m index then
          ((runLength m (get_key_slot m index - 1) + 1) ||| 128) % 256
        else slotType m j
      else if j = get_key_slot m index then 129 else slotType m j := by
  have hm := slotType_delete_key_mark m (readInt m 0 - 1) (get_key_slot m index)
  have ht1 : tombstoned
      (updateByte (updateInt m 0 (readInt m 0 - 1)) (2 + get_key_slot m index * 41) 129)
      (get_key_slot m index + 1) ↔ tombstoned m (get_key_slot m index + 1) := by
    rw [tombstoned_iff, tombstoned_iff, hm, if_neg (by omega)]
  have ht2 : tombstoned
      (updateByte (updateInt m 0 (readInt m 0 - 1)) (2 + get_key_slot m index * 41) 129)
      (get_key_slot m index - 1) ↔ tombstoned m (get_key_slot m index - 1) := by
    rw [tombstoned_iff, tombstoned_iff, hm, if_neg (by omega)]
  have hr1 : runLength
      (updateByte (updateInt m 0 (readInt m 0 - 1)) (2 + get_key_slot m index * 41) 129)
      (get_key_slot m index + 1) = runLength m (get_key_slot m index + 1) := by
    rw [runLength_eq, runLength_eq, hm, if_neg (by omega)]
  have hr2 : runLength
      (updateByte (updateInt m 0 (readInt m 0 - 1)) (2 + get_key_slot m index * 41) 129)
      (get_key_slot m index - 1) = runLength m (get_key_slot m index - 1) := by
    rw [runLength_eq, runLength_eq, hm, if_neg (by omega)]
  rw [delete_key_eq, slotType_delete_key_merge]
  simp only [ht1, ht2, hr1, hr2, hm]
  split_ifs <;> first | rfl | omega

/-- `delete_key` writes the two counter cells and type bytes of slots only. -/
theorem readByte_delete_key_frame (index : Int) (m : Memory) (a : Int)
    (h0 : a ≠ 0) (h1 : a ≠ 1) (h : ∀ x : Int, a ≠ 2 + x * 41) :
    readByte (delete_key index m) a = readByte m a := by
  rw [delete_key_eq, readByte_delete_key_merge_frame _ _ _ _ h, readByte_updateByte,
    if_neg (h _), readByte_updateInt, if_neg (by omega), if_neg h0]

/-- `delete_key` decrements the persisted counter. -/
theorem readInt_delete_key (index : Int) (m : Memory) (hc : -32768 < readInt m 0) :
    readInt (delete_key index m) 0 = readInt m 0 - 1 := by
  have hb : readInt m 0 < 32768 := by
    unfold readInt
    have := readByte_lt m 0
    have := readByte_lt m (0 + 1)
    simp only
    split_ifs <;> omega
  have e : ∀ a : Int, a = 0 ∨ a = 1 →
      readByte (delete_key index m) a = readByte (updateInt m 0 (readInt m 0 - 1)) a := by
    intro a ha
    rw [delete_key_eq, readByte_delete_key_merge_frame _ _ _ _ (by intro x; omega),
      readByte_updateByte, if_neg (by omega)]
  have key := readInt_updateInt m 0 (readInt m 0 - 1) (by omega)
  unfold readInt at key ⊢
  rw [e 0 (Or.inl rfl), e (0 + 1) (Or.inr (by norm_num))]
  exact key

/-! ## Steps of the scenario -/

/-- The scan of `save_key` stops at the first tombstoned slot below the
counter, or at the counter. -/
theorem save_key_slot_eq (m : Memory) (i : Int) (h0 : 0 ≤ i) (hc : i ≤ readInt m 0)
    (hlive : ∀ j : Int, 0 ≤ j → j < i → ¬ tombstoned m j)
    (htomb : i < readInt m 0 → tombstoned m i) : save_key_slot m = i := by
  obtain ⟨s0, slive, sle, -, stomb⟩ := save_key_slot_spec m
  have sle' := sle (by omega)
  rcases lt_trichotomy (save_key_slot m) i with h | h | h
  · exact absurd (stomb (by omega)) (hlive _ s0 h)
  · exact h
  · exact absurd (htomb (slive i h0 h).1) (slive i h0 h).2

theorem save_key_shrink_none (m : Memory) (i : Int)
    (h : i = readInt m 0 ∨ runLength m i = 1) : save_key_shrink m i = m := by
  unfold save_key_shrink
  rw [if_neg]
  intro hc
  rcases h with h | h
  · exact hc.1 h
  · exact hc.2 h

theorem readInt_congr (m m' : Memory) (a : Int) (h0 : readByte m' a = readByte m a)
    (h1 : readByte m' (a + 1) = readByte m (a + 1)) : readInt m' a = readInt m a := by
  unfold readInt
  rw [h0, h1]

theorem readInt_bounds (m : Memory) (a : Int) : -32768 ≤ readInt m a ∧ readInt m a < 32768 := by
  unfold readInt
  have := readByte_lt m a
  have := readByte_lt m (a + 1)
  simp only
  split_ifs <;> omega

/-- `save_key` increments the persisted counter. -/
theorem readInt_save_key (original_title : Bool) (s : KeyState) (hc : readInt s.eeprom 0 < 32767) :
    readInt (save_key original_title s).eeprom 0 = readInt s.eeprom 0 + 1 := by
  obtain ⟨h0, -⟩ := save_key_slot_spec s.eeprom
  have hb := readInt_bounds s.eeprom 0
  have e : ∀ a : Int, a = 0 ∨ a = 1 →
      readByte (save_key original_title s).eeprom a =
        readByte (updateInt (save_key_shrink s.eeprom (save_key_slot s.eeprom)) 0
          (readInt s.eeprom 0 + 1)) a := by
    intro a ha
    rw [save_key_eeprom, readByte_save_key_name, if_neg, readByte_update_key_by_index_frame]
    · left; simp only [KEY_TABLE_OFFSET, KEY_SIZE]; omega
    · simp only [KEY_TABLE_OFFSET, KEY_SIZE]; omega
  rw [readInt_congr _ _ 0 (e 0 (Or.inl rfl)) (e (0 + 1) (Or.inr (by norm_num)))]
  exact readInt_updateInt _ 0 _ (by omega)

/-- Without a marker rewrite, `save_key` changes no cell outside the counter
and the chosen slot. -/
theorem readByte_save_key_other (original_title : Bool) (s : KeyState) (a : Int)
    (hs : save_key_slot s.eeprom = readInt s.eeprom 0 ∨
      runLength s.eeprom (save_key_slot s.eeprom) = 1)
    (h0 : a ≠ 0) (h1 : a ≠ 1)
    (h : a < 2 + save_key_slot s.eeprom * 41 ∨ 2 + save_key_slot s.eeprom * 41 + 41 ≤ a) :
    readByte (save_key original_title s).eeprom a = readByte s.eeprom a := by
  rw [readByte_save_key_frame original_title s a h0 h1 h, save_key_shrink_none _ _ hs]

/-- When neither neighbour calls for a merge, `delete_key` only decrements
the counter and marks the slot with 0x81. -/
theorem delete_key_merge_none (m : Memory) (p l : Int)
    (hn : ¬ (p ≠ l ∧ tombstoned m (p + 1))) (hp : ¬ (p ≠ 0 ∧ tombstoned m (p - 1))) :
    delete_key_merge m (2 + p * 41) (2 + l * 41) = m := by
  have e1 : (2 : Int) + p * 41 + KEY_SIZE + KEY_TYPE_OFFSET
      = KEY_TABLE_OFFSET + (p + 1) * KEY_SIZE + KEY_TYPE_OFFSET := by
    simp only [KEY_TABLE_OFFSET, KEY_SIZE, KEY_TYPE_OFFSET]; omega
  have e2 : (2 : Int) + p * 41 - KEY_SIZE + KEY_TYPE_OFFSET
      = KEY_TABLE_OFFSET + (p - 1) * KEY_SIZE + KEY_TYPE_OFFSET := by
    simp only [KEY_TABLE_OFFSET, KEY_SIZE, KEY_TYPE_OFFSET]; omega
  have c1 : ((2 : Int) + p * 41 ≠ 2 + l * 41) ↔ p ≠ l := by omega
  have c2 : ((2 : Int) + p * 41 ≠ KEY_TABLE_OFFSET) ↔ p ≠ 0 := by
    simp only [KEY_TABLE_OFFSET]; omega
  have t1 : readByte m (KEY_TABLE_OFFSET + (p + 1) * KEY_SIZE + KEY_TYPE_OFFSET) >>> 7 ≠ 0
      ↔ tombstoned m (p + 1) := Iff.rfl
  have t2 : readByte m (KEY_TABLE_OFFSET + (p - 1) * KEY_SIZE + KEY_TYPE_OFFSET) >>> 7 ≠ 0
      ↔ tombstoned m (p - 1) := Iff.rfl
  unfold delete_key_merge
  rw [e1, e2]
  simp only [c1, c2, t1, t2]
  rw [if_neg (by tauto), if_neg hn, if_neg hp]

/-- The cells after a `delete_key` that merges with no neighbour. -/
theorem readByte_delete_key_none (index : Int) (m : Memory) (a : Int)
    (hn : ¬ (get_key_slot m index ≠ get_key_slot m (readInt m 0 - 1) ∧
      tombstoned m (get_key_slot m index + 1)))
    (hp : ¬ (get_key_slot m index ≠ 0 ∧ tombstoned m (get_key_slot m index - 1)))
    (h0 : a ≠ 0) (h1 : a ≠ 1) :
    readByte (delete_key index m) a =
      if a = 2 + get_key_slot m index * 41 then 129 else readByte m a := by
  have hm := slotType_delete_key_mark m (readInt m 0 - 1) (get_key_slot m index)
  rw [delete_key_eq, delete_key_merge_none, readByte_updateByte, readByte_updateInt]
  · split_ifs <;> omega
  · rw [tombstoned_iff, hm, if_neg (by omega), ← tombstoned_iff]; exact hn
  · rw [tombstoned_iff, hm, if_neg (by omega), ← tombstoned_iff]; exact hp

/-- Logical index `i` resolves to slot `i` when slots `0 .. i` are live. -/
theorem get_key_slot_live (m : Memory) (i : Int) (hi : 0 ≤ i)
    (h : ∀ j : Int, 0 ≤ j → j ≤ i → ¬ tombstoned m j) : get_key_slot m i = i := by
  have := get_key_offset_live m i hi h
  rw [get_key_offset_eq_slot] at this
  simp only [KEY_TABLE_OFFSET, KEY_SIZE] at this
  omega

/-! ## Steps of a sequence of calls -/

theorem run_delete_eeprom (index : Int) (s : KeyState) :
    (Op.run (Op.delete index) s).eeprom = delete_key index s.eeprom := rfl

/-- What an insert leaves in the slot it chooses, and the cells it leaves
alone when it rewrites no marker. -/
theorem run_save_slot (t k : Nat) (o : Bool) (b : Nat → Nat) (s : KeyState) :
    (Op.run (Op.save t k o b) s).global_key.key_index = save_key_slot s.eeprom ∧
    slotType (Op.run (Op.save t k o b) s).eeprom (save_key_slot s.eeprom) = t % 256 ∧
    (∀ j : Nat, j < 32 →
      readByte (Op.run (Op.save t k o b) s).eeprom (2 + save_key_slot s.eeprom * 41 + 1 + j)
        = (Op.run (Op.save t k o b) s).buffer j % 256) ∧
    (Op.run (Op.save t k o b) s).buffer
      = (if o then b else save_key_title b (readInt s.eeprom 0 + 1)) ∧
    readLong (Op.run (Op.save t k o b) s).eeprom (2 + save_key_slot s.eeprom * 41 + 33)
      = k % 4294967296 ∧
    readLong (Op.run (Op.save t k o b) s).eeprom (2 + save_key_slot s.eeprom * 41 + 33 + 4)
      = k / 4294967296 % 4294967296 ∧
    (readInt s.eeprom 0 < 32767 →
      readInt (Op.run (Op.save t k o b) s).eeprom 0 = readInt s.eeprom 0 + 1) ∧
    (save_key_slot s.eeprom = readInt s.eeprom 0 ∨
        runLength s.eeprom (save_key_slot s.eeprom) = 1 →
      ∀ a : Int, 2 ≤ a →
        a < 2 + save_key_slot s.eeprom * 41 ∨ 2 + save_key_slot s.eeprom * 41 + 41 ≤ a →
        readByte (Op.run (Op.save t k o b) s).eeprom a = readByte s.eeprom a) :=
  ⟨save_key_key_index o ⟨s.eeprom, ⟨k, s.global_key.key_index, t⟩, b⟩,
    slotType_save_key_slot o ⟨s.eeprom, ⟨k, s.global_key.key_index, t⟩, b⟩,
    readByte_save_key_name_field o ⟨s.eeprom, ⟨k, s.global_key.key_index, t⟩, b⟩,
    save_key_buffer o ⟨s.eeprom, ⟨k, s.global_key.key_index, t⟩, b⟩,
    (readLong_save_key o ⟨s.eeprom, ⟨k, s.global_key.key_index, t⟩, b⟩).1,
    (readLong_save_key o ⟨s.eeprom, ⟨k, s.global_key.key_index, t⟩, b⟩).2,
    readInt_save_key o ⟨s.eeprom, ⟨k, s.global_key.key_index, t⟩, b⟩,
    fun hs a ha h =>
      readByte_save_key_other o ⟨s.eeprom, ⟨k, s.global_key.key_index, t⟩, b⟩ a hs
        (by omega) (by omega) h⟩

/-- An insert that chooses slot `i` and rewrites no marker. -/
theorem run_save_at (t k : Nat) (o : Bool) (b : Nat → Nat) (s : KeyState) (i : Int)
    (hslot : save_key_slot s.eeprom = i)
    (hno : i = readInt s.eeprom 0 ∨ runLength s.eeprom i = 1)
    (hc : readInt s.eeprom 0 < 32767) :
    (Op.run (Op.save t k o b) s).global_key.key_index = i ∧
    slotType (Op.run (Op.save t k o b) s).eeprom i = t % 256 ∧
    (∀ j : Nat, j < 32 →
      readByte (Op.run (Op.save t k o b) s).eeprom (2 + i * 41 + 1 + j)
        = (Op.run (Op.save t k o b) s).buffer j % 256) ∧
    (Op.run (Op.save t k o b) s).buffer
      = (if o then b else save_key_title b (readInt s.eeprom 0 + 1)) ∧
    readLong (Op.run (Op.save t k o b) s).eeprom (2 + i * 41 + 33) = k % 4294967296 ∧
    readLong (Op.run (Op.save t k o b) s).eeprom (2 + i * 41 + 33 + 4)
      = k / 4294967296 % 4294967296 ∧
    readInt (Op.run (Op.save t k o b) s).eeprom 0 = readInt s.eeprom 0 + 1 ∧
    (∀ a : Int, 2 ≤ a → a < 2 + i * 41 ∨ 2 + i * 41 + 41 ≤ a →
      readByte (Op.run (Op.save t k o b) s).eeprom a = readByte s.eeprom a) := by
  obtain ⟨h1, h2, h3, h4, h5, h6, h7, h8⟩ := run_save_slot t k o b s
  rw [hslot] at h1 h2 h3 h5 h6 h8
  exact ⟨h1, h2, h3, h4, h5, h6, h7 hc, h8 hno⟩

/-- An insert into a store whose slots below the counter `c` are all live
goes to slot `c`. -/
theorem run_save_append (t k : Nat) (o : Bool) (b : Nat → Nat) (s : KeyState) (c : Int)
    (hc : readInt s.eeprom 0 = c) (hc0 : 0 ≤ c) (hc1 : c < 32767)
    (hlive : ∀ j : Int, 0 ≤ j → j < c → ¬ tombstoned s.eeprom j) :
    (Op.run (Op.save t k o b) s).global_key.key_index = c ∧
    slotType (Op.run (Op.save t k o b) s).eeprom c = t % 256 ∧
    readLong (Op.run (Op.save t k o b) s).eeprom (2 + c * 41 + 33) = k % 4294967296 ∧
    readLong (Op.run (Op.save t k o b) s).eeprom (2 + c * 41 + 33 + 4)
      = k / 4294967296 % 4294967296 ∧
    readInt (Op.run (Op.save t k o b) s).eeprom 0 = c + 1 ∧
    (∀ a : Int, 2 ≤ a → a < 2 + c * 41 ∨ 2 + c * 41 + 41 ≤ a →
      readByte (Op.run (Op.save t k o b) s).eeprom a = readByte s.eeprom a) := by
  have hslot : save_key_slot s.eeprom = c :=
    save_key_slot_eq s.eeprom c hc0 (le_of_eq hc.symm) hlive
      (fun h => absurd h (by rw [hc]; exact lt_irrefl c))
  obtain ⟨h1, h2, -, -, h5, h6, h7, h8⟩ :=
    run_save_at t k o b s c hslot (Or.inl hc.symm) (by rw [hc]; exact hc1)
  rw [hc] at h7
  exact ⟨h1, h2, h5, h6, h7, h8⟩

/-- The store after inserting three keys with live type ids into an empty
store: counter 3, the keys in slots 0, 1, 2, nothing written from offset 125
on. -/
theorem scenario_three_inserts (s : KeyState) (h0 : readInt s.eeprom 0 = 0)
    (tA kA tB kB tC kC : Nat) (oA oB oC : Bool) (bA bB bC : Nat → Nat)
    (hA : tA < 128) (hB : tB < 128) (hC : tC < 128) :
    readInt (runOps [Op.save tA kA oA bA, Op.save tB kB oB bB, Op.save tC kC oC bC] s).eeprom 0
      = 3 ∧
    slotType (runOps [Op.save tA kA oA bA, Op.save tB kB oB bB, Op.save tC kC oC bC] s).eeprom 0
      = tA ∧
    slotType (runOps [Op.save tA kA oA bA, Op.save tB kB oB bB, Op.save tC kC oC bC] s).eeprom 1
      = tB ∧
    slotType (runOps [Op.save tA kA oA bA, Op.save tB kB oB bB, Op.save tC kC oC bC] s).eeprom 2
      = tC ∧
    (∀ a : Int, 125 ≤ a →
      readByte (runOps [Op.save tA kA oA bA, Op.save tB kB oB bB, Op.save tC kC oC bC] s).eeprom a
        = readByte s.eeprom a) ∧
    readLong (runOps [Op.save tA kA oA bA, Op.save tB kB oB bB, Op.save tC kC oC bC] s).eeprom
        117 = kC % 4294967296 ∧
    readLong (runOps [Op.save tA kA oA bA, Op.save tB kB oB bB, Op.save tC kC oC bC] s).eeprom
        121 = kC / 4294967296 % 4294967296 := by
  simp only [runOps]
  -- first insert
  obtain ⟨-, t1, -, -, c1, f1⟩ := run_save_append tA kA oA bA s 0 h0 le_rfl (by norm_num)
    (fun j h1 h2 => absurd h1 (not_le.mpr h2))
  generalize Op.run (Op.save tA kA oA bA) s = s1 at c1 t1 f1 ⊢
  have l1 : ∀ j : Int, 0 ≤ j → j < 0 + 1 → ¬ tombstoned s1.eeprom j := by
    clear * - t1 hA
    intro j hj0 hj1
    have : j = 0 := by omega
    rw [this, tombstoned_iff, t1]; omega
  -- second insert
  obtain ⟨-, t2, -, -, c2, f2⟩ := run_save_append tB kB oB bB s1 (0 + 1) c1 (by norm_num)
    (by norm_num) l1
  generalize Op.run (Op.save tB kB oB bB) s1 = s2 at c2 t2 f2 ⊢
  have t20 : slotType s2.eeprom 0 = tA := by
    clear * - f2 t1 hA
    rw [slotType_def, f2 _ (by omega) (Or.inl (by omega)), ← slotType_def, t1]; omega
  have t21 : slotType s2.eeprom 1 = tB := by
    clear * - t2 hB
    norm_num at t2
    rw [t2]; omega
  have l2 : ∀ j : Int, 0 ≤ j → j < 0 + 1 + 1 → ¬ tombstoned s2.eeprom j := by
    clear * - t20 t21 hA hB
    intro j hj0 hj1
    have : j = 0 ∨ j = 1 := by omega
    rcases this with h | h <;> rw [h, tombstoned_iff]
    · rw [t20]; omega
    · rw [t21]; omega
  -- third insert
  obtain ⟨-, t3, p3l, p3h, c3, f3⟩ := run_save_append tC kC oC bC s2 (0 + 1 + 1) c2
    (by norm_num) (by norm_num) l2
  generalize Op.run (Op.save tC kC oC bC) s2 = s3 at c3 t3 f3 p3l p3h ⊢
  have e117 : (2 : Int) + (0 + 1 + 1) * 41 + 33 = 117 := by norm_num
  rw [e117] at p3l p3h
  have e121 : (117 : Int) + 4 = 121 := by norm_num
  rw [e121] at p3h
  have e3 : (0 : Int) + 1 + 1 + 1 = 3 := by norm_num
  rw [e3] at c3
  have e2 : (0 : Int) + 1 + 1 = 2 := by norm_num
  rw [e2] at t3 f3
  have r0 : slotType s3.eeprom 0 = tA := by
    clear * - f3 t20
    rw [slotType_def, f3 _ (by omega) (Or.inl (by omega)), ← slotType_def, t20]
  have r1 : slotType s3.eeprom 1 = tB := by
    clear * - f3 t21
    rw [slotType_def, f3 _ (by omega) (Or.inl (by omega)), ← slotType_def, t21]
  have r2 : slotType s3.eeprom 2 = tC := by
    clear * - t3 hC
    rw [t3]; omega
  have rf : ∀ a : Int, 125 ≤ a → readByte s3.eeprom a = readByte s.eeprom a := by
    clear * - f1 f2 f3
    intro a ha
    rw [f3 a (by omega) (Or.inr (by omega)), f2 a (by omega) (Or.inr (by omega)),
      f1 a (by omega) (Or.inr (by omega))]
  exact ⟨c3, r0, r1, r2, rf, p3l, p3h⟩

/-- The store after the whole scenario, for every empty store to start from
and all keys A, B, C with live type ids. -/
theorem scenario_facts (s : KeyState) (h0 : readInt s.eeprom 0 = 0) (A B C D : Key)
    (oA oB oC oD : Bool) (bA bB bC bD : Nat → Nat)
    (hA : A.key_type < 128) (hB : B.key_type < 128) (hC : C.key_type < 128) :
    (runOps (scenario A B C D oA oB oC oD bA bB bC bD) s).global_key.key_index = 1 ∧
    readInt (runOps (scenario A B C D oA oB oC oD bA bB bC bD) s).eeprom 0 = 3 ∧
    (slotType (runOps (scenario A B C D oA oB oC oD bA bB bC bD) s).eeprom 0 = A.key_type ∧
     slotType (runOps (scenario A B C D oA oB oC oD bA bB bC bD) s).eeprom 1
       = D.key_type % 256 ∧
     slotType (runOps (scenario A B C D oA oB oC oD bA bB bC bD) s).eeprom 2 = C.key_type) ∧
    (∀ k : Nat, k < 32 →
      readByte (runOps (scenario A B C D oA oB oC oD bA bB bC bD) s).eeprom (44 + k)
        = (runOps (scenario A B C D oA oB oC oD bA bB bC bD) s).buffer k % 256) ∧
    (runOps (scenario A B C D oA oB oC oD bA bB bC bD) s).buffer
      = (if oD then bD else save_key_title bD 3) ∧
    (readLong (runOps (scenario A B C D oA oB oC oD bA bB bC bD) s).eeprom 76
        = D.cur_key % 4294967296 ∧
     readLong (runOps (scenario A B C D oA oB oC oD bA bB bC bD) s).eeprom 80
        = D.cur_key / 4294967296 % 4294967296) ∧
    (readLong (runOps (scenario A B C D oA oB oC oD bA bB bC bD) s).eeprom 117
        = C.cur_key % 4294967296 ∧
     readLong (runOps (scenario A B C D oA oB oC oD bA bB bC bD) s).eeprom 121
        = C.cur_key / 4294967296 % 4294967296) ∧
    (∀ a : Int, 125 ≤ a →
      readByte (runOps (scenario A B C D oA oB oC oD bA bB bC bD) s).eeprom a
        = readByte s.eeprom a) := by
  obtain ⟨c3, t0, t1, t2, f3, pl, ph⟩ := scenario_three_inserts s h0 A.key_type A.cur_key
    B.key_type B.cur_key C.key_type C.cur_key oA oB oC bA bB bC hA hB hC
  have hrun : runOps (scenario A B C D oA oB oC oD bA bB bC bD) s =
      Op.run (Op.save D.key_type D.cur_key oD bD) (Op.run (Op.delete 1)
        (runOps [Op.save A.key_type A.cur_key oA bA, Op.save B.key_type B.cur_key oB bB,
          Op.save C.key_type C.cur_key oC bC] s)) := by
    simp only [scenario, runOps, Op.insert]
  rw [hrun]
  generalize runOps [Op.save A.key_type A.cur_key oA bA, Op.save B.key_type B.cur_key oB bB,
    Op.save C.key_type C.cur_key oC bC] s = s3 at c3 t0 t1 t2 f3 pl ph ⊢
  -- the delete
  have live3 : ∀ j : Int, 0 ≤ j → j ≤ 2 → ¬ tombstoned s3.eeprom j := by
    clear * - t0 t1 t2 hA hB hC
    intro j hj0 hj2
    have : j = 0 ∨ j = 1 ∨ j = 2 := by omega
    rcases this with h | h | h <;> rw [h, tombstoned_iff]
    · rw [t0]; omega
    · rw [t1]; omega
    · rw [t2]; omega
  have hp : get_key_slot s3.eeprom 1 = 1 :=
    get_key_slot_live _ 1 (by norm_num) (fun j h1 h2 => live3 j h1 (le_trans h2 (by norm_num)))
  have hl : get_key_slot s3.eeprom (readInt s3.eeprom 0 - 1) = 2 := by
    rw [c3]; exact get_key_slot_live _ 2 (by norm_num) live3
  have c4 : readInt (Op.run (Op.delete 1) s3).eeprom 0 = 2 := by
    rw [run_delete_eeprom, readInt_delete_key _ _ (by rw [c3]; norm_num), c3]; norm_num
  have f4 : ∀ a : Int, 2 ≤ a → readByte (Op.run (Op.delete 1) s3).eeprom a
      = if a = 43 then 129 else readByte s3.eeprom a := by
    clear * - hp hl live3
    intro a ha
    rw [run_delete_eeprom, readByte_delete_key_none 1 s3.eeprom a _ _ (by omega) (by omega), hp]
    · norm_num
    · rw [hp]; intro h; exact live3 2 (by norm_num) (by norm_num) h.2
    · rw [hp]; intro h; exact live3 0 (by norm_num) (by norm_num) h.2
  generalize Op.run (Op.delete 1) s3 = s4 at c4 f4 ⊢
  have t40 : slotType s4.eeprom 0 = A.key_type := by
    clear * - f4 t0
    rw [slotType_def, f4 _ (by omega), if_neg (by omega), ← slotType_def, t0]
  have t41 : slotType s4.eeprom 1 = 129 := by
    clear * - f4
    rw [slotType_def, f4 _ (by omega), if_pos (by omega)]
  -- the insert of D
  have hslot : save_key_slot s4.eeprom = 1 := by
    clear * - c4 t40 t41 hA
    apply save_key_slot_eq s4.eeprom 1 (by norm_num) (by rw [c4]; norm_num)
    · intro j hj0 hj1
      have : j = 0 := by omega
      rw [this, tombstoned_iff, t40]; omega
    · intro _
      rw [tombstoned_iff, t41]; omega
  obtain ⟨k5, t5, n5, b5, p5l, p5h, c5, f5⟩ := run_save_at D.key_type D.cur_key oD bD s4 1 hslot
    (Or.inr (by rw [runLength_eq, t41])) (by rw [c4]; norm_num)
  generalize Op.run (Op.save D.key_type D.cur_key oD bD) s4 = s5 at k5 t5 n5 b5 p5l p5h c5 f5 ⊢
  have e76 : (2 : Int) + 1 * 41 + 33 = 76 := by norm_num
  rw [e76] at p5l p5h
  have e80 : (76 : Int) + 4 = 80 := by norm_num
  rw [e80] at p5h
  have frame5 : ∀ a : Int, 84 ≤ a → readByte s5.eeprom a = readByte s3.eeprom a := by
    clear * - f5 f4
    intro a ha
    rw [f5 a (by omega) (Or.inr (by omega)), f4 a (by omega), if_neg (by omega)]
  have r0 : slotType s5.eeprom 0 = A.key_type := by
    clear * - f5 t40
    rw [slotType_def, f5 _ (by omega) (Or.inl (by omega)), ← slotType_def, t40]
  have r2 : slotType s5.eeprom 2 = C.key_type := by
    clear * - frame5 t2
    rw [slotType_def, frame5 _ (by omega), ← slotType_def, t2]
  have rn : ∀ k : Nat, k < 32 → readByte s5.eeprom (44 + k) = s5.buffer k % 256 := by
    clear * - n5
    intro k hk
    have e : (44 : Int) + k = 2 + 1 * 41 + 1 + k := by omega
    rw [e]
    exact n5 k hk
  have rc : readInt s5.eeprom 0 = 3 := by
    clear * - c5 c4
    rw [c5, c4]; norm_num
  have rb : s5.buffer = if oD then bD else save_key_title bD 3 := by
    clear * - b5 c4
    rw [b5, c4]; norm_num
  have rl : ∀ x : Int, 84 ≤ x → readLong s5.eeprom x = readLong s3.eeprom x := by
    clear * - frame5
    intro x hx
    exact readLong_congr _ _ _ (fun t h1 h2 => frame5 _ (by omega))
  have rf : ∀ a : Int, 125 ≤ a → readByte s5.eeprom a = readByte s.eeprom a := by
    clear * - frame5 f3
    intro a ha
    rw [frame5 a (by omega), f3 a ha]
  refine ⟨k5, rc, ⟨r0, t5, r2⟩, rn, rb, ⟨p5l, p5h⟩, ⟨?_, ?_⟩, rf⟩
  · rw [← pl]; exact rl _ (by norm_num)
  · rw [← ph]; exact rl _ (by norm_num)

/-- C6. First-fit reuse: from every empty store, after inserting A, B, C
(live type ids), deleting logical index 1 and inserting D, `save_key` has
recorded slot 1, D's type, name and payload are in the slot at byte offset 43,
the counter is 3, and no cell from offset 125 on (where a fourth slot would
start) has changed. -/
theorem scenario_first_fit_reuse (s : KeyState) (h0 : readInt s.eeprom 0 = 0) (A B C D : Key)
    (oA oB oC oD : Bool) (bA bB bC bD : Nat → Nat)
    (hA : A.key_type < 128) (hB : B.key_type < 128) (hC : C.key_type < 128) :
    (runOps (scenario A B C D oA oB oC oD bA bB bC bD) s).global_key.key_index = 1 ∧
    readByte (runOps (scenario A B C D oA oB oC oD bA bB bC bD) s).eeprom 43
      = D.key_type % 256 ∧
    (∀ k : Nat, k < 32 →
      readByte (runOps (scenario A B C D oA oB oC oD bA bB bC bD) s).eeprom (44 + k)
        = (runOps (scenario A B C D oA oB oC oD bA bB bC bD) s).buffer k % 256) ∧
    (runOps (scenario A B C D oA oB oC oD bA bB bC bD) s).buffer
      = (if oD then bD else save_key_title bD 3) ∧
    readLong (runOps (scenario A B C D oA oB oC oD bA bB bC bD) s).eeprom 76
      = D.cur_key % 4294967296 ∧
    readLong (runOps (scenario A B C D oA oB oC oD bA bB bC bD) s).eeprom 80
      = D.cur_key / 4294967296 % 4294967296 ∧
    readInt (runOps (scenario A B C D oA oB oC oD bA bB bC bD) s).eeprom 0 = 3 ∧
    (∀ a : Int, 125 ≤ a →
      readByte (runOps (scenario A B C D oA oB oC oD bA bB bC bD) s).eeprom a
        = readByte s.eeprom a) := by
  obtain ⟨k5, c5, ⟨-, t1, -⟩, n5, b5, ⟨pl, ph⟩, -, f5⟩ :=
    scenario_facts s h0 A B C D oA oB oC oD bA bB bC bD hA hB hC
  refine ⟨k5, ?_, n5, b5, pl, ph, c5, f5⟩
  rw [slotType_def] at t1
  have e : (2 : Int) + 1 * 41 = 43 := by norm_num
  rw [e] at t1
  exact t1

/-- Witness for C6: the scenario on the all-zero empty store with the keys
A, B, C, D and generated titles. -/
theorem scenario_first_fit_reuse_witness :
    readInt emptyState.eeprom 0 = 0 ∧ keyA.key_type < 128 ∧ keyB.key_type < 128 ∧
    keyC.key_type < 128 ∧
    (runOps (scenario keyA keyB keyC keyD false false false false
      (fun _ => 0) (fun _ => 0) (fun _ => 0) (fun _ => 0)) emptyState).global_key.key_index
        = 1 :=
  ⟨by decide, by decide, by decide, by decide,
    (scenario_first_fit_reuse emptyState (by decide) keyA keyB keyC keyD false false false false
      (fun _ => 0) (fun _ => 0) (fun _ => 0) (fun _ => 0) (by decide) (by decide)
      (by decide)).1⟩

/-- C7, amended. From every empty store, after inserting A, B, C, deleting
logical index 1 and inserting D (all with live type ids), D is recorded under
`key_index` 1 and logical index 1 resolves to byte offset 43, the slot holding
D, while `get_key_offset(2)` is byte offset 84, the slot holding C. -/
theorem scenario_logical_positions (s : KeyState) (h0 : readInt s.eeprom 0 = 0)
    (A B C D : Key) (oA oB oC oD : Bool) (bA bB bC bD : Nat → Nat)
    (hA : A.key_type < 128) (hB : B.key_type < 128) (hC : C.key_type < 128)
    (hD : D.key_type < 128) (hkC : C.cur_key < 2 ^ 64) (hkD : D.cur_key < 2 ^ 64) :
    (runOps (scenario A B C D oA oB oC oD bA bB bC bD) s).global_key.key_index = 1 ∧
    get_key_offset (runOps (scenario A B C D oA oB oC oD bA bB bC bD) s).eeprom 1 = 43 ∧
    get_key_offset (runOps (scenario A B C D oA oB oC oD bA bB bC bD) s).eeprom 2 = 84 ∧
    (get_key_by_index (runOps (scenario A B C D oA oB oC oD bA bB bC bD) s).eeprom 1).key_type
      = D.key_type ∧
    (get_key_by_index (runOps (scenario A B C D oA oB oC oD bA bB bC bD) s).eeprom 1).cur_key
      = D.cur_key ∧
    (get_key_by_index (runOps (scenario A B C D oA oB oC oD bA bB bC bD) s).eeprom 2).key_type
      = C.key_type ∧
    (get_key_by_index (runOps (scenario A B C D oA oB oC oD bA bB bC bD) s).eeprom 2).cur_key
      = C.cur_key := by
  obtain ⟨k5, -, ⟨t0, t1, t2⟩, -, -, ⟨pl, ph⟩, ⟨ql, qh⟩, -⟩ :=
    scenario_facts s h0 A B C D oA oB oC oD bA bB bC bD hA hB hC
  generalize (runOps (scenario A B C D oA oB oC oD bA bB bC bD) s) = s5 at *
  have hDm : D.key_type % 256 = D.key_type := Nat.mod_eq_of_lt (by omega)
  rw [hDm] at t1
  have live : ∀ j : Int, 0 ≤ j → j ≤ 2 → ¬ tombstoned s5.eeprom j := by
    clear * - t0 t1 t2 hA hC hD
    intro j hj0 hj2
    have : j = 0 ∨ j = 1 ∨ j = 2 := by omega
    rcases this with h | h | h <;> rw [h, tombstoned_iff]
    · rw [t0]; omega
    · rw [t1]; omega
    · rw [t2]; omega
  have g1 : get_key_offset s5.eeprom 1 = 43 := by
    rw [get_key_offset_live _ 1 (by norm_num)
      (fun j h1 h2 => live j h1 (le_trans h2 (by norm_num)))]
    norm_num
  have g2 : get_key_offset s5.eeprom 2 = 84 := by
    rw [get_key_offset_live _ 2 (by norm_num) live]
    norm_num
  have e76 : (43 : Int) + KEY_OFFSET = 76 := by norm_num
  have e80 : (76 : Int) + 4 = 80 := by norm_num
  have e117 : (84 : Int) + KEY_OFFSET = 117 := by norm_num
  have e121 : (117 : Int) + 4 = 121 := by norm_num
  have e43 : (43 : Int) + KEY_TYPE_OFFSET = 2 + 1 * 41 := by norm_num
  have e84 : (84 : Int) + KEY_TYPE_OFFSET = 2 + 2 * 41 := by norm_num
  rw [slotType_def] at t1 t2
  refine ⟨k5, g1, g2, ?_, ?_, ?_, ?_⟩
  · unfold get_key_by_index
    simp only
    rw [g1, e43, t1]
  · unfold get_key_by_index
    simp only
    rw [g1, e76, e80, pl, ph]
    exact halves_or _ hkD
  · unfold get_key_by_index
    simp only
    rw [g2, e84, t2]
  · unfold get_key_by_index
    simp only
    rw [g2, e117, e121, ql, qh]
    exact halves_or _ hkC

/-- Witness for C7, amended: the scenario on the all-zero empty store. -/
theorem scenario_logical_positions_witness :
    readInt emptyState.eeprom 0 = 0 ∧ keyA.key_type < 128 ∧ keyB.key_type < 128 ∧
    keyC.key_type < 128 ∧ keyD.key_type < 128 ∧ keyC.cur_key < 2 ^ 64 ∧
    keyD.cur_key < 2 ^ 64 ∧
    get_key_offset (runOps (scenario keyA keyB keyC keyD false false false false
      (fun _ => 0) (fun _ => 0) (fun _ => 0) (fun _ => 0)) emptyState).eeprom 2 = 84 :=
  ⟨by decide, by decide, by decide, by decide, by decide, by decide, by decide,
    (scenario_logical_positions emptyState (by decide) keyA keyB keyC keyD false false false
      false (fun _ => 0) (fun _ => 0) (fun _ => 0) (fun _ => 0) (by decide) (by decide)
      (by decide) (by decide) (by decide) (by decide)).2.2.1⟩

/-! ## Resolution of logical indices -/

/-- One iteration of the loop of `get_key_offset`, taken last. -/
theorem get_key_offset_loop_succ_last (m : Memory) (n : Nat) (r : Int) :
    get_key_offset_loop m (n + 1) r =
      (if tombstoned m (get_key_offset_loop m n r + 1) then
        get_key_offset_loop m n r + runLength m (get_key_offset_loop m n r + 1)
      else get_key_offset_loop m n r + 1) := by
  induction n generalizing r with
  | zero => rw [get_key_offset_loop_succ]; rfl
  | succ n ih => rw [get_key_offset_loop_succ, ih, ← get_key_offset_loop_succ]

theorem get_key_offset_start_nonneg (m : Memory) : 0 ≤ get_key_offset_start m := by
  rw [get_key_offset_start_eq]
  split_ifs <;> omega

/-- The loop of `get_key_offset` never moves backwards. -/
theorem get_key_offset_loop_mono (m : Memory) (n k : Nat) (r : Int) :
    get_key_offset_loop m n r ≤ get_key_offset_loop m (n + k) r := by
  induction k with
  | zero => exact le_rfl
  | succ k ih =>
    rw [← Nat.add_assoc, get_key_offset_loop_succ_last]
    split_ifs <;> omega

theorem get_key_offset_loop_nonneg (m : Memory) (n : Nat) (r : Int) (hr : 0 ≤ r) :
    0 ≤ get_key_offset_loop m n r := by
  have := get_key_offset_loop_mono m 0 n r
  rw [Nat.zero_add] at this
  exact le_trans hr this

theorem get_key_slot_nonneg (m : Memory) (index : Int) : 0 ≤ get_key_slot m index :=
  get_key_offset_loop_nonneg m _ _ (get_key_offset_start_nonneg m)

theorem get_key_slot_mono (m : Memory) (i j : Int) (hij : i ≤ j) :
    get_key_slot m i ≤ get_key_slot m j := by
  unfold get_key_slot
  have : j.toNat = i.toNat + (j.toNat - i.toNat) := by omega
  rw [this]
  exact get_key_offset_loop_mono m _ _ _

/-- Without a zero-length marker every iteration advances by at least one
slot. -/
theorem get_key_offset_loop_strict (m : Memory) (h : NoZeroLength m) (n k : Nat) (r : Int)
    (hr : 0 ≤ r) :
    get_key_offset_loop m n r + k ≤ get_key_offset_loop m (n + k) r := by
  induction k with
  | zero => simp
  | succ k ih =>
    rw [← Nat.add_assoc, get_key_offset_loop_succ_last]
    have h0 := get_key_offset_loop_nonneg m (n + k) r hr
    have hne := h (get_key_offset_loop m (n + k) r + 1) (by omega)
    have hlt := slotType_lt m (get_key_offset_loop m (n + k) r + 1)
    split_ifs with ht
    · rw [tombstoned_iff] at ht
      rw [runLength_eq]
      push_cast
      omega
    · push_cast
      omega

/-- C8, amended. In a store in which no slot's type byte is 0x80, logical
indices resolve in strictly increasing order: for `0 ≤ i < j`,
`get_key_offset(i) < get_key_offset(j)`, so no two of them resolve to the
same physical slot. -/
theorem get_key_offset_strict_mono (m : Memory) (h : NoZeroLength m) (i j : Int)
    (hi : 0 ≤ i) (hij : i < j) : get_key_offset m i < get_key_offset m j := by
  have hs := get_key_offset_loop_strict m h i.toNat (j.toNat - i.toNat)
    (get_key_offset_start m) (get_key_offset_start_nonneg m)
  have e : i.toNat + (j.toNat - i.toNat) = j.toNat := by omega
  rw [e] at hs
  have hk : (1 : Int) ≤ ((j.toNat - i.toNat : Nat) : Int) := by omega
  unfold get_key_offset
  simp only [KEY_TABLE_OFFSET, KEY_SIZE]
  omega

theorem sampleStore_noZeroLength : NoZeroLength sampleStore := by
  intro slot _
  rw [slotType_def]
  unfold readByte sampleStore
  split_ifs <;> omega

/-- Witness for C8, amended: `sampleStore` and the logical indices 0 and 1. -/
theorem get_key_offset_strict_mono_witness :
    NoZeroLength sampleStore ∧ (0 : Int) ≤ 0 ∧ (0 : Int) < 1 ∧
    get_key_offset sampleStore 0 < get_key_offset sampleStore 1 :=
  ⟨sampleStore_noZeroLength, by decide, by decide,
    get_key_offset_strict_mono sampleStore sampleStore_noZeroLength 0 1 (by decide) (by decide)⟩

/-! ## Free-runs -/

/-- A tombstoned slot lies in a span that is maximal to the left. -/
theorem span_start_exists (m : Memory) (n : Nat) :
    ∀ b : Int, b = n → tombstoned m b →
      ∃ a : Int, 0 ≤ a ∧ a ≤ b ∧ (∀ j : Int, a ≤ j → j ≤ b → tombstoned m j) ∧
        (a = 0 ∨ ¬ tombstoned m (a - 1)) := by
  induction n with
  | zero =>
    intro b hb ht
    refine ⟨0, le_rfl, by omega, ?_, Or.inl rfl⟩
    intro j h1 h2
    have : j = b := by omega
    rw [this]; exact ht
  | succ n ih =>
    intro b hb ht
    by_cases hprev : tombstoned m (b - 1)
    · obtain ⟨a, h0, hab, hall, hleft⟩ := ih (b - 1) (by push_cast at hb; omega) hprev
      refine ⟨a, h0, by omega, ?_, hleft⟩
      intro j h1 h2
      by_cases hj : j = b
      · rw [hj]; exact ht
      · exact hall j h1 (by omega)
    · refine ⟨b, by omega, le_rfl, ?_, Or.inr hprev⟩
      intro j h1 h2
      have : j = b := by omega
      rw [this]; exact ht

/-- A tombstoned slot below a live slot lies in a span that is maximal to
the right and ends below the live slot. -/
theorem span_end_exists (m : Memory) (l : Int) (hl : ¬ tombstoned m l) (n : Nat) :
    ∀ a : Int, l - a = n → tombstoned m a →
      ∃ b : Int, a ≤ b ∧ b < l ∧ (∀ j : Int, a ≤ j → j ≤ b → tombstoned m j) ∧
        ¬ tombstoned m (b + 1) := by
  induction n with
  | zero =>
    intro a ha ht
    have : a = l := by omega
    rw [this] at ht
    exact absurd ht hl
  | succ n ih =>
    intro a ha ht
    by_cases hnext : tombstoned m (a + 1)
    · obtain ⟨b, hab, hbl, hall, hright⟩ := ih (a + 1) (by push_cast at ha; omega) hnext
      refine ⟨b, by omega, hbl, ?_, hright⟩
      intro j h1 h2
      by_cases hj : j = a
      · rw [hj]; exact ht
      · exact hall j (by omega) h2
    · refine ⟨a, le_rfl, ?_, ?_, hnext⟩
      · by_contra hlt
        have : a = l := by push_cast at ha; omega
        rw [this] at ht
        exact hl ht
      · intro j h1 h2
        have : j = a := by omega
        rw [this]; exact ht

/-- Two maximal spans that share a slot are the same span. -/
theorem span_unique (m : Memory) (a b a' b' j : Int) (h : IsSpan m a b) (h' : IsSpan m a' b')
    (hj : a ≤ j ∧ j ≤ b) (hj' : a' ≤ j ∧ j ≤ b') : a = a' ∧ b = b' := by
  obtain ⟨h0, hab, hall, hleft, hright⟩ := h
  obtain ⟨h0', hab', hall', hleft', hright'⟩ := h'
  refine ⟨?_, ?_⟩
  · rcases lt_trichotomy a a' with hlt | heq | hgt
    · exfalso
      rcases hleft' with hz | hn
      · omega
      · exact hn (hall (a' - 1) (by omega) (by omega))
    · exact heq
    · exfalso
      rcases hleft with hz | hn
      · omega
      · exact hn (hall' (a - 1) (by omega) (by omega))
  · rcases lt_trichotomy b b' with hlt | heq | hgt
    · exact absurd (hall' (b + 1) (by omega) (by omega)) hright
    · exact heq
    · exact absurd (hall (b' + 1) (by omega) (by omega)) hright'

/-- Tombstoning a live slot `p` and marking the span `A .. B` that forms
around it keeps the free-run invariant below `l`. -/
theorem freeRuns_assembly (m m' : Memory) (p l A B : Int)
    (hA0 : 0 ≤ A) (hAp : A ≤ p) (hpB : p ≤ B)
    (htomb : ∀ j : Int, tombstoned m' j ↔ (tombstoned m j ∨ j = p))
    (hAB : ∀ j : Int, A ≤ j → j ≤ B → j ≠ p → tombstoned m j)
    (hleft : A = 0 ∨ ¬ tombstoned m (A - 1))
    (hright : p < l → ¬ tombstoned m (B + 1))
    (hsame : ∀ j : Int, j < A ∨ B < j → slotType m' j = slotType m j)
    (hmark : p < l → B < l → Marked m' A B)
    (hinv : FreeRunsMarked m l) : FreeRunsMarked m' l := by
  have hAB' : ∀ j : Int, A ≤ j → j ≤ B → tombstoned m' j := by
    intro j h1 h2
    rw [htomb]
    by_cases hj : j = p
    · exact Or.inr hj
    · exact Or.inl (hAB j h1 h2 hj)
  intro a' b' hspan hb'
  obtain ⟨h0', hab', hall', hleft', hright'⟩ := hspan
  by_cases hin : a' ≤ p ∧ p ≤ b'
  · -- the span around `p`
    have hpl : p < l := by omega
    have hspanAB : IsSpan m' A B := by
      refine ⟨hA0, by omega, hAB', ?_, ?_⟩
      · rcases hleft with hz | hn
        · exact Or.inl hz
        · right
          rw [htomb]
          intro h
          rcases h with h | h
          · exact hn h
          · omega
      · rw [htomb]
        intro h
        rcases h with h | h
        · exact hright hpl h
        · omega
    obtain ⟨e1, e2⟩ := span_unique m' a' b' A B p ⟨h0', hab', hall', hleft', hright'⟩ hspanAB hin
      ⟨hAp, hpB⟩
    rw [e1, e2]
    exact hmark hpl (by omega)
  · -- a span away from `p`
    have hnp : ∀ j : Int, a' ≤ j → j ≤ b' → j ≠ p := by
      intro j h1 h2 hj
      apply hin
      omega
    have hout : b' < A ∨ B < a' := by
      by_cases hbp : b' < p
      · left
        by_contra hcon
        exact hright' (hAB' (b' + 1) (by omega) (by omega))
      · right
        have hap : p < a' := by
          by_contra hcon
          apply hin
          omega
        by_contra hcon
        rcases hleft' with hz | hn
        · omega
        · exact hn (hAB' (a' - 1) (by omega) (by omega))
    have hspan_m : IsSpan m a' b' := by
      refine ⟨h0', hab', ?_, ?_, ?_⟩
      · intro j h1 h2
        have := hall' j h1 h2
        rw [htomb] at this
        rcases this with h | h
        · exact h
        · exact absurd h (hnp j h1 h2)
      · rcases hleft' with hz | hn
        · exact Or.inl hz
        · right
          intro h
          exact hn ((htomb _).mpr (Or.inl h))
      · intro h
        exact hright' ((htomb _).mpr (Or.inl h))
    obtain ⟨k1, k2, k3⟩ := hinv a' b' hspan_m hb'
    refine ⟨?_, ?_, k3⟩
    · rw [hsame a' (by omega)]; exact k1
    · rw [hsame b' (by omega)]; exact k2

theorem or128_mod_ge (x : Nat) : 128 ≤ (x ||| 128) % 256 := by
  have h := Nat.and_pow_two_sub_one_eq_mod (x ||| 128) 8
  have h2 := Nat.and_pow_two_sub_one_eq_mod x 8
  simp only [Nat.reducePow, Nat.add_one_sub_one] at h h2
  rw [← h, Nat.and_distrib_right, h2]
  have e : (128 &&& 255 : Nat) = 128 := by decide
  rw [e, or128_byte _ (Nat.mod_lt _ (by norm_num))]
  split_ifs <;> omega

theorem or128_mod (x : Nat) (hx : x < 128) : (x ||| 128) % 256 = x + 128 := by
  rw [or128 x hx]; omega

/-- The span of tombstoned slots that ends just before a live slot `p`. -/
theorem span_before (m : Memory) (p l : Int) (hlive : ¬ tombstoned m p) (hpl : p ≤ l)
    (hinv : FreeRunsMarked m l) (hprev : p ≠ 0 ∧ tombstoned m (p - 1)) (hp0 : 0 ≤ p) :
    ∃ a : Int, 0 ≤ a ∧ a < p ∧ (∀ j : Int, a ≤ j → j < p → tombstoned m j) ∧
      (a = 0 ∨ ¬ tombstoned m (a - 1)) ∧ (runLength m (p - 1) : Int) = p - a ∧
      p - a ≤ 127 := by
  obtain ⟨a, h0, hab, hall, hleft⟩ :=
    span_start_exists m (p - 1).toNat (p - 1) (by omega) hprev.2
  have hspan : IsSpan m a (p - 1) := by
    refine ⟨h0, hab, hall, hleft, ?_⟩
    rw [show p - 1 + 1 = p by ring]; exact hlive
  obtain ⟨-, k2, k3⟩ := hinv a (p - 1) hspan (by omega)
  refine ⟨a, h0, by omega, fun j h1 h2 => hall j h1 (by omega), hleft, ?_, by omega⟩
  rw [runLength_eq]
  omega

/-- The span of tombstoned slots that starts just after a live slot `p` and
ends below a live slot `l`. -/
theorem span_after (m : Memory) (p l : Int) (hlive : ¬ tombstoned m p)
    (hlast : ¬ tombstoned m l) (hpl : p < l) (hp0 : 0 ≤ p)
    (hinv : FreeRunsMarked m l) (hnext : tombstoned m (p + 1)) :
    ∃ b : Int, p < b ∧ b < l ∧ (∀ j : Int, p < j → j ≤ b → tombstoned m j) ∧
      ¬ tombstoned m (b + 1) ∧ (runLength m (p + 1) : Int) = b - p := by
  have hne : p + 1 ≤ l := by omega
  obtain ⟨b, hab, hbl, hall, hright⟩ :=
    span_end_exists m l hlast (l - (p + 1)).toNat (p + 1) (by omega) hnext
  have hspan : IsSpan m (p + 1) b := by
    refine ⟨by omega, hab, hall, Or.inr ?_, hright⟩
    rw [show p + 1 - 1 = p by ring]; exact hlive
  obtain ⟨k1, -, k3⟩ := hinv (p + 1) b hspan hbl
  refine ⟨b, by omega, hbl, fun j h1 h2 => hall j (by omega) h2, hright, ?_⟩
  rw [runLength_eq]
  omega

/-- The free-run invariant below `l` survives a delete of the live slot `p`
whose effect on the type bytes is the one `delete_key` has. -/
theorem freeRuns_delete_core (m m' : Memory) (p l : Int) (hp0 : 0 ≤ p) (hpl : p ≤ l)
    (hl : l ≤ 127) (hlive : ¬ tombstoned m p) (hlast : ¬ tombstoned m l)
    (hinv : FreeRunsMarked m l)
    (ST : ∀ j : Int, slotType m' j =
      if (p ≠ l ∧ tombstoned m (p + 1)) ∧ (p ≠ 0 ∧ tombstoned m (p - 1)) then
        if j = p + runLength m (p + 1) ∨ j = p - runLength m (p - 1) then
          ((runLength m (p - 1) + runLength m (p + 1) + 1) ||| 128) % 256
        else if j = p then 129 else slotType m j
      else if p ≠ l ∧ tombstoned m (p + 1) then
        if j = p + runLength m (p + 1) ∨ j = p then ((runLength m (p + 1) + 1) ||| 128) % 256
        else slotType m j
      else if p ≠ 0 ∧ tombstoned m (p - 1) then
        if j = p - runLength m (p - 1) ∨ j = p then ((runLength m (p - 1) + 1) ||| 128) % 256
        else slotType m j
      else if j = p then 129 else slotType m j) :
    FreeRunsMarked m' l := by
  by_cases hnext : p ≠ l ∧ tombstoned m (p + 1)
  · obtain ⟨b, hpb, hbl, hallb, hrightb, hn2⟩ :=
      span_after m p l hlive hlast (by omega) hp0 hinv hnext.2
    by_cases hprev : p ≠ 0 ∧ tombstoned m (p - 1)
    · -- both neighbours are run edges
      obtain ⟨a, ha0, hap, halla, hlefta, hn1, hlen⟩ :=
        span_before m p l hlive hpl hinv hprev hp0
      have ST' : ∀ j : Int, slotType m' j =
          if j = b ∨ j = a then
            ((runLength m (p - 1) + runLength m (p + 1) + 1) ||| 128) % 256
          else if j = p then 129 else slotType m j := by
        intro j
        rw [ST j, if_pos ⟨hnext, hprev⟩]
        have e1 : (j = p + (runLength m (p + 1) : Int)) ↔ j = b := by omega
        have e2 : (j = p - (runLength m (p - 1) : Int)) ↔ j = a := by omega
        simp only [e1, e2]
      have hM : (runLength m (p - 1) + runLength m (p + 1) + 1 ||| 128) % 256
          = runLength m (p - 1) + runLength m (p + 1) + 1 + 128 := or128_mod _ (by omega)
      apply freeRuns_assembly m m' p l a b ha0 (by omega) (by omega) _ _ hlefta
        (fun _ => hrightb) _ _ hinv
      · intro j
        rw [tombstoned_iff, tombstoned_iff, ST' j]
        split_ifs with h1 h2
        · have hge := or128_mod_ge (runLength m (p - 1) + runLength m (p + 1) + 1)
          have : tombstoned m j := by
            rcases h1 with h | h
            · rw [h]; exact hallb b hpb le_rfl
            · rw [h]; exact halla a le_rfl hap
          rw [tombstoned_iff] at this
          constructor
          · intro _; exact Or.inl this
          · intro _; exact hge
        · constructor
          · intro _; exact Or.inr h2
          · intro _; norm_num
        · constructor
          · intro h; exact Or.inl h
          · intro h
            rcases h with h | h
            · exact h
            · exact absurd h h2
      · intro j h1 h2 h3
        by_cases hj : j < p
        · exact halla j h1 hj
        · exact hallb j (by omega) h2
      · intro j hj
        rw [ST' j, if_neg (by omega), if_neg (by omega)]
      · intro _ _
        refine ⟨?_, ?_, by omega⟩
        · rw [ST' a, if_pos (Or.inr rfl), hM]; push_cast; omega
        · rw [ST' b, if_pos (Or.inl rfl), hM]; push_cast; omega
    · -- only the next neighbour is a run edge
      have ST' : ∀ j : Int, slotType m' j =
          if j = b ∨ j = p then ((runLength m (p + 1) + 1) ||| 128) % 256
          else slotType m j := by
        intro j
        rw [ST j, if_neg (fun h => hprev h.2), if_pos hnext]
        have e1 : (j = p + (runLength m (p + 1) : Int)) ↔ j = b := by omega
        simp only [e1]
      have hM : (runLength m (p + 1) + 1 ||| 128) % 256 = runLength m (p + 1) + 1 + 128 :=
        or128_mod _ (by omega)
      have hleft : p = 0 ∨ ¬ tombstoned m (p - 1) := by
        by_cases h0 : p = 0
        · exact Or.inl h0
        · exact Or.inr (fun h => hprev ⟨h0, h⟩)
      apply freeRuns_assembly m m' p l p b hp0 le_rfl (by omega) _ _ hleft
        (fun _ => hrightb) _ _ hinv
      · intro j
        rw [tombstoned_iff, tombstoned_iff, ST' j]
        split_ifs with h1
        · have hge := or128_mod_ge (runLength m (p + 1) + 1)
          constructor
          · intro _
            rcases h1 with h | h
            · left
              rw [← tombstoned_iff, h]; exact hallb b hpb le_rfl
            · exact Or.inr h
          · intro _; exact hge
        · constructor
          · intro h; exact Or.inl h
          · intro h
            rcases h with h | h
            · exact h
            · exact absurd (Or.inr h) h1
      · intro j h1 h2 h3
        exact hallb j (by omega) h2
      · intro j hj
        rw [ST' j, if_neg (by omega)]
      · intro _ _
        refine ⟨?_, ?_, by omega⟩
        · rw [ST' p, if_pos (Or.inr rfl), hM]; push_cast; omega
        · rw [ST' b, if_pos (Or.inl rfl), hM]; push_cast; omega
  · have hright : p < l → ¬ tombstoned m (p + 1) := by
      intro hlt h
      exact hnext ⟨by omega, h⟩
    by_cases hprev : p ≠ 0 ∧ tombstoned m (p - 1)
    · -- only the previous neighbour is a run edge
      obtain ⟨a, ha0, hap, halla, hlefta, hn1, hlen⟩ :=
        span_before m p l hlive hpl hinv hprev hp0
      have ST' : ∀ j : Int, slotType m' j =
          if j = a ∨ j = p then ((runLength m (p - 1) + 1) ||| 128) % 256
          else slotType m j := by
        intro j
        rw [ST j, if_neg (fun h => hnext h.1), if_neg hnext, if_pos hprev]
        have e2 : (j = p - (runLength m (p - 1) : Int)) ↔ j = a := by omega
        simp only [e2]
      apply freeRuns_assembly m m' p l a p ha0 (by omega) le_rfl _ _ hlefta hright _ _ hinv
      · intro j
        rw [tombstoned_iff, tombstoned_iff, ST' j]
        split_ifs with h1
        · have hge := or128_mod_ge (runLength m (p - 1) + 1)
          constructor
          · intro _
            rcases h1 with h | h
            · left
              rw [← tombstoned_iff, h]; exact halla a le_rfl hap
            · exact Or.inr h
          · intro _; exact hge
        · constructor
          · intro h; exact Or.inl h
          · intro h
            rcases h with h | h
            · exact h
            · exact absurd (Or.inr h) h1
      · intro j h1 h2 h3
        exact halla j h1 (by omega)
      · intro j hj
        rw [ST' j, if_neg (by omega)]
      · intro hlt _
        have hM : (runLength m (p - 1) + 1 ||| 128) % 256 = runLength m (p - 1) + 1 + 128 :=
          or128_mod _ (by omega)
        refine ⟨?_, ?_, by omega⟩
        · rw [ST' a, if_pos (Or.inl rfl), hM]; push_cast; omega
        · rw [ST' p, if_pos (Or.inr rfl), hM]; push_cast; omega
    · -- no neighbour is a run edge
      have ST' : ∀ j : Int, slotType m' j = if j = p then 129 else slotType m j := by
        intro j
        rw [ST j, if_neg (fun h => hnext h.1), if_neg hnext, if_neg hprev]
      have hleft : p = 0 ∨ ¬ tombstoned m (p - 1) := by
        by_cases h0 : p = 0
        · exact Or.inl h0
        · exact Or.inr (fun h => hprev ⟨h0, h⟩)
      apply freeRuns_assembly m m' p l p p hp0 le_rfl le_rfl _ _ hleft hright _ _ hinv
      · intro j
        rw [tombstoned_iff, tombstoned_iff, ST' j]
        split_ifs with h1
        · constructor
          · intro _; exact Or.inr h1
          · intro _; norm_num
        · constructor
          · intro h; exact Or.inl h
          · intro h
            rcases h with h | h
            · exact h
            · exact absurd h h1
      · intro j h1 h2 h3
        omega
      · intro j hj
        rw [ST' j, if_neg (by omega)]
      · intro _ _
        refine ⟨?_, ?_, by omega⟩
        · rw [ST' p, if_pos rfl]; omega
        · rw [ST' p, if_pos rfl]; omega

/-- C4, amended. When `get_key_offset` resolves the index to delete to a live
slot `p` and the last index to a live slot `l` (at most slot 127), and before
the call every maximal span of tombstoned slots that ends below slot `l` has
0x80 | length (length in 1..127) at its first and at its last slot, the same
holds after `delete_key`. -/
theorem delete_key_keeps_free_runs (m : Memory) (index : Int)
    (hrange : 0 ≤ index ∧ index < readInt m 0)
    (hlive : ¬ tombstoned m (get_key_slot m index))
    (hlast : ¬ tombstoned m (get_key_slot m (readInt m 0 - 1)))
    (hcap : get_key_slot m (readInt m 0 - 1) ≤ 127)
    (hinv : FreeRunsMarked m (get_key_slot m (readInt m 0 - 1))) :
    FreeRunsMarked (delete_key index m) (get_key_slot m (readInt m 0 - 1)) :=
  freeRuns_delete_core m (delete_key index m) (get_key_slot m index)
    (get_key_slot m (readInt m 0 - 1)) (get_key_slot_nonneg m index)
    (get_key_slot_mono m index (readInt m 0 - 1) (by omega)) hcap hlive hlast hinv
    (slotType_delete_key index m)

theorem leadingRunStore_tombstoned (j : Int) (h : tombstoned leadingRunStore j) : j = 0 := by
  rw [tombstoned_iff, slotType_def] at h
  unfold readByte leadingRunStore at h
  split_ifs at h <;> omega

theorem leadingRunStore_freeRuns (bound : Int) : FreeRunsMarked leadingRunStore bound := by
  intro a b hspan _
  obtain ⟨h0, hab, hall, -, -⟩ := hspan
  have ha := leadingRunStore_tombstoned a (hall a le_rfl hab)
  have hb := leadingRunStore_tombstoned b (hall b hab le_rfl)
  rw [ha, hb]
  refine ⟨?_, ?_, by norm_num⟩ <;> decide

/-- Witness for C4, amended: `leadingRunStore`, where deleting logical index
0 merges slot 1 into the free-run at slot 0. -/
theorem delete_key_keeps_free_runs_witness :
    ((0 : Int) ≤ 0 ∧ (0 : Int) < readInt leadingRunStore 0) ∧
    ¬ tombstoned leadingRunStore (get_key_slot leadingRunStore 0) ∧
    ¬ tombstoned leadingRunStore (get_key_slot leadingRunStore (readInt leadingRunStore 0 - 1)) ∧
    get_key_slot leadingRunStore (readInt leadingRunStore 0 - 1) ≤ 127 ∧
    FreeRunsMarked leadingRunStore (get_key_slot leadingRunStore (readInt leadingRunStore 0 - 1)) ∧
    FreeRunsMarked (delete_key 0 leadingRunStore)
      (get_key_slot leadingRunStore (readInt leadingRunStore 0 - 1)) :=
  ⟨by decide, by decide, by decide, by decide, leadingRunStore_freeRuns _,
    delete_key_keeps_free_runs leadingRunStore 0 (by decide) (by decide) (by decide) (by decide)
      (leadingRunStore_freeRuns _)⟩

/-! ## The scenario on a concrete store -/

set_option maxRecDepth 100000 in
/-- C5. After inserting A, B, C into an empty store the three keys sit at
byte offsets 2, 43, 84 under logical indices 0, 1, 2; after `delete_key(1)`
the slot at offset 43 holds the marker 0x81 and `get_key_offset(0)` is 2, but
`get_key_offset(1)` is 43, the tombstoned slot, not 84. -/
theorem get_key_offset_after_delete :
    get_key_offset (runOps [insertA, insertB, insertC] emptyState).eeprom 0 = 2 ∧
    get_key_offset (runOps [insertA, insertB, insertC] emptyState).eeprom 1 = 43 ∧
    get_key_offset (runOps [insertA, insertB, insertC] emptyState).eeprom 2 = 84 ∧
    readByte (runOps [insertA, insertB, insertC, Op.delete 1] emptyState).eeprom 43 = 0x81 ∧
    get_key_offset (runOps [insertA, insertB, insertC, Op.delete 1] emptyState).eeprom 0 = 2 ∧
    get_key_offset (runOps [insertA, insertB, insertC, Op.delete 1] emptyState).eeprom 1 = 43 ∧
    get_key_offset (runOps [insertA, insertB, insertC, Op.delete 1] emptyState).eeprom 1 ≠ 84 := by
  decide

set_option maxRecDepth 100000 in
/-- C2. After inserting A, B, C and `delete_key(1)` the counter is 2 and
index 1 is in range, yet `get_key_offset(1)` is the offset of the tombstoned
slot 1 and `get_key_by_index(1)` returns the marker 0x81 as `key_type`. -/
theorem get_key_by_index_returns_tombstone :
    InRange [insertA, insertB, insertC, Op.delete 1] emptyState ∧
    readInt (runOps [insertA, insertB, insertC, Op.delete 1] emptyState).eeprom 0 = 2 ∧
    get_key_offset (runOps [insertA, insertB, insertC, Op.delete 1] emptyState).eeprom 1
      = KEY_TABLE_OFFSET + 1 * KEY_SIZE ∧
    tombstoned (runOps [insertA, insertB, insertC, Op.delete 1] emptyState).eeprom 1 ∧
    (get_key_by_index (runOps [insertA, insertB, insertC, Op.delete 1] emptyState).eeprom
      1).key_type = 0x81 := by
  refine ⟨?_, ?_, ?_, ?_, ?_⟩
  · simp only [InRange, insertA, insertB, insertC, Op.insert]
    decide
  all_goals decide

set_option maxRecDepth 100000 in
/-- C3. After inserting A, B, C and two calls `delete_key(1)`, each with an
index below the counter, the counter is 1 while two of the three allocated
slots (0 and 2) are not tombstoned. -/
theorem counter_differs_from_live_slots :
    InRange [insertA, insertB, insertC, Op.delete 1, Op.delete 1] emptyState ∧
    readInt (runOps [insertA, insertB, insertC, Op.delete 1, Op.delete 1] emptyState).eeprom 0
      = 1 ∧
    liveSlots (runOps [insertA, insertB, insertC, Op.delete 1, Op.delete 1] emptyState).eeprom 3
      = 2 := by
  refine ⟨?_, ?_, ?_⟩
  · simp only [InRange, insertA, insertB, insertC, Op.insert]
    decide
  all_goals decide

set_option maxRecDepth 100000 in
/-- C7, as stated, fails: after inserting A, B, C, deleting index 1 and
inserting D, `get_key_offset(2)` is not byte offset 43. -/
theorem get_key_offset_two_not_reused_slot :
    get_key_offset
      (runOps [insertA, insertB, insertC, Op.delete 1, insertD] emptyState).eeprom 2 ≠ 43 := by
  decide

set_option maxRecDepth 100000 in
/-- C8, as stated, fails: after inserting key A and a key whose type id is
128 the counter is 2, yet logical indices 0 and 1 both resolve to byte
offset 2. -/
theorem get_key_offset_not_injective :
    InRange [insertA, insertType128] emptyState ∧
    readInt (runOps [insertA, insertType128] emptyState).eeprom 0 = 2 ∧
    get_key_offset (runOps [insertA, insertType128] emptyState).eeprom 0 = 2 ∧
    get_key_offset (runOps [insertA, insertType128] emptyState).eeprom 1 = 2 ∧
    ¬ (get_key_offset (runOps [insertA, insertType128] emptyState).eeprom 0 <
      get_key_offset (runOps [insertA, insertType128] emptyState).eeprom 1) := by
  refine ⟨?_, ?_, ?_, ?_, ?_⟩
  · simp only [InRange, insertA, insertType128, Op.insert]
  all_goals decide

set_option maxRecDepth 100000 in
/-- C4, as stated, fails: after inserting A, B, C and deleting logical index
2 and then 1 (both in range), slots 1 and 2 are a maximal span of two
tombstoned slots whose two ends both hold 0x81, the marker of length 1. -/
theorem free_run_not_merged_at_end :
    InRange [insertA, insertB, insertC, Op.delete 2, Op.delete 1] emptyState ∧
    IsSpan (runOps [insertA, insertB, insertC, Op.delete 2, Op.delete 1] emptyState).eeprom 1 2 ∧
    slotType (runOps [insertA, insertB, insertC, Op.delete 2, Op.delete 1] emptyState).eeprom 1
      = 0x81 ∧
    slotType (runOps [insertA, insertB, insertC, Op.delete 2, Op.delete 1] emptyState).eeprom 2
      = 0x81 ∧
    ¬ Marked (runOps [insertA, insertB, insertC, Op.delete 2, Op.delete 1] emptyState).eeprom
      1 2 := by
  have h1 : tombstoned
      (runOps [insertA, insertB, insertC, Op.delete 2, Op.delete 1] emptyState).eeprom 1 := by
    decide
  have h2 : tombstoned
      (runOps [insertA, insertB, insertC, Op.delete 2, Op.delete 1] emptyState).eeprom 2 := by
    decide
  have t1 : slotType
      (runOps [insertA, insertB, insertC, Op.delete 2, Op.delete 1] emptyState).eeprom 1
        = 0x81 := by
    decide
  refine ⟨?_, ⟨by norm_num, by norm_num, ?_, Or.inr (by decide), by decide⟩, t1, by decide, ?_⟩
  · simp only [InRange, insertA, insertB, insertC, Op.insert]
    decide
  · intro j hj1 hj2
    have : j = 1 ∨ j = 2 := by omega
    rcases this with h | h <;> rw [h]
    · exact h1
    · exact h2
  · intro h
    have := h.1
    rw [t1] at this
    norm_num at this

/-! ## Frame of `delete_key` -/

/-- C20. Delete touches only the counter and marker bytes: for every store
and every index, a byte of the store that is neither one of the two counter
bytes at offsets 0 and 1 nor at an address of the form `2 + 41 * x` reads the
same after `delete_key` as before; in particular the 32 name bytes and the 8
payload bytes of every slot `s ≥ 0`, the deleted one included, are unchanged.
Addresses are computed exactly, in a byte store without an upper end. -/
theorem delete_key_frame (index : Int) (m : Memory) :
    (∀ a : Int, a ≠ 0 → a ≠ 1 → (∀ x : Int, a ≠ 2 + 41 * x) →
      readByte (delete_key index m) a = readByte m a) ∧
    (∀ s : Int, 0 ≤ s → ∀ k : Int, 0 ≤ k → k < 32 →
      readByte (delete_key index m) (KEY_TABLE_OFFSET + s * KEY_SIZE + KEY_NAME_OFFSET + k)
        = readByte m (KEY_TABLE_OFFSET + s * KEY_SIZE + KEY_NAME_OFFSET + k)) ∧
    (∀ s : Int, 0 ≤ s → ∀ t : Int, 0 ≤ t → t < 8 →
      readByte (delete_key index m) (KEY_TABLE_OFFSET + s * KEY_SIZE + KEY_OFFSET + t)
        = readByte m (KEY_TABLE_OFFSET + s * KEY_SIZE + KEY_OFFSET + t)) ∧
    (∀ s : Int, 0 ≤ s →
      readLong (delete_key index m) (KEY_TABLE_OFFSET + s * KEY_SIZE + KEY_OFFSET)
        = readLong m (KEY_TABLE_OFFSET + s * KEY_SIZE + KEY_OFFSET) ∧
      readLong (delete_key index m) (KEY_TABLE_OFFSET + s * KEY_SIZE + KEY_OFFSET + 4)
        = readLong m (KEY_TABLE_OFFSET + s * KEY_SIZE + KEY_OFFSET + 4)) := by
  have hframe : ∀ s : Int, 0 ≤ s → ∀ k : Int, 1 ≤ k → k < 41 →
      readByte (delete_key index m) (2 + s * 41 + k) = readByte m (2 + s * 41 + k) := by
    intro s hs k hk0 hk1
    apply readByte_delete_key_frame
    · nlinarith
    · nlinarith
    · intro x; omega
  refine ⟨?_, ?_, ?_, ?_⟩
  · intro a h0 h1 h
    exact readByte_delete_key_frame index m a h0 h1 (fun x => by have := h x; omega)
  · intro s hs k hk0 hk1
    have e : KEY_TABLE_OFFSET + s * KEY_SIZE + KEY_NAME_OFFSET + k = 2 + s * 41 + (1 + k) := by
      simp only [KEY_TABLE_OFFSET, KEY_SIZE, KEY_NAME_OFFSET]; ring
    rw [e]
    exact hframe s hs (1 + k) (by omega) (by omega)
  · intro s hs t ht0 ht1
    have e : KEY_TABLE_OFFSET + s * KEY_SIZE + KEY_OFFSET + t = 2 + s * 41 + (33 + t) := by
      simp only [KEY_TABLE_OFFSET, KEY_SIZE, KEY_OFFSET]; ring
    rw [e]
    exact hframe s hs (33 + t) (by omega) (by omega)
  · intro s hs
    constructor
    · apply readLong_congr
      intro t ht0 ht1
      have e : KEY_TABLE_OFFSET + s * KEY_SIZE + KEY_OFFSET + t = 2 + s * 41 + (33 + t) := by
        simp only [KEY_TABLE_OFFSET, KEY_SIZE, KEY_OFFSET]; ring
      rw [e]
      exact hframe s hs (33 + t) (by omega) (by omega)
    · apply readLong_congr
      intro t ht0 ht1
      have e : KEY_TABLE_OFFSET + s * KEY_SIZE + KEY_OFFSET + 4 + t = 2 + s * 41 + (37 + t) := by
        simp only [KEY_TABLE_OFFSET, KEY_SIZE, KEY_OFFSET]; ring
      rw [e]
      exact hframe s hs (37 + t) (by omega) (by omega)

/-- Witness for C20: deleting index 1 of the sample store leaves byte 3, the
first name byte of slot 0, as it was. -/
theorem delete_key_frame_witness :
    readByte (delete_key 1 sampleStore) 3 = readByte sampleStore 3 :=
  (delete_key_frame 1 sampleStore).1 3 (by decide) (by decide) (fun x => by omega)

/-! ## Insert into a free-run -/

/-- The marker rewrite of `save_key` at a slot that heads a free-run of
length `n ≥ 2`: the slots `i + 1` and `i + n - 1` receive `0x80 | (n - 1)`. -/
theorem slotType_save_key_shrink (m : Memory) (i : Int) (n : Nat) (hc : i ≠ readInt m 0)
    (hhead : slotType m i = 128 + n) (hn : 2 ≤ n) (hn2 : n ≤ 127) :
    slotType (save_key_shrink m i) (i + 1) = 128 + (n - 1) ∧
    slotType (save_key_shrink m i) (i + n - 1) = 128 + (n - 1) := by
  have hr : readByte m (KEY_TABLE_OFFSET + i * KEY_SIZE + KEY_TYPE_OFFSET) &&& 127 = n := by
    have := runLength_eq m i
    unfold runLength at this
    unfold slotType at this hhead
    rw [this, hhead]
    omega
  have hv : (1 <<< 7 ||| toByte ((n : Int) - 1)) % 256 = 128 + (n - 1) := by
    have e : toByte ((n : Int) - 1) = n - 1 := by unfold toByte; omega
    have e1 : (1 : Nat) <<< 7 = 128 := by decide
    rw [e, e1, Nat.lor_comm, or128_mod (n - 1) (by omega)]
    omega
  unfold save_key_shrink
  rw [if_pos ⟨hc, by rw [hr]; omega⟩]
  simp only [hr]
  unfold slotType
  simp only [readByte_updateByte, hv]
  constructor
  · split_ifs <;> rfl
  · rw [if_pos (by simp only [KEY_TABLE_OFFSET, KEY_SIZE, KEY_TYPE_OFFSET])]

/-- C17. Insert into a free-run longer than one: when the counter is `c`,
the slots below `i` are live, `i < c`, and slot `i` is tombstoned with the
marker `0x80 | n`, `2 ≤ n ≤ 127`, then after `save_key` the record is in
slot `i` (type byte, the 32 name bytes from the text buffer, the payload as
two 32-bit halves), the slots `i + 1` and `i + n - 1` both hold the marker
`0x80 | (n - 1)`, the counter is `c + 1`, and `global_key.key_index` is `i`. -/
theorem save_key_into_free_run (original_title : Bool) (s : KeyState) (c i : Int) (n : Nat)
    (hc : readInt s.eeprom 0 = c) (hc1 : c < 32767) (hi0 : 0 ≤ i) (hic : i < c)
    (hlive : ∀ j : Int, 0 ≤ j → j < i → ¬ tombstoned s.eeprom j)
    (hhead : slotType s.eeprom i = 128 + n) (hn : 2 ≤ n) (hn2 : n ≤ 127) :
    (save_key original_title s).global_key.key_index = i ∧
    readInt (save_key original_title s).eeprom 0 = c + 1 ∧
    slotType (save_key original_title s).eeprom i = s.global_key.key_type % 256 ∧
    (∀ k : Nat, k < 32 →
      readByte (save_key original_title s).eeprom
          (KEY_TABLE_OFFSET + i * KEY_SIZE + KEY_NAME_OFFSET + k)
        = (save_key original_title s).buffer k % 256) ∧
    readLong (save_key original_title s).eeprom (KEY_TABLE_OFFSET + i * KEY_SIZE + KEY_OFFSET)
      = s.global_key.cur_key % 4294967296 ∧
    readLong (save_key original_title s).eeprom
        (KEY_TABLE_OFFSET + i * KEY_SIZE + KEY_OFFSET + 4)
      = s.global_key.cur_key / 4294967296 % 4294967296 ∧
    slotType (save_key original_title s).eeprom (i + 1) = 128 + (n - 1) ∧
    slotType (save_key original_title s).eeprom (i + n - 1) = 128 + (n - 1) := by
  have htomb : tombstoned s.eeprom i := by rw [tombstoned_iff, hhead]; omega
  have hslot : save_key_slot s.eeprom = i :=
    save_key_slot_eq s.eeprom i hi0 (by omega) hlive (fun _ => htomb)
  have hsh := slotType_save_key_shrink s.eeprom i n (by omega) hhead hn hn2
  have hk := save_key_key_index original_title s
  have hcount := readInt_save_key original_title s (by omega)
  have hty := slotType_save_key_slot original_title s
  have hname := readByte_save_key_name_field original_title s
  have hlong := readLong_save_key original_title s
  have hfr : ∀ j : Int, i < j →
      slotType (save_key original_title s).eeprom j = slotType (save_key_shrink s.eeprom i) j := by
    intro j hj
    rw [slotType_def, slotType_def]
    have := readByte_save_key_frame original_title s (2 + j * 41) (by omega) (by omega)
      (Or.inr (by rw [hslot]; omega))
    rw [hslot] at this
    exact this
  rw [hslot] at hk hty hname hlong
  rw [hc] at hcount
  refine ⟨hk, hcount, hty, hname, hlong.1, hlong.2, ?_, ?_⟩
  · rw [hfr (i + 1) (by omega)]; exact hsh.1
  · rw [hfr (i + n - 1) (by omega)]; exact hsh.2

/-- Witness for C17: the store with counter 2 whose slots 1 and 2 form a
free-run of length 2, slot 0 live. -/
theorem save_key_into_free_run_witness :
    (save_key false sampleState).global_key.key_index = 1 ∧
    readInt (save_key false sampleState).eeprom 0 = 2 + 1 ∧
    slotType (save_key false sampleState).eeprom (1 + 1) = 128 + (2 - 1) := by
  have hlive : ∀ j : Int, 0 ≤ j → j < 1 → ¬ tombstoned sampleState.eeprom j := by
    intro j h0 h1
    have e : j = 0 := by omega
    rw [e]
    decide
  have h := save_key_into_free_run false sampleState 2 1 2 (by decide) (by decide) (by decide)
    (by decide) hlive (by decide) (by decide) (by decide)
  exact ⟨h.1, h.2.1, h.2.2.2.2.2.2.1⟩

/-! ## Generated titles -/

set_option maxRecDepth 100000 in
/-- The decimal representation of a number below 100. -/
theorem repr_digits (k : Nat) (hk : k < 100) :
    (Nat.repr k).data.map Char.toNat
      = if k < 10 then [48 + k] else [48 + k / 10, 48 + k % 10] := by
  interval_cases k <;> rfl

/-- The title `save_key` generates for a count from 0 to 99 is the text of
the specification. -/
theorem save_key_title_spec (buffer : Nat → Nat) (k : Nat) (hk : k < 100) (j : Nat)
    (hj : j < (spec_title k).length) :
    save_key_title buffer k j % 256 = (spec_title k).getD j 0 := by
  have hd := repr_digits k hk
  have e1 : Int.tmod (k : Int) 10 = (k : Int) % 10 := Int.tmod_eq_emod (by omega) (by omega)
  have e2 : Int.tdiv (k : Int) 10 = (k : Int) / 10 := Int.tdiv_eq_ediv (by omega) (by omega)
  unfold spec_title at hj ⊢
  rw [hd] at hj ⊢
  unfold save_key_title
  rw [e1, e2]
  by_cases h10 : k < 10
  · rw [if_pos h10] at hj ⊢
    have hk10 : ¬ ((k : Int) ≥ 10) := by omega
    rw [if_neg hk10]
    have t0 : toByte 0 = 0 := rfl
    have hj' : j < 10 := by simpa using hj
    have t : toByte (48 + (k : Int) % 10) = 48 + k := by unfold toByte; omega
    interval_cases j <;> (simp [setChar, strcpy_P, str20, t, t0]; try omega)
  · rw [if_neg h10] at hj ⊢
    have hk10 : (k : Int) ≥ 10 := by omega
    rw [if_pos hk10]
    have t0 : toByte 0 = 0 := rfl
    have hj' : j < 11 := by simpa using hj
    have t : toByte (48 + (k : Int) % 10) = 48 + k % 10 := by unfold toByte; omega
    have t2 : toByte (48 + (k : Int) / 10) = 48 + k / 10 := by unfold toByte; omega
    interval_cases j <;> (simp [setChar, strcpy_P, str20, t, t2, t0]; try omega)

/-- C14, as amended. Auto-generated title: for every prior key count `n`
from 0 to 98, `save_key` with `original_title` false stores in the name
field of the chosen slot the text "New key " followed by the decimal
representation of the new total count `n + 1` and the terminator. -/
theorem save_key_generated_title (s : KeyState) (n : Nat) (hn : readInt s.eeprom 0 = n)
    (h98 : n ≤ 98) (j : Nat) (hj : j < (spec_title (n + 1)).length) :
    readByte (save_key false s).eeprom
        (KEY_TABLE_OFFSET + (save_key false s).global_key.key_index * KEY_SIZE
          + KEY_NAME_OFFSET + j)
      = (spec_title (n + 1)).getD j 0 := by
  have hlen : (spec_title (n + 1)).length ≤ 11 := by
    unfold spec_title
    rw [repr_digits (n + 1) (by omega)]
    split_ifs <;> simp
  rw [save_key_key_index, readByte_save_key_name_field false s j (by omega), save_key_buffer, hn]
  simp only [Bool.false_eq_true, if_false]
  have e : ((n : Int) + 1) = ((n + 1 : Nat) : Int) := by push_cast; rfl
  rw [e]
  exact save_key_title_spec s.buffer (n + 1) (by omega) j hj

/-- Witness for C14: the store with counter 2, where the generated title is
"New key 3"; its digit is cell 8 of the name field. -/
theorem save_key_generated_title_witness :
    readInt sampleState.eeprom 0 = (2 : Nat) ∧
    readByte (save_key false sampleState).eeprom
        (KEY_TABLE_OFFSET + (save_key false sampleState).global_key.key_index * KEY_SIZE
          + KEY_NAME_OFFSET + (8 : Nat))
      = (spec_title (2 + 1)).getD 8 0 :=
  ⟨by decide, save_key_generated_title sampleState 2 (by decide) (by decide) 8 (by decide)⟩

/-- C14, counterexample. With 99 keys stored the new total count is 100,
whose decimal representation starts with the digit 1 (code 49); `save_key`
writes the character with code 58 (a colon) followed by the digit 0 and the
terminator: the title formats two digits at most. -/
theorem save_key_title_three_digits :
    readInt state99.eeprom 0 = 99 ∧
    (save_key false state99).global_key.key_index = 99 ∧
    readByte (save_key false state99).eeprom (2 + 99 * 41 + 1 + 8) = 58 ∧
    readByte (save_key false state99).eeprom (2 + 99 * 41 + 1 + 9) = 48 ∧
    readByte (save_key false state99).eeprom (2 + 99 * 41 + 1 + 10) = 0 ∧
    (spec_title (99 + 1)).getD 8 0 = 49 ∧
    (spec_title (99 + 1)).getD 9 0 = 48 ∧
    (spec_title (99 + 1)).getD 10 0 = 48 := by
  have hc : readInt state99.eeprom 0 = 99 := by decide
  have hlive : ∀ j : Int, 0 ≤ j → ¬ tombstoned state99.eeprom j := by
    intro j hj
    rw [tombstoned_iff, slotType_def]
    have : readByte state99.eeprom (2 + j * 41) = 0 := by
      unfold readByte
      simp only [state99, store99]
      rw [if_neg (by omega)]
    omega
  have hslot : save_key_slot state99.eeprom = 99 :=
    save_key_slot_eq state99.eeprom 99 (by decide) (by rw [hc])
      (fun j h0 _ => hlive j h0) (fun h => absurd h (by rw [hc]; decide))
  have hname := readByte_save_key_name_field false state99
  rw [hslot] at hname
  have hbuf : (save_key false state99).buffer = save_key_title state99.buffer 100 := by
    rw [save_key_buffer, hc]; rfl
  rw [hbuf] at hname
  refine ⟨hc, ?_, ?_, ?_, ?_, by rfl, by rfl, by rfl⟩
  · rw [save_key_key_index, hslot]
  · have := hname 8 (by decide)
    simp only [KEY_TABLE_OFFSET, KEY_SIZE, KEY_NAME_OFFSET] at this
    rw [show (2 : Int) + 99 * 41 + 1 + 8 = 2 + 99 * 41 + 1 + ((8 : Nat) : Int) by rfl, this]
    decide
  · have := hname 9 (by decide)
    simp only [KEY_TABLE_OFFSET, KEY_SIZE, KEY_NAME_OFFSET] at this
    rw [show (2 : Int) + 99 * 41 + 1 + 9 = 2 + 99 * 41 + 1 + ((9 : Nat) : Int) by rfl, this]
    decide
  · have := hname 10 (by decide)
    simp only [KEY_TABLE_OFFSET, KEY_SIZE, KEY_NAME_OFFSET] at this
    rw [show (2 : Int) + 99 * 41 + 1 + 10 = 2 + 99 * 41 + 1 + ((10 : Nat) : Int) by rfl, this]
    decide

/-! ## Three-way merge -/

/-- C18, as amended. Three-way merge on delete: when the index resolves to
slot `p`, the last index `counter - 1` resolves to another slot, the slot
`p - 1` ends a free-run of length `n1` (marker `0x80 | n1`, the run inside
the table) and the slot `p + 1` heads a free-run of length `n2` (marker
`0x80 | n2`), `n1 + n2 + 1 ≤ 127`, then after `delete_key` the slots
`p - n1` and `p + n2` both hold the marker `0x80 | (n1 + n2 + 1)`, slot `p`
is tombstoned, and the counter is decremented by exactly one. -/
theorem delete_key_three_way_merge (m : Memory) (index p c : Int) (n1 n2 : Nat)
    (hc : readInt m 0 = c) (hc0 : -32768 < c)
    (hp : get_key_slot m index = p) (hlast : get_key_slot m (c - 1) ≠ p)
    (hprev : slotType m (p - 1) = 128 + n1) (hnext : slotType m (p + 1) = 128 + n2)
    (h1 : 1 ≤ n1) (h2 : 1 ≤ n2) (hin : (n1 : Int) ≤ p) (hsum : n1 + n2 + 1 ≤ 127) :
    slotType (delete_key index m) (p - n1) = 128 + (n1 + n2 + 1) ∧
    slotType (delete_key index m) (p + n2) = 128 + (n1 + n2 + 1) ∧
    tombstoned (delete_key index m) p ∧
    readInt (delete_key index m) 0 = c - 1 := by
  have ht1 : tombstoned m (p - 1) := by rw [tombstoned_iff, hprev]; omega
  have ht2 : tombstoned m (p + 1) := by rw [tombstoned_iff, hnext]; omega
  have hr1 : runLength m (p - 1) = n1 := by rw [runLength_eq, hprev]; omega
  have hr2 : runLength m (p + 1) = n2 := by rw [runLength_eq, hnext]; omega
  have hcond : (get_key_slot m index ≠ get_key_slot m (readInt m 0 - 1) ∧
      tombstoned m (get_key_slot m index + 1)) ∧
      (get_key_slot m index ≠ 0 ∧ tombstoned m (get_key_slot m index - 1)) := by
    rw [hp, hc]
    exact ⟨⟨fun h => hlast h.symm, ht2⟩, ⟨by omega, ht1⟩⟩
  have hv : ((n1 + n2 + 1) ||| 128) % 256 = 128 + (n1 + n2 + 1) := by
    rw [or128_mod _ (by omega)]; omega
  have key : ∀ j : Int, slotType (delete_key index m) j =
      if j = p + n2 ∨ j = p - n1 then 128 + (n1 + n2 + 1)
      else if j = p then 129 else slotType m j := by
    intro j
    rw [slotType_delete_key, if_pos hcond]
    simp only [hp, hr1, hr2, hv]
  refine ⟨?_, ?_, ?_, ?_⟩
  · rw [key, if_pos (Or.inr rfl)]
  · rw [key, if_pos (Or.inl rfl)]
  · rw [tombstoned_iff, key, if_neg (by omega), if_pos rfl]
    omega
  · rw [readInt_delete_key index m (by omega), hc]

set_option maxRecDepth 100000 in
/-- Witness for C18: slot 0 and slot 2 free-runs of length 1, slots 1 and 3
live, counter 2; deleting index 0 (slot 1) leaves the marker 0x83 at slots 0
and 2. -/
theorem delete_key_three_way_merge_witness :
    get_key_slot mergeStore 0 = 1 ∧ get_key_slot mergeStore (2 - 1) ≠ 1 ∧
    slotType (delete_key 0 mergeStore) (1 - (1 : Nat)) = 128 + (1 + 1 + 1) ∧
    slotType (delete_key 0 mergeStore) (1 + (1 : Nat)) = 128 + (1 + 1 + 1) ∧
    tombstoned (delete_key 0 mergeStore) 1 ∧
    readInt (delete_key 0 mergeStore) 0 = 2 - 1 :=
  ⟨by decide, by decide,
    delete_key_three_way_merge mergeStore 0 1 2 1 1 (by decide) (by decide) (by decide)
      (by decide) (by decide) (by decide) (by decide) (by decide) (by decide) (by decide)⟩

set_option maxRecDepth 100000 in
/-- C18, counterexample. After inserting A, B, C and deleting index 2 and
index 0 the counter is 1, slot 1 is live with a free-run of length 1 on
either side, and index 0 resolves to slot 1.  `delete_key(0)` then compares
the slot with that of the last index, which is the same, and does not look
at the slot after it: slot 0 and slot 1 receive 0x82, slot 2 keeps 0x81, and
no slot holds 0x83. -/
theorem delete_key_last_key_no_merge :
    InRange [insertA, insertB, insertC, Op.delete 2, Op.delete 0, Op.delete 0] emptyState ∧
    readInt (runOps [insertA, insertB, insertC, Op.delete 2, Op.delete 0] emptyState).eeprom 0
      = 1 ∧
    get_key_slot (runOps [insertA, insertB, insertC, Op.delete 2, Op.delete 0] emptyState).eeprom
      0 = 1 ∧
    slotType (runOps [insertA, insertB, insertC, Op.delete 2, Op.delete 0] emptyState).eeprom 0
      = 0x81 ∧
    slotType (runOps [insertA, insertB, insertC, Op.delete 2, Op.delete 0] emptyState).eeprom 1
      = 0 ∧
    slotType (runOps [insertA, insertB, insertC, Op.delete 2, Op.delete 0] emptyState).eeprom 2
      = 0x81 ∧
    slotType (delete_key 0
      (runOps [insertA, insertB, insertC, Op.delete 2, Op.delete 0] emptyState).eeprom) 0
      = 0x82 ∧
    slotType (delete_key 0
      (runOps [insertA, insertB, insertC, Op.delete 2, Op.delete 0] emptyState).eeprom) 1
      = 0x82 ∧
    slotType (delete_key 0
      (runOps [insertA, insertB, insertC, Op.delete 2, Op.delete 0] emptyState).eeprom) 2
      = 0x81 := by
  refine ⟨?_, ?_, ?_, ?_, ?_, ?_, ?_, ?_, ?_⟩
  · simp only [InRange, insertA, insertB, insertC, Op.insert]
    decide
  all_goals decide

/-! ## Frame of `save_key` -/

theorem liveSlots_le (m : Memory) (N : Nat) : liveSlots m N ≤ N := by
  induction N with
  | zero => exact Nat.le_refl 0
  | succ n ih =>
    unfold liveSlots
    split_ifs <;> omega

theorem liveSlots_mono (m : Memory) (n N : Nat) (h : n ≤ N) : liveSlots m n ≤ liveSlots m N := by
  induction N with
  | zero =>
    have : n = 0 := by omega
    rw [this]
  | succ k ih =>
    by_cases hk : n = k + 1
    · rw [hk]
    · have := ih (by omega)
      have e : liveSlots m (k + 1)
          = liveSlots m k + (if tombstoned m (k : Int) then 0 else 1) := rfl
      omega

theorem liveSlots_all_live (m : Memory) (k : Nat)
    (h : ∀ j : Int, 0 ≤ j → j < k → ¬ tombstoned m j) : liveSlots m k = k := by
  induction k with
  | zero => rfl
  | succ n ih =>
    have e : liveSlots m (n + 1)
        = liveSlots m n + (if tombstoned m (n : Int) then 0 else 1) := rfl
    rw [e, ih (fun j h0 h1 => h j h0 (by push_cast; omega)),
      if_neg (h n (by omega) (by push_cast; omega))]

/-- The span of tombstoned slots that starts at a tombstoned slot `i` of a
table of `N` slots has an end. -/
theorem span_end_in (m : Memory) (N i : Int) (n : Nat) (b : Int) (hib : i ≤ b)
    (hn : b + n + 1 = N) (hall : ∀ j : Int, i ≤ j → j ≤ b → tombstoned m j) :
    ∃ e : Int, i ≤ e ∧ e < N ∧ (∀ j : Int, i ≤ j → j ≤ e → tombstoned m j) ∧
      (e + 1 = N ∨ ¬ tombstoned m (e + 1)) := by
  induction n generalizing b with
  | zero => exact ⟨b, hib, by omega, hall, Or.inl (by omega)⟩
  | succ k ih =>
    by_cases ht : tombstoned m (b + 1)
    · apply ih (b + 1) (by omega) (by push_cast at hn; omega)
      intro j h1 h2
      by_cases hj : j = b + 1
      · rw [hj]; exact ht
      · exact hall j h1 (by omega)
    · exact ⟨b, hib, by push_cast at hn; omega, hall, Or.inr ht⟩

/-- The slot `save_key` chooses in a well-formed store of `N` slots is a
tombstoned slot of the table, or the slot `N` just after it; when it
rewrites markers, both are in tombstoned slots of the table. -/
theorem save_key_slot_wellFormed (m : Memory) (N : Nat) (hwf : WellFormed m N) :
    0 ≤ save_key_slot m ∧ save_key_slot m ≤ N ∧
    (save_key_slot m < N → tombstoned m (save_key_slot m)) ∧
    (∀ j : Int, 0 ≤ j → j < save_key_slot m → ¬ tombstoned m j) ∧
    ((save_key_slot m ≠ readInt m 0 ∧ runLength m (save_key_slot m) ≠ 1) →
      (save_key_slot m + 1 < N ∧ tombstoned m (save_key_slot m + 1)) ∧
      (0 ≤ save_key_slot m + runLength m (save_key_slot m) - 1 ∧
        save_key_slot m + runLength m (save_key_slot m) - 1 < N ∧
        tombstoned m (save_key_slot m + runLength m (save_key_slot m) - 1))) := by
  obtain ⟨hcount, hspans⟩ := hwf
  obtain ⟨h0, hlive, hle, -, htomb⟩ := save_key_slot_spec m
  have hcN := liveSlots_le m N
  have hle' := hle (by omega)
  generalize save_key_slot m = i at *
  have hlive' : ∀ j : Int, 0 ≤ j → j < i → ¬ tombstoned m j := fun j a b => (hlive j a b).2
  have hiN : i < N → tombstoned m i := by
    intro hi
    by_cases hic : i < readInt m 0
    · exact htomb hic
    · by_contra hnt
      obtain ⟨k, rfl⟩ := Int.eq_ofNat_of_zero_le h0
      have e1 : liveSlots m (k + 1) = k + 1 := by
        apply liveSlots_all_live
        intro j hj0 hj1
        by_cases hjk : j = k
        · rw [hjk]; exact hnt
        · exact hlive' j hj0 (by push_cast at hj1; omega)
      have e2 := liveSlots_mono m (k + 1) N (by omega)
      omega
  refine ⟨h0, by omega, hiN, hlive', ?_⟩
  rintro ⟨hne, hrun⟩
  have hic : i < readInt m 0 := by omega
  have hti := htomb hic
  obtain ⟨n, hn⟩ : ∃ n : Nat, i + n + 1 = N := ⟨((N : Int) - i - 1).toNat, by omega⟩
  obtain ⟨e, hie, heN, hall, hend⟩ := span_end_in m N i n i (le_refl i) hn
    (fun j h1 h2 => by
      have : j = i := by omega
      rw [this]; exact hti)
  have hspan : IsSpanIn m N i e := by
    refine ⟨h0, hie, heN, hall, ?_, hend⟩
    by_cases hi0 : i = 0
    · exact Or.inl hi0
    · exact Or.inr (hlive' (i - 1) (by omega) (by omega))
  obtain ⟨hm1, -, hm3⟩ := hspans i e hspan
  have hr : (runLength m i : Int) = e - i + 1 := by
    rw [runLength_eq]
    omega
  have hei : i + 1 ≤ e := by
    by_contra hcon
    apply hrun
    omega
  refine ⟨⟨by omega, hall (i + 1) (by omega) hei⟩, by omega, by omega, ?_⟩
  have e3 : i + (runLength m i : Int) - 1 = e := by omega
  rw [e3]
  exact hall e hie (le_refl e)

/-- C19. Insert never overwrites a live record: in a well-formed store of
`N` allocated slots (the counter equals the number of live slots, every
maximal tombstoned run carries 0x80 | length at its first and last slot),
the slot `save_key` chooses is a tombstoned slot of the table or the
unallocated slot `N`; each of the 41 bytes of every slot that was live
before the call reads the same after it; and a byte that reads differently
after the call is a counter byte, a byte of the chosen slot, or the marker
byte of a slot that was tombstoned. -/
theorem save_key_keeps_live_records (original_title : Bool) (s : KeyState) (N : Nat)
    (hwf : WellFormed s.eeprom N) :
    0 ≤ (save_key original_title s).global_key.key_index ∧
    (save_key original_title s).global_key.key_index ≤ N ∧
    ((save_key original_title s).global_key.key_index < N →
      tombstoned s.eeprom (save_key original_title s).global_key.key_index) ∧
    (∀ j : Int, 0 ≤ j → j < N → ¬ tombstoned s.eeprom j → ∀ k : Int, 0 ≤ k → k < KEY_SIZE →
      readByte (save_key original_title s).eeprom (KEY_TABLE_OFFSET + j * KEY_SIZE + k)
        = readByte s.eeprom (KEY_TABLE_OFFSET + j * KEY_SIZE + k)) ∧
    (∀ a : Int, readByte (save_key original_title s).eeprom a ≠ readByte s.eeprom a →
      a = 0 ∨ a = 1 ∨
      (KEY_TABLE_OFFSET + (save_key original_title s).global_key.key_index * KEY_SIZE ≤ a ∧
        a < KEY_TABLE_OFFSET + (save_key original_title s).global_key.key_index * KEY_SIZE
          + KEY_SIZE) ∨
      ∃ j : Int, 0 ≤ j ∧ j < N ∧ tombstoned s.eeprom j ∧
        a = KEY_TABLE_OFFSET + j * KEY_SIZE + KEY_TYPE_OFFSET) := by
  obtain ⟨h0, hN, htomb, -, hmark⟩ := save_key_slot_wellFormed s.eeprom N hwf
  rw [save_key_key_index]
  have hchg : ∀ a : Int, readByte (save_key original_title s).eeprom a ≠ readByte s.eeprom a →
      a = 0 ∨ a = 1 ∨
      (2 + save_key_slot s.eeprom * 41 ≤ a ∧ a < 2 + save_key_slot s.eeprom * 41 + 41) ∨
      ∃ j : Int, 0 ≤ j ∧ j < N ∧ tombstoned s.eeprom j ∧ a = 2 + j * 41 := by
    intro a hne
    by_contra hcon
    simp only [not_or, not_and, not_exists, not_lt] at hcon
    obtain ⟨ha0, ha1, hslot, hno⟩ := hcon
    have hfr := readByte_save_key_frame original_title s a ha0 ha1 (by
      by_cases h : 2 + save_key_slot s.eeprom * 41 ≤ a
      · exact Or.inr (hslot h)
      · exact Or.inl (by omega))
    apply hne
    rw [hfr]
    apply readByte_save_key_shrink
    intro hcond
    obtain ⟨⟨hN1, ht1⟩, hb0, hbN, htb⟩ := hmark hcond
    constructor
    · intro ha
      exact absurd ha (hno (save_key_slot s.eeprom + 1) (by omega) hN1 ht1)
    · intro ha
      exact absurd ha (hno _ hb0 hbN htb)
  refine ⟨h0, hN, htomb, ?_, ?_⟩
  · intro j hj0 hjN hlive k hk0 hk1
    by_contra hne
    simp only [KEY_TABLE_OFFSET, KEY_SIZE] at hne hk1
    rcases hchg _ hne with h | h | h | ⟨j', hj'0, hj'N, hj't, hj'⟩
    · omega
    · omega
    · have : j = save_key_slot s.eeprom := by omega
      rw [this] at hlive hjN
      exact hlive (htomb hjN)
    · have : j = j' := by omega
      rw [this] at hlive
      exact hlive hj't
  · intro a hne
    simp only [KEY_TABLE_OFFSET, KEY_SIZE, KEY_TYPE_OFFSET, add_zero]
    exact hchg a hne

theorem sampleStore_wellFormed : WellFormed sampleStore 4 := by
  refine ⟨by decide, ?_⟩
  rintro a b ⟨ha, hab, hb, hall, hstart, hend⟩
  have hta := hall a (le_refl a) hab
  have htb := hall b hab (le_refl b)
  have h4 : (((4 : Nat) : Int)) = 4 := rfl
  rw [h4] at hb hend
  have ha' : a = 0 ∨ a = 1 ∨ a = 2 ∨ a = 3 := by omega
  have hb' : b = 0 ∨ b = 1 ∨ b = 2 ∨ b = 3 := by omega
  rcases ha' with rfl | rfl | rfl | rfl <;> rcases hb' with rfl | rfl | rfl | rfl <;>
    first
    | omega
    | exact absurd hta (by decide)
    | exact absurd htb (by decide)
    | (rcases hstart with h | h
       · exact absurd h (by decide)
       · exact absurd (show tombstoned sampleStore (2 - 1) by decide) h)
    | (rcases hend with h | h
       · exact absurd h (by decide)
       · exact absurd (show tombstoned sampleStore (1 + 1) by decide) h)
    | (unfold Marked; decide)

/-- Witness for C19: the store with counter 2 and 4 allocated slots, slot 0
and slot 3 live; the type byte of slot 3 is not changed by `save_key`. -/
theorem save_key_keeps_live_records_witness :
    WellFormed sampleState.eeprom 4 ∧
    readByte (save_key false sampleState).eeprom (KEY_TABLE_OFFSET + 3 * KEY_SIZE + 0)
      = readByte sampleState.eeprom (KEY_TABLE_OFFSET + 3 * KEY_SIZE + 0) :=
  ⟨sampleStore_wellFormed,
    (save_key_keeps_live_records false sampleState 4 sampleStore_wellFormed).2.2.2.1 3
      (by decide) (by decide) (by decide) 0 (by decide) (by decide)⟩

/-! ## Navigation -/

/-- C12. Postcondition of middle on a key-list screen, called with the
offset of the current screen: on a static child whose target is
`NULL_SCREEN` nothing changes; on a static child with another target,
`cur_screen` becomes the target, `prev_screen` the key-list's offset and
`cur_child` 0; on a stored-key row (`cur_child` at least the static child
count) `global_key` becomes `get_key_by_index(cur_child - count)`, whose
`key_index` is that logical index, `cur_screen` becomes the record's
selection target (`KEY_MENU` for the root, which has 2 static children),
`prev_screen` the key-list's offset and `cur_child` 0. -/
theorem key_list_middle_postcondition (img : Image) (render : Render) (offset : Int) (s : Nav)
    (hoff : s.cur_screen = offset) :
    (s.cur_child < toByte (pgm_read_word img (offset + KEY_LIST_N_OFFSET)) →
      pgm_read_word img (offset + KEY_LIST_STRINGS_OFFSET
          + toByte (pgm_read_word img (offset + KEY_LIST_N_OFFSET)) + s.cur_child) = NULL_SCREEN →
      key_list_middle_button_pressed img render offset s = s) ∧
    (s.cur_child < toByte (pgm_read_word img (offset + KEY_LIST_N_OFFSET)) →
      pgm_read_word img (offset + KEY_LIST_STRINGS_OFFSET
          + toByte (pgm_read_word img (offset + KEY_LIST_N_OFFSET)) + s.cur_child) ≠ NULL_SCREEN →
      (key_list_middle_button_pressed img render offset s).cur_screen
          = pgm_read_word img (offset + KEY_LIST_STRINGS_OFFSET
              + toByte (pgm_read_word img (offset + KEY_LIST_N_OFFSET)) + s.cur_child) ∧
        (key_list_middle_button_pressed img render offset s).prev_screen = offset ∧
        (key_list_middle_button_pressed img render offset s).cur_child = 0) ∧
    ((toByte (pgm_read_word img (offset + KEY_LIST_N_OFFSET)) : Int) ≤ s.cur_child →
      (key_list_middle_button_pressed img render offset s).keys.global_key
          = get_key_by_index s.keys.eeprom
              (s.cur_child - toByte (pgm_read_word img (offset + KEY_LIST_N_OFFSET))) ∧
        (key_list_middle_button_pressed img render offset s).keys.global_key.key_index
          = s.cur_child - toByte (pgm_read_word img (offset + KEY_LIST_N_OFFSET)) ∧
        (key_list_middle_button_pressed img render offset s).cur_screen
          = pgm_read_word img (offset + KEY_LIST_MAIN_OFFSET) ∧
        (key_list_middle_button_pressed img render offset s).prev_screen = offset ∧
        (key_list_middle_button_pressed img render offset s).cur_child = 0) ∧
    pgm_read_word img (MAIN_MENU + KEY_LIST_MAIN_OFFSET) = KEY_MENU ∧
    toByte (pgm_read_word img (MAIN_MENU + KEY_LIST_N_OFFSET)) = 2 := by
  refine ⟨?_, ?_, ?_, rfl, rfl⟩
  · intro h1 h2
    unfold key_list_middle_button_pressed
    simp only [if_pos h1, h2, ne_eq, not_true_eq_false, if_false]
  · intro h1 h2
    unfold key_list_middle_button_pressed
    simp only [if_pos h1]
    rw [if_pos h2]
    exact ⟨rfl, hoff, rfl⟩
  · intro h1
    unfold key_list_middle_button_pressed
    simp only [if_neg (not_lt.mpr h1)]
    exact ⟨rfl, rfl, rfl, hoff, rfl⟩

/-- Witness for C12: the root key-list with three stored keys, cursor on
row 3, the stored key of logical index 1. -/
theorem key_list_middle_postcondition_witness :
    (rootNav 3).cur_screen = MAIN_MENU ∧
    (key_list_middle_button_pressed sampleImage sampleRender MAIN_MENU
        (rootNav 3)).keys.global_key.key_index = 1 ∧
    (key_list_middle_button_pressed sampleImage sampleRender MAIN_MENU (rootNav 3)).cur_screen
      = KEY_MENU ∧
    (key_list_middle_button_pressed sampleImage sampleRender MAIN_MENU (rootNav 3)).prev_screen
      = MAIN_MENU ∧
    (key_list_middle_button_pressed sampleImage sampleRender MAIN_MENU (rootNav 3)).cur_child
      = 0 := by
  have h := (key_list_middle_postcondition sampleImage sampleRender MAIN_MENU (rootNav 3)
    rfl).2.2.1 (by decide)
  exact ⟨rfl, h.2.1, h.2.2.1, h.2.2.2.1, h.2.2.2.2⟩

/-- C13. Back-to-root rule of the read-successful menu: whatever
`prev_screen` was on entry, the navigation step of
`read_screen_menu_middle_button_pressed` leaves `cur_screen` equal to the
target of the selected child (save: `MAIN_MENU`, emulate: `EMULATE_SCREEN`,
copy: `COPY_SCREEN`, cancel: `MAIN_MENU`), `cur_child` equal to 0 and
`prev_screen` equal to `MAIN_MENU`, which is neither `READ_SCREEN` nor
`READ_SUCCESSFUL_MENU`; for save and cancel the handler ends with that
step. -/
theorem read_menu_back_to_root (crc8 : List Nat → Nat) (img : Image) (render : Render)
    (fuel : Nat) (env : Env) (s : Nav) :
    (read_screen_menu_navigate img render READ_SUCCESSFUL_MENU s).prev_screen = MAIN_MENU ∧
    (read_screen_menu_navigate img render READ_SUCCESSFUL_MENU s).prev_screen ≠ READ_SCREEN ∧
    (read_screen_menu_navigate img render READ_SUCCESSFUL_MENU s).prev_screen
      ≠ READ_SUCCESSFUL_MENU ∧
    (read_screen_menu_navigate img render READ_SUCCESSFUL_MENU s).cur_child = 0 ∧
    (s.cur_child = 0 →
      (read_screen_menu_navigate img render READ_SUCCESSFUL_MENU s).cur_screen = MAIN_MENU) ∧
    (s.cur_child = 1 →
      (read_screen_menu_navigate img render READ_SUCCESSFUL_MENU s).cur_screen
        = EMULATE_SCREEN) ∧
    (s.cur_child = 2 →
      (read_screen_menu_navigate img render READ_SUCCESSFUL_MENU s).cur_screen = COPY_SCREEN) ∧
    (s.cur_child = 3 →
      (read_screen_menu_navigate img render READ_SUCCESSFUL_MENU s).cur_screen = MAIN_MENU) ∧
    (s.cur_child = 0 ∨ s.cur_child = 3 →
      read_screen_menu_middle_button_pressed crc8 img render fuel READ_SUCCESSFUL_MENU env s
        = some (read_screen_menu_navigate img render READ_SUCCESSFUL_MENU s, env)) := by
  have hn : (toByte (pgm_read_word img (READ_SUCCESSFUL_MENU + LIST_SCREEN_N_OFFSET)) : Int)
      = 4 := rfl
  have hcs : (read_screen_menu_navigate img render READ_SUCCESSFUL_MENU s).cur_screen
      = pgm_read_word img (READ_SUCCESSFUL_MENU + LIST_SCREEN_STRINGS_OFFSET + 4 + s.cur_child) := by
    unfold read_screen_menu_navigate
    simp only [hn]
    rfl
  refine ⟨rfl, ?_, ?_, rfl, ?_, ?_, ?_, ?_, ?_⟩
  · show MAIN_MENU ≠ READ_SCREEN
    decide
  · show MAIN_MENU ≠ READ_SUCCESSFUL_MENU
    decide
  · intro h; rw [hcs, h]; rfl
  · intro h; rw [hcs, h]; rfl
  · intro h; rw [hcs, h]; rfl
  · intro h; rw [hcs, h]; rfl
  · intro h
    unfold read_screen_menu_middle_button_pressed
    simp only [hn]
    have ht : pgm_read_word img (READ_SUCCESSFUL_MENU + LIST_SCREEN_STRINGS_OFFSET + 4
        + s.cur_child) = MAIN_MENU := by
      rcases h with h | h <;> rw [h] <;> rfl
    rw [ht]
    simp

/-- Witness for C13: the menu entered from the read screen, "copy"
selected. -/
theorem read_menu_back_to_root_witness :
    (readMenuNav 2).prev_screen = READ_SCREEN ∧
    (read_screen_menu_navigate sampleImage sampleRender READ_SUCCESSFUL_MENU
      (readMenuNav 2)).cur_screen = COPY_SCREEN ∧
    (read_screen_menu_navigate sampleImage sampleRender READ_SUCCESSFUL_MENU
      (readMenuNav 2)).prev_screen = MAIN_MENU :=
  ⟨rfl,
    (read_menu_back_to_root dallas_crc8 sampleImage sampleRender 0 (quietEnv ⟨[], [], []⟩)
      (readMenuNav 2)).2.2.2.2.2.2.1 rfl,
    (read_menu_back_to_root dallas_crc8 sampleImage sampleRender 0 (quietEnv ⟨[], [], []⟩)
      (readMenuNav 2)).1⟩

/-! ## Cursor of the root key-list -/

set_option maxRecDepth 100000 in
/-- The sentinel test of the cursor handlers on the root key-list, for a
new index `j` whose lookup stays inside the table: the word read is
`NULL_SCREEN` exactly for `j = 1`. -/
theorem sentinel_lookup (img : Image) (himg : PointerFree img) (j : Int) (h0 : 0 ≤ j)
    (h1 : j < 50) :
    pgm_read_word img (MAIN_MENU + KEY_LIST_STRINGS_OFFSET + 2 + j) = NULL_SCREEN ↔ j = 1 := by
  obtain ⟨hf, hs⟩ := himg
  obtain ⟨n, rfl⟩ := Int.eq_ofNat_of_zero_le h0
  have hn : n < 50 := by omega
  interval_cases n <;>
    simp [pgm_read_word, screens, Cell.value, hf, hs, MAIN_MENU, KEY_LIST_STRINGS_OFFSET,
      NULL_SCREEN, READ_SCREEN, EMULATE_SCREEN, COPY_SCREEN, KEY_MENU]

theorem tmod_wrap (x M : Int) (h0 : 0 ≤ x) (hM : 0 < M) (h : x < 2 * M) :
    Int.tmod x M = if x < M then x else x - M := by
  rw [Int.tmod_eq_emod h0 (by omega)]
  split_ifs with hx
  · exact Int.emod_eq_of_lt h0 hx
  · have e : x = (x - M) + M := by ring
    rw [e, Int.add_emod_self, Int.emod_eq_of_lt (by omega) (by omega)]
    ring

theorem emod_wrap (x M : Int) (h0 : -M ≤ x) (h : x < M) :
    x % M = if x < 0 then x + M else x := by
  split_ifs with hx
  · rw [← Int.add_emod_self, Int.emod_eq_of_lt (by omega) (by omega)]
  · exact Int.emod_eq_of_lt (by omega) h

theorem toByte_natCast (k : Nat) (hk : k < 256) : toByte (k : Int) = k := by
  unfold toByte; omega

/-- The new `cur_child` of `key_list_top_button_pressed` on the root
key-list with `k` stored keys. -/
theorem key_list_top_cur_child (img : Image) (render : Render) (s : Nav) (k : Nat)
    (hk : k < 256) (hcount : readInt s.keys.eeprom 0 = k) :
    (key_list_top_button_pressed img render MAIN_MENU s).cur_child =
      if pgm_read_word img (MAIN_MENU + KEY_LIST_STRINGS_OFFSET + 2
          + Int.tmod (s.cur_child + 2 + k - 1) (2 + k)) = NULL_SCREEN then
        Int.tmod (Int.tmod (s.cur_child + 2 + k - 1) (2 + k) + 2 + k - 1) (2 + k)
      else Int.tmod (s.cur_child + 2 + k - 1) (2 + k) := by
  have hnc : toByte (pgm_read_word img (MAIN_MENU + KEY_LIST_N_OFFSET)) = 2 := rfl
  unfold key_list_top_button_pressed
  simp only [hnc, hcount, toByte_natCast k hk]
  rfl

/-- The new `cur_child` of `key_list_bottom_button_pressed` on the root
key-list with `k` stored keys. -/
theorem key_list_bottom_cur_child (img : Image) (render : Render) (s : Nav) (k : Nat)
    (hk : k < 256) (hcount : readInt s.keys.eeprom 0 = k) :
    (key_list_bottom_button_pressed img render MAIN_MENU s).cur_child =
      if pgm_read_word img (MAIN_MENU + KEY_LIST_STRINGS_OFFSET + 2
          + Int.tmod (s.cur_child + 1) (2 + k)) = NULL_SCREEN then
        Int.tmod (Int.tmod (s.cur_child + 1) (2 + k) + 1) (2 + k)
      else Int.tmod (s.cur_child + 1) (2 + k) := by
  have hnc : toByte (pgm_read_word img (MAIN_MENU + KEY_LIST_N_OFFSET)) = 2 := rfl
  unfold key_list_bottom_button_pressed
  simp only [hnc, hcount, toByte_natCast k hk]
  rfl

/-- C11. Cursor cycling on the root key-list (2 static children, child 1
disabled by `NULL_SCREEN`), for an image in which no function or text lies
at the address 52: with `k ≤ 48` stored keys, so that the table lookups of
the handlers stay inside `screens`, and a start index in `[0, 2 + k)`,
`key_list_top_button_pressed` moves `cur_child` to the previous index modulo
`2 + k`, or to the one before when that is the disabled index 1, and
`key_list_bottom_button_pressed` to the next index modulo `2 + k`, or to the
one after when that is 1; the new index lies in `[0, 2 + k)` and is never 1.
With 3 stored keys top from index 0 gives 4 and bottom from index 4
gives 0. -/
theorem key_list_cursor_cycle (img : Image) (render : Render) (s : Nav) (k : Nat)
    (himg : PointerFree img) (hk : k ≤ 48) (hcount : readInt s.keys.eeprom 0 = k)
    (hc0 : 0 ≤ s.cur_child) (hc1 : s.cur_child < 2 + k) :
    ((s.cur_child - 1) % (2 + k) ≠ 1 →
      (key_list_top_button_pressed img render MAIN_MENU s).cur_child
        = (s.cur_child - 1) % (2 + k)) ∧
    ((s.cur_child - 1) % (2 + k) = 1 →
      (key_list_top_button_pressed img render MAIN_MENU s).cur_child
        = (s.cur_child - 2) % (2 + k)) ∧
    (key_list_top_button_pressed img render MAIN_MENU s).cur_child ≠ 1 ∧
    0 ≤ (key_list_top_button_pressed img render MAIN_MENU s).cur_child ∧
    (key_list_top_button_pressed img render MAIN_MENU s).cur_child < 2 + k ∧
    ((s.cur_child + 1) % (2 + k) ≠ 1 →
      (key_list_bottom_button_pressed img render MAIN_MENU s).cur_child
        = (s.cur_child + 1) % (2 + k)) ∧
    ((s.cur_child + 1) % (2 + k) = 1 →
      (key_list_bottom_button_pressed img render MAIN_MENU s).cur_child
        = (s.cur_child + 2) % (2 + k)) ∧
    (key_list_bottom_button_pressed img render MAIN_MENU s).cur_child ≠ 1 ∧
    0 ≤ (key_list_bottom_button_pressed img render MAIN_MENU s).cur_child ∧
    (key_list_bottom_button_pressed img render MAIN_MENU s).cur_child < 2 + k ∧
    (k = 3 → s.cur_child = 0 →
      (key_list_top_button_pressed img render MAIN_MENU s).cur_child = 4) ∧
    (k = 3 → s.cur_child = 4 →
      (key_list_bottom_button_pressed img render MAIN_MENU s).cur_child = 0) := by
  have ht := key_list_top_cur_child img render s k (by omega) hcount
  have hb := key_list_bottom_cur_child img render s k (by omega) hcount
  generalize (key_list_top_button_pressed img render MAIN_MENU s).cur_child = t at ht ⊢
  generalize (key_list_bottom_button_pressed img render MAIN_MENU s).cur_child = b at hb ⊢
  generalize s.cur_child = c at *
  -- the first step of each handler
  have f1 : Int.tmod (c + 2 + k - 1) (2 + k) = if c = 0 then (k : Int) + 1 else c - 1 := by
    rw [tmod_wrap _ _ (by omega) (by omega) (by omega)]
    split_ifs <;> omega
  have g1 : Int.tmod (c + 1) (2 + k) = if c = k + 1 then 0 else c + 1 := by
    rw [tmod_wrap _ _ (by omega) (by omega) (by omega)]
    split_ifs <;> omega
  -- the second step, taken from index 1
  have f2 : Int.tmod ((1 : Int) + 2 + k - 1) (2 + k) = 0 := by
    rw [tmod_wrap _ _ (by omega) (by omega) (by omega)]
    split_ifs <;> omega
  have g2 : Int.tmod ((1 : Int) + 1) (2 + k) = if k = 0 then 0 else 2 := by
    rw [tmod_wrap _ _ (by omega) (by omega) (by omega)]
    split_ifs <;> omega
  -- the specification side
  have e1 : (c - 1) % (2 + k) = if c = 0 then (k : Int) + 1 else c - 1 := by
    rw [emod_wrap _ _ (by omega) (by omega)]
    split_ifs <;> omega
  have e2 : (c - 2) % (2 + k) = if c < 2 then c + k else c - 2 := by
    rw [emod_wrap _ _ (by omega) (by omega)]
    split_ifs <;> omega
  have e3 : (c + 1) % (2 + k) = if c = k + 1 then 0 else c + 1 := by
    have := tmod_wrap (c + 1) (2 + k) (by omega) (by omega) (by omega)
    rw [Int.tmod_eq_emod (by omega) (by omega)] at this
    rw [this]
    split_ifs <;> omega
  have e4 : (c + 2) % (2 + k) = if c < k then c + 2 else c - k := by
    have := tmod_wrap (c + 2) (2 + k) (by omega) (by omega) (by omega)
    rw [Int.tmod_eq_emod (by omega) (by omega)] at this
    rw [this]
    split_ifs <;> omega
  have s1 := sentinel_lookup img himg (Int.tmod (c + 2 + k - 1) (2 + k))
    (by rw [f1]; split_ifs <;> omega) (by rw [f1]; split_ifs <;> omega)
  have s2 := sentinel_lookup img himg (Int.tmod (c + 1) (2 + k))
    (by rw [g1]; split_ifs <;> omega) (by rw [g1]; split_ifs <;> omega)
  simp only [s1] at ht
  simp only [s2] at hb
  clear s1 s2
  generalize Int.tmod (c + 2 + k - 1) (2 + k) = F at ht f1
  generalize Int.tmod (c + 1) (2 + k) = G at hb g1
  have ht' : t = if F = 1 then 0 else F := by
    rw [ht]
    by_cases h : F = 1
    · rw [if_pos h, if_pos h, h]; exact f2
    · rw [if_neg h, if_neg h]
  have hb' : b = if G = 1 then (if k = 0 then 0 else 2) else G := by
    rw [hb]
    by_cases h : G = 1
    · rw [if_pos h, if_pos h, h]; exact g2
    · rw [if_neg h, if_neg h]
  clear ht hb f2 g2
  rw [e1, e2, e3, e4, ht', hb', f1, g1]
  clear ht' hb' f1 g1 e1 e2 e3 e4
  refine ⟨?_, ?_, ?_, ?_, ?_, ?_, ?_, ?_, ?_, ?_, ?_, ?_⟩ <;> intros <;> split_ifs <;> omega

theorem sampleImage_pointerFree : PointerFree sampleImage :=
  ⟨fun _ => by simp [sampleImage], fun _ => by simp [sampleImage]⟩

set_option maxRecDepth 100000 in
/-- Witness for C11: the root key-list with three stored keys, cursor on
row 0; top moves it to row 4. -/
theorem key_list_cursor_cycle_witness :
    readInt (rootNav 0).keys.eeprom 0 = (3 : Nat) ∧
    (key_list_top_button_pressed sampleImage sampleRender MAIN_MENU (rootNav 0)).cur_child
      = 4 :=
  ⟨by decide,
    (key_list_cursor_cycle sampleImage sampleRender (rootNav 0) 3 sampleImage_pointerFree
      (by decide) (by decide) (by decide) (by decide)).2.2.2.2.2.2.2.2.2.2.1 rfl rfl⟩

/-! ## Blocking actions -/

/-- A `check_button` call with no press coming sees none and changes
nothing else. -/
theorem check_button_quiet (env : Env) (hq : Quiet env) :
    (check_button env).1 = false ∧ Quiet (check_button env).2 ∧
    (check_button env).2.bus = env.bus ∧
    (check_button env).2.read_calls = env.read_calls ∧
    (check_button env).2.copy_calls = env.copy_calls := by
  unfold check_button
  refine ⟨?_, ?_, rfl, rfl, rfl⟩
  · show env.buttons.headD false = false
    cases hb : env.buttons with
    | nil => rfl
    | cons b bs =>
      exact hq b (by rw [hb]; exact List.mem_cons_self b bs)
  · intro b hb
    exact hq b (List.mem_of_mem_tail hb)

/-- The button poll of the copy handler with no press coming. -/
theorem copy_screen_poll_quiet (n : Nat) (env : Env) (hq : Quiet env) :
    ∃ env1, copy_screen_poll n env = (none, env1) ∧ Quiet env1 ∧ env1.bus = env.bus ∧
      env1.copy_calls = env.copy_calls := by
  induction n generalizing env with
  | zero => exact ⟨env, rfl, hq, rfl, rfl⟩
  | succ n ih =>
    obtain ⟨h1, q1, b1, -, c1⟩ := check_button_quiet env hq
    obtain ⟨h2, q2, b2, -, c2⟩ := check_button_quiet (check_button env).2 q1
    obtain ⟨env1, he, q3, b3, c3⟩ := ih (check_button (check_button env).2).2 q2
    refine ⟨env1, ?_, q3, by rw [b3, b2, b1], by rw [c3, c2, c1]⟩
    rw [← he]
    simp only [copy_screen_poll, h1, h2, Bool.false_eq_true, if_false]

/-- The call `copy_key` for a key of type 0. -/
theorem copy_key_eq (crc8 : List Nat → Nat) (env : Env) (key : Key) (hty : key.key_type = 0) :
    copy_key crc8 env key =
      some ((copy_ds1990 crc8 env.bus key.cur_key).1,
        Env.mk (copy_ds1990 crc8 env.bus key.cur_key).2 env.buttons env.read_calls
          (env.copy_calls + 1) env.polls) := by
  unfold copy_key
  rw [if_pos hty]

/-- The retry loop of the copy handler with no press coming, when the first
`k` attempts find no device and a device answers the next one: the loop
needs more than `k` iterations, and ends after `k + 1` calls of `copy_key`
with the code of the last one, 0 or 2. -/
theorem copy_screen_wait_quiet (crc8 : List Nat → Nat) (key : Key) (rest : List Bool)
    (hty : key.key_type = 0) (k : Nat) (fuel : Nat) (env : Env) (hq : Quiet env)
    (hp : env.bus.presence = List.replicate k false ++ true :: rest) :
    (fuel ≤ k → copy_screen_wait crc8 key fuel env = none) ∧
    (k < fuel → ∃ env1,
      copy_screen_wait crc8 key fuel env =
        some (LoopExit.code
          (if fromBytes ((List.range 8).map (fun t => env.bus.rxByte (8 + t))) ≠ key.cur_key
            then 2 else 0), env1) ∧
      env1.copy_calls = env.copy_calls + k + 1) := by
  induction k generalizing fuel env with
  | zero =>
    constructor
    · intro hf
      have : fuel = 0 := by omega
      rw [this]; rfl
    · intro hf
      obtain ⟨f, rfl⟩ : ∃ f, fuel = f + 1 := ⟨fuel - 1, by omega⟩
      obtain ⟨env1, he, -, b1, c1⟩ := copy_screen_poll_quiet 40 env hq
      have hcode := copy_ds1990_eq crc8 env1.bus key.cur_key
      rw [b1, hp] at hcode
      simp only [List.replicate, List.nil_append, List.headD_cons, Bool.true_eq_false,
        if_false] at hcode
      refine ⟨Env.mk (copy_ds1990 crc8 env1.bus key.cur_key).2 env1.buttons env1.read_calls
          (env1.copy_calls + 1) env1.polls, ?_, ?_⟩
      · simp only [copy_screen_wait, he, copy_key_eq crc8 env1 key hty]
        rw [b1, hcode]
        split_ifs with h1 h2
        · exact absurd h2 (by decide)
        · rfl
        · exact absurd ‹_› (by decide)
        · rfl
      · show env1.copy_calls + 1 = _
        rw [c1]
  | succ k ih =>
    obtain ⟨env1, he, q1, b1, c1⟩ := copy_screen_poll_quiet 40 env hq
    have hcode := copy_ds1990_eq crc8 env1.bus key.cur_key
    rw [b1, hp] at hcode
    simp only [List.replicate, List.cons_append, List.headD_cons, if_true] at hcode
    have hbus : (copy_ds1990 crc8 env1.bus key.cur_key).2 = env.bus.reset.2 := by
      unfold copy_ds1990
      rw [b1]
      have : env.bus.reset.1 = false := by
        show env.bus.presence.headD false = false
        rw [hp]; rfl
      rw [this]; rfl
    have q2 : Quiet (Env.mk (copy_ds1990 crc8 env1.bus key.cur_key).2 env1.buttons
        env1.read_calls (env1.copy_calls + 1) env1.polls) := q1
    have hp2 : (Env.mk (copy_ds1990 crc8 env1.bus key.cur_key).2 env1.buttons
        env1.read_calls (env1.copy_calls + 1) env1.polls).bus.presence
        = List.replicate k false ++ true :: rest := by
      show (copy_ds1990 crc8 env1.bus key.cur_key).2.presence = _
      rw [hbus]
      show env.bus.presence.tail = _
      rw [hp]; rfl
    have hrx : ∀ t, (Env.mk (copy_ds1990 crc8 env1.bus key.cur_key).2 env1.buttons
        env1.read_calls (env1.copy_calls + 1) env1.polls).bus.rxByte t
        = env.bus.rxByte t := by
      intro t
      apply rxByte_congr
      show (copy_ds1990 crc8 env1.bus key.cur_key).2.rx = _
      rw [hbus]; rfl
    constructor
    · intro hf
      cases fuel with
      | zero => rfl
      | succ f =>
        have := (ih f _ q2 hp2).1 (by omega)
        simp only [copy_screen_wait, he, copy_key_eq crc8 env1 key hty]
        rw [b1, hcode, if_pos rfl]
        rw [b1] at this
        exact this
    · intro hf
      obtain ⟨f, rfl⟩ : ∃ f, fuel = f + 1 := ⟨fuel - 1, by omega⟩
      obtain ⟨env2, h2, c2⟩ := (ih f _ q2 hp2).2 (by omega)
      simp only [hrx] at h2
      refine ⟨env2, ?_, ?_⟩
      · simp only [copy_screen_wait, he, copy_key_eq crc8 env1 key hty]
        rw [b1, hcode, if_pos rfl]
        rw [b1] at h2
        exact h2
      · rw [c2]
        show env1.copy_calls + 1 + k + 1 = _
        rw [c1]; omega

/-- C15, as amended. Copy retry loop with no cancel button pressed, for a
key of type 0 (DS1990): while the attempts find no device,
`copy_screen_middle_button_pressed` keeps invoking `copy_key` (after `k`
such attempts the loop has not ended), and it leaves its retry loop at the
first attempt a device answers, with code 0 when the read-back verifies and
code 2 (VerifyMismatch) when it does not; `copy_key` has then been called
`k + 1` times and the handler returns to the screen that was `prev_screen`
on entry. -/
theorem copy_retry_until_answer (crc8 : List Nat → Nat) (render : Render) (s : Nav) (env : Env)
    (k fuel : Nat) (rest : List Bool) (hty : s.keys.global_key.key_type = 0) (hq : Quiet env)
    (hp : env.bus.presence = List.replicate k false ++ true :: rest) :
    (fuel ≤ k → copy_screen_middle_button_pressed crc8 render fuel env s = none) ∧
    (k < fuel → ∃ nav env1,
      copy_screen_wait crc8 s.keys.global_key fuel env =
        some (LoopExit.code
          (if fromBytes ((List.range 8).map (fun t => env.bus.rxByte (8 + t)))
              ≠ s.keys.global_key.cur_key then 2 else 0), env1) ∧
      copy_screen_middle_button_pressed crc8 render fuel env s = some (nav, env1) ∧
      env1.copy_calls = env.copy_calls + k + 1 ∧
      nav.cur_screen = s.prev_screen ∧ nav.prev_screen = s.cur_screen ∧ nav.cur_child = 0) := by
  obtain ⟨hnone, hsome⟩ := copy_screen_wait_quiet crc8 s.keys.global_key rest hty k fuel env hq hp
  constructor
  · intro hf
    unfold copy_screen_middle_button_pressed
    simp only [hnone hf]
  · intro hf
    obtain ⟨env1, hw, hc⟩ := hsome hf
    have hh : ∃ nav, copy_screen_middle_button_pressed crc8 render fuel env s = some (nav, env1) ∧
        nav.cur_screen = s.prev_screen ∧ nav.prev_screen = s.cur_screen ∧ nav.cur_child = 0 := by
      unfold copy_screen_middle_button_pressed
      simp only [hw]
      exact ⟨_, rfl, rfl, rfl, rfl⟩
    obtain ⟨nav, h1, h2⟩ := hh
    exact ⟨nav, env1, hw, h1, hc, h2⟩

set_option maxRecDepth 100000 in
/-- Witness for C15: no device at the first attempt, a device that reads
back key A at the second; the copy screen was entered from the key menu. -/
theorem copy_retry_until_answer_witness :
    ∃ nav env1,
      copy_screen_middle_button_pressed dallas_crc8 sampleRender 2
        (quietEnv ⟨[false, true], [1, 0, 0, 0, 0, 0, 0, 61, 1, 10, 0, 0, 0, 0, 0, 20], []⟩)
        copyNav = some (nav, env1) ∧
      env1.copy_calls = 0 + 1 + 1 ∧ nav.cur_screen = KEY_MENU := by
  obtain ⟨nav, env1, -, h2, h3, h4, -, -⟩ :=
    (copy_retry_until_answer dallas_crc8 sampleRender copyNav
      (quietEnv ⟨[false, true], [1, 0, 0, 0, 0, 0, 0, 61, 1, 10, 0, 0, 0, 0, 0, 20], []⟩)
      1 2 [] rfl (by intro b hb; exact absurd hb (List.not_mem_nil b)) rfl).2 (by decide)
  exact ⟨nav, env1, h2, h3, h4⟩

set_option maxRecDepth 100000 in
/-- C15, counterexample. A device answers the first attempt and reads back
an identity other than key A, with no button pressed: the clone-write fails
with code 2, the retry loop ends with that code after this one call of
`copy_key`, and the handler returns to the previous screen. -/
theorem copy_stops_on_verify_mismatch :
    (copy_ds1990 dallas_crc8 (OneWire.mk [true] [] []) keyA.cur_key).1 = 2 ∧
    (copy_screen_wait dallas_crc8 copyNav.keys.global_key 5
      (quietEnv (OneWire.mk [true] [] []))).map (fun r => (r.1, r.2.copy_calls))
      = some (LoopExit.code 2, 1) ∧
    (copy_screen_middle_button_pressed dallas_crc8 sampleRender 5
      (quietEnv (OneWire.mk [true] [] [])) copyNav).map
        (fun r => (r.2.copy_calls, r.1.cur_screen))
      = some (1, KEY_MENU) := by
  refine ⟨by decide, by decide, by decide⟩

/-- The call `read_key` for a key of type 0. -/
theorem read_key_eq (crc8 : List Nat → Nat) (env : Env) (key : Key) (hty : key.key_type = 0) :
    read_key crc8 env key =
      some ((read_ds1990 crc8 env.bus key.cur_key).1, (read_ds1990 crc8 env.bus key.cur_key).2.1,
        Env.mk (read_ds1990 crc8 env.bus key.cur_key).2.2 env.buttons (env.read_calls + 1)
          env.copy_calls env.polls) := by
  unfold read_key
  rw [if_pos hty]

/-- The code of the read attempt a device answers: 2 for a wrong family
code, 3 for a bad checksum, 0 otherwise. -/
theorem read_ds1990_present (crc8 : List Nat → Nat) (bus : OneWire) (key : Nat)
    (hp : bus.presence.headD false = true) :
    (read_ds1990 crc8 bus key).1 =
      (if bus.rxByte 0 ≠ 0x01 then 2
        else if crc8 ((List.range 7).map bus.rxByte) % 256 ≠ bus.rxByte 7 then 3 else 0) ∧
    (read_ds1990 crc8 bus key).1 ≠ 1 := by
  have h := (read_ds1990_eq crc8 bus key).1
  rw [hp] at h
  simp only [Bool.true_eq_false, if_false] at h
  refine ⟨h, ?_⟩
  rw [h]
  split_ifs <;> decide

/-- A read attempt that finds no device: code 1, `*key` untouched, one
presence answer used up. -/
theorem read_ds1990_absent (crc8 : List Nat → Nat) (bus : OneWire) (key : Nat)
    (hp : bus.presence.headD false = false) :
    read_ds1990 crc8 bus key = (1, key, bus.reset.2) := by
  unfold read_ds1990
  have : bus.reset.1 = false := hp
  simp only [this, Bool.not_false, if_true]

/-- The wait loop of the read handler with no press coming, when the first
`k` attempts find no device and a device answers the next one: the loop
needs more than `k` iterations, and ends after `k + 1` calls of `read_key`
with the code of the last one. -/
theorem read_screen_wait_quiet (crc8 : List Nat → Nat) (rest : List Bool) (k : Nat)
    (fuel : Nat) (env : Env) (key : Key) (hty : key.key_type = 0) (hq : Quiet env)
    (hp : env.bus.presence = List.replicate k false ++ true :: rest) :
    (fuel ≤ k → read_screen_wait crc8 fuel env key = none) ∧
    (k < fuel → ∃ v env1,
      read_screen_wait crc8 fuel env key =
        some (LoopExit.code
          (if env.bus.rxByte 0 ≠ 0x01 then 2
            else if crc8 ((List.range 7).map env.bus.rxByte) % 256 ≠ env.bus.rxByte 7 then 3
            else 0), v, env1) ∧
      env1.read_calls = env.read_calls + k + 1) := by
  induction k generalizing fuel env key with
  | zero =>
    constructor
    · intro hf
      have : fuel = 0 := by omega
      rw [this]; rfl
    · intro hf
      obtain ⟨f, rfl⟩ : ∃ f, fuel = f + 1 := ⟨fuel - 1, by omega⟩
      obtain ⟨h1, q1, b1, r1, -⟩ := check_button_quiet env hq
      obtain ⟨h2, q2, b2, r2, -⟩ := check_button_quiet (check_button env).2 q1
      have hb : (check_button (check_button env).2).2.bus = env.bus := by rw [b2, b1]
      have hpres : env.bus.presence.headD false = true := by rw [hp]; rfl
      obtain ⟨hcode, hne⟩ := read_ds1990_present crc8 env.bus key.cur_key hpres
      refine ⟨(read_ds1990 crc8 env.bus key.cur_key).2.1,
        Env.mk (read_ds1990 crc8 env.bus key.cur_key).2.2
          (check_button (check_button env).2).2.buttons
          ((check_button (check_button env).2).2.read_calls + 1)
          (check_button (check_button env).2).2.copy_calls
          (check_button (check_button env).2).2.polls, ?_, ?_⟩
      · rw [hcode] at hne
        simp only [read_screen_wait, h1, h2, Bool.false_eq_true, if_false,
          read_key_eq crc8 _ key hty, hb, hcode]
        rw [if_neg hne]
      · show (check_button (check_button env).2).2.read_calls + 1 = _
        rw [r2, r1]
  | succ k ih =>
    obtain ⟨h1, q1, b1, r1, -⟩ := check_button_quiet env hq
    obtain ⟨h2, q2, b2, r2, -⟩ := check_button_quiet (check_button env).2 q1
    have hb : (check_button (check_button env).2).2.bus = env.bus := by rw [b2, b1]
    have hpres : env.bus.presence.headD false = false := by rw [hp]; rfl
    have hread := read_ds1990_absent crc8 env.bus key.cur_key hpres
    have q3 : Quiet (Env.mk env.bus.reset.2 (check_button (check_button env).2).2.buttons
        ((check_button (check_button env).2).2.read_calls + 1)
        (check_button (check_button env).2).2.copy_calls
        (check_button (check_button env).2).2.polls) := q2
    have hp3 : (Env.mk env.bus.reset.2 (check_button (check_button env).2).2.buttons
        ((check_button (check_button env).2).2.read_calls + 1)
        (check_button (check_button env).2).2.copy_calls
        (check_button (check_button env).2).2.polls).bus.presence
        = List.replicate k false ++ true :: rest := by
      show env.bus.presence.tail = _
      rw [hp]; rfl
    have hstep : ∀ f, read_screen_wait crc8 (f + 1) env key =
        read_screen_wait crc8 f
          (Env.mk env.bus.reset.2 (check_button (check_button env).2).2.buttons
            ((check_button (check_button env).2).2.read_calls + 1)
            (check_button (check_button env).2).2.copy_calls
            (check_button (check_button env).2).2.polls) key := by
      intro f
      simp only [read_screen_wait, h1, h2, Bool.false_eq_true, if_false,
        read_key_eq crc8 _ key hty, hb, hread, if_true]
    constructor
    · intro hf
      cases fuel with
      | zero => rfl
      | succ f =>
        rw [hstep]
        exact (ih f _ key hty q3 hp3).1 (by omega)
    · intro hf
      obtain ⟨f, rfl⟩ : ∃ f, fuel = f + 1 := ⟨fuel - 1, by omega⟩
      obtain ⟨v, env2, hw, hc⟩ := (ih f _ key hty q3 hp3).2 (by omega)
      refine ⟨v, env2, ?_, ?_⟩
      · rw [hstep]
        exact hw
      · rw [hc]
        show (check_button (check_button env).2).2.read_calls + 1 + k + 1 = _
        rw [r2, r1]; omega

/-- C16, as amended. Read failure handling with no cancel button pressed,
the one key type of the read screen selected (`cur_child` 0): an attempt
that finds no device makes `read_screen_middle_button_pressed` poll again
(after `k` such attempts its loop has not ended); when the first attempt a
device answers fails with WrongFamily or BadChecksum, the handler makes no
further read attempt (`read_key` has been called `k + 1` times) and ends
with `cur_screen` equal to the value of `prev_screen` on entry. -/
theorem read_failure_returns (crc8 : List Nat → Nat) (render : Render) (s : Nav) (env : Env)
    (k fuel : Nat) (rest : List Bool) (hchild : s.cur_child = 0) (hq : Quiet env)
    (hp : env.bus.presence = List.replicate k false ++ true :: rest)
    (hfail : env.bus.rxByte 0 ≠ 0x01 ∨
      crc8 ((List.range 7).map env.bus.rxByte) % 256 ≠ env.bus.rxByte 7) :
    (fuel ≤ k → read_screen_middle_button_pressed crc8 render fuel env s = none) ∧
    (k < fuel → ∃ nav env1,
      read_screen_middle_button_pressed crc8 render fuel env s = some (nav, env1) ∧
      env1.read_calls = env.read_calls + k + 1 ∧
      nav.cur_screen = s.prev_screen ∧ nav.cur_child = 0) := by
  have hty : ({ s.keys.global_key with key_type := toByte s.cur_child, key_index := -1 } :
      Key).key_type = 0 := by
    show toByte s.cur_child = 0
    rw [hchild]; rfl
  obtain ⟨hnone, hsome⟩ := read_screen_wait_quiet crc8 rest k fuel env _ hty hq hp
  constructor
  · intro hf
    unfold read_screen_middle_button_pressed
    simp only [hnone hf]
  · intro hf
    obtain ⟨v, env1, hw, hc⟩ := hsome hf
    have hcode : (if env.bus.rxByte 0 ≠ 0x01 then 2
        else if crc8 ((List.range 7).map env.bus.rxByte) % 256 ≠ env.bus.rxByte 7 then 3
        else 0) ≠ 0 := by
      split_ifs with h1 h2
      · decide
      · decide
      · rcases hfail with h | h
        · exact absurd h h1
        · exact absurd h h2
    have hh : ∃ nav, read_screen_middle_button_pressed crc8 render fuel env s = some (nav, env1) ∧
        nav.cur_screen = s.prev_screen ∧ nav.cur_child = 0 := by
      unfold read_screen_middle_button_pressed
      simp only [hw, if_neg hcode]
      exact ⟨_, rfl, rfl, rfl⟩
    obtain ⟨nav, h1, h2⟩ := hh
    exact ⟨nav, env1, h1, hc, h2⟩

set_option maxRecDepth 100000 in
/-- Witness for C16: a device of family 0x02 answers the first attempt; the
read screen was entered from the root key-list. -/
theorem read_failure_returns_witness :
    ∃ nav env1,
      read_screen_middle_button_pressed dallas_crc8 sampleRender 1
        (quietEnv ⟨[true], [2, 0, 0, 0, 0, 0, 0, 0], []⟩) readNav = some (nav, env1) ∧
      env1.read_calls = 0 + 0 + 1 ∧ nav.cur_screen = MAIN_MENU := by
  obtain ⟨nav, env1, h1, h2, h3, -⟩ :=
    (read_failure_returns dallas_crc8 sampleRender readNav
      (quietEnv ⟨[true], [2, 0, 0, 0, 0, 0, 0, 0], []⟩) 0 1 [] rfl
      (by intro b hb; exact absurd hb (List.not_mem_nil b)) rfl
      (Or.inl (by decide))).2 (by decide)
  exact ⟨nav, env1, h1, h2, h3⟩

set_option maxRecDepth 100000 in
/-- C16, counterexample. The first read attempt finds no device (code 1),
no button is pressed, and a DS1990 answers the second attempt: the handler
makes that second attempt by itself and ends on `READ_SUCCESSFUL_MENU`, not
on the screen it was entered from. -/
theorem read_polls_again_without_device :
    (read_ds1990 dallas_crc8 (OneWire.mk [false, true] [1, 0, 0, 0, 0, 0, 0, 61] []) 0).1 = 1 ∧
    readNav.prev_screen = MAIN_MENU ∧
    (read_screen_middle_button_pressed dallas_crc8 sampleRender 5
      (quietEnv (OneWire.mk [false, true] [1, 0, 0, 0, 0, 0, 0, 61] [])) readNav).map
        (fun r => (r.2.read_calls, r.1.cur_screen))
      = some (2, READ_SUCCESSFUL_MENU) := by
  refine ⟨by decide, rfl, by decide⟩

/-! ## Table words read by the cursor handlers -/

/-- The sentinel test of `key_list_top_button_pressed` reads the word at
`key_list_top_lookup`. -/
theorem key_list_top_reads (img : Image) (render : Render) (offset : Int) (s : Nav) :
    (key_list_top_button_pressed img render offset s).cur_child =
      if pgm_read_word img (key_list_top_lookup img offset s) = NULL_SCREEN then
        Int.tmod
          (key_list_top_lookup img offset s - offset - KEY_LIST_STRINGS_OFFSET
            + toByte (EEPROM.readInt s.keys.eeprom 0) - 1)
          (toByte (pgm_read_word img (offset + KEY_LIST_N_OFFSET))
            + toByte (EEPROM.readInt s.keys.eeprom 0))
      else
        key_list_top_lookup img offset s - offset - KEY_LIST_STRINGS_OFFSET
          - toByte (pgm_read_word img (offset + KEY_LIST_N_OFFSET)) := by
  unfold key_list_top_button_pressed key_list_top_lookup redraw
  simp only
  congr 1
  · ring_nf
  · ring

/-- The sentinel test of `key_list_bottom_button_pressed` reads the word at
`key_list_bottom_lookup`. -/
theorem key_list_bottom_reads (img : Image) (render : Render) (offset : Int) (s : Nav) :
    (key_list_bottom_button_pressed img render offset s).cur_child =
      if pgm_read_word img (key_list_bottom_lookup img offset s) = NULL_SCREEN then
        Int.tmod
          (key_list_bottom_lookup img offset s - offset - KEY_LIST_STRINGS_OFFSET
            - toByte (pgm_read_word img (offset + KEY_LIST_N_OFFSET)) + 1)
          (toByte (pgm_read_word img (offset + KEY_LIST_N_OFFSET))
            + toByte (EEPROM.readInt s.keys.eeprom 0))
      else
        key_list_bottom_lookup img offset s - offset - KEY_LIST_STRINGS_OFFSET
          - toByte (pgm_read_word img (offset + KEY_LIST_N_OFFSET)) := by
  unfold key_list_bottom_button_pressed key_list_bottom_lookup redraw
  simp only
  congr 1
  · ring_nf
  · ring

set_option maxRecDepth 100000 in
/-- C21 fails in the code: the sentinel test of the cursor handlers reads
`screens[offset + 6 + n_children + cur_child]` for the new `cur_child`
whatever its size.  On the root key-list with 3 stored keys, top from row 0
selects the stored-key row 4 and reads word 12, which is not word 8 or 9 but
the bottom-button cell of the read screen record; when that function lies
at the address 52 the cursor moves on to row 3.  With 50 stored keys, bottom
from row 49 selects row 50 and reads word 58, one past the 58 words of the
table; when the flash word there is 52 the cursor moves on to row 51. -/
theorem key_list_lookup_leaves_record :
    readInt (rootNav 0).keys.eeprom 0 = 3 ∧
    (∀ img, key_list_top_lookup img MAIN_MENU (rootNav 0) = 12) ∧
    (READ_SCREEN ≤ 12 ∧ (12 : Int) < READ_SUCCESSFUL_MENU) ∧
    (∀ img, pgm_read_word img 12
      = img.fnAddr Handler.display_screen_bottom_button_pressed) ∧
    (key_list_top_button_pressed sampleImage sampleRender MAIN_MENU (rootNav 0)).cur_child
      = 4 ∧
    (key_list_top_button_pressed aliasImage sampleRender MAIN_MENU (rootNav 0)).cur_child
      = 3 ∧
    readInt (nav50 49).keys.eeprom 0 = 50 ∧
    (∀ img, key_list_bottom_lookup img MAIN_MENU (nav50 49) = 58) ∧
    screens.length = 58 ∧
    (∀ img, pgm_read_word img 58 = img.outside 58) ∧
    (key_list_bottom_button_pressed sampleImage sampleRender MAIN_MENU (nav50 49)).cur_child
      = 50 ∧
    (key_list_bottom_button_pressed edgeImage sampleRender MAIN_MENU (nav50 49)).cur_child
      = 51 := by
  refine ⟨by decide, fun img => ?_, ⟨by decide, by decide⟩, fun img => rfl, by decide,
    by decide, by decide, fun img => ?_, rfl, fun img => rfl, by decide, by decide⟩
  · have h : readInt (rootNav 0).keys.eeprom 0 = 3 := by decide
    unfold key_list_top_lookup
    rw [h]
    rfl
  · have h : readInt (nav50 49).keys.eeprom 0 = 50 := by decide
    unfold key_list_bottom_lookup
    rw [h]
    rfl

end KeyEmulator
